import Mathlib

/-! Configuration versioning platform: a shallow embedding.

Lean model of the version ledger (`models/ConfigVersion.js`), the config store
(`models/Config.js`), the diff engine (`services/DiffService.js`), the audit sink
(`services/AuditService.js`), the error handler (`middleware/errorHandler.js`) and the
versioning service (`services/VersioningService.js`).

Modelling conventions.

* JavaScript numbers that hold version numbers, counters and indices are natural numbers;
  numbers inside documents are integers of magnitude below 2^53, which JavaScript holds exactly
  and writes in full.
* JavaScript strings are `String`s; `length` and `substring` count UTF-16 code units
  (`jsLength`, `jsSubstring0`).  A string is held in its well-formed form
  (`String.prototype.toWellFormed`): the first half of a surrogate pair that a cut leaves at the
  end of a string is written U+FFFD, which has the same length.
* A MongoDB collection is a list of documents in insertion order.  A query is a filter on
  that list; `sort({version: -1})` followed by `findOne` picks the matching document with the
  greatest version number.
* Everything one call reads from outside the store (the clock, freshly generated object ids,
  the SHA-256 digest, whether the audit collection accepts a write) is gathered in `World`.
* A service call returns its outcome (`Except ServiceError _`) together with the store it
  leaves behind.
* Schema options that act on the data are part of the model: the validator of `data`, the
  `required` paths and the `trim` setter of `changeLog` for a version, the `enum` of environment
  labels for a config.  A config read from the store is taken to satisfy its schema, so saving it
  back with a changed `activeVersions` succeeds.
* `deepDiff.diff` follows deep-diff 1.0.2 on JSON values (no dates, regular expressions or
  cyclic references).
* `_.set` and `_.unset` follow lodash 4.17.21 on JSON values, for paths written without
  brackets; `_.cloneDeep` is the identity on values.
* Two calls in flight at once are modelled by a schedule of their steps, a call taking its
  reads as one step and its insert as another.
-/

/-! ## Documents -/

/-- A JSON value: the `data` payload of a version (`Schema.Types.Mixed`).  An object is its list
of own enumerable properties in `Object.keys` order; a JavaScript object has no duplicate keys. -/
inductive Document where
  | null : Document
  | bool (b : Bool) : Document
  | num (n : Int) : Document
  | str (s : String) : Document
  | arr (xs : List Document) : Document
  | obj (fs : List (String × Document)) : Document
  deriving Repr, Inhabited

mutual
/-- Decision procedure for equality of documents. -/
def Document.decEq : (a b : Document) → Decidable (a = b)
  | .null, .null => isTrue rfl
  | .bool a, .bool b =>
      if h : a = b then isTrue (congrArg Document.bool h)
      else isFalse (fun h' => h (Document.bool.inj h'))
  | .num a, .num b =>
      if h : a = b then isTrue (congrArg Document.num h)
      else isFalse (fun h' => h (Document.num.inj h'))
  | .str a, .str b =>
      if h : a = b then isTrue (congrArg Document.str h)
      else isFalse (fun h' => h (Document.str.inj h'))
  | .arr xs, .arr ys =>
      match Document.decEqList xs ys with
      | isTrue h => isTrue (congrArg Document.arr h)
      | isFalse h => isFalse (fun h' => h (Document.arr.inj h'))
  | .obj fs, .obj gs =>
      match Document.decEqFields fs gs with
      | isTrue h => isTrue (congrArg Document.obj h)
      | isFalse h => isFalse (fun h' => h (Document.obj.inj h'))
  | .null, .bool _ | .null, .num _ | .null, .str _ | .null, .arr _ | .null, .obj _
  | .bool _, .null | .bool _, .num _ | .bool _, .str _ | .bool _, .arr _ | .bool _, .obj _
  | .num _, .null | .num _, .bool _ | .num _, .str _ | .num _, .arr _ | .num _, .obj _
  | .str _, .null | .str _, .bool _ | .str _, .num _ | .str _, .arr _ | .str _, .obj _
  | .arr _, .null | .arr _, .bool _ | .arr _, .num _ | .arr _, .str _ | .arr _, .obj _
  | .obj _, .null | .obj _, .bool _ | .obj _, .num _ | .obj _, .str _ | .obj _, .arr _ =>
      isFalse (fun h => Document.noConfusion h)
/-- Decision procedure for equality of arrays of documents. -/
def Document.decEqList : (xs ys : List Document) → Decidable (xs = ys)
  | [], [] => isTrue rfl
  | [], _ :: _ => isFalse (fun h => List.noConfusion h)
  | _ :: _, [] => isFalse (fun h => List.noConfusion h)
  | x :: xs, y :: ys =>
      match Document.decEq x y, Document.decEqList xs ys with
      | isTrue h, isTrue t => isTrue (congrArg₂ List.cons h t)
      | isFalse h, _ => isFalse (fun h' => h (List.cons.inj h').1)
      | _, isFalse t => isFalse (fun h' => t (List.cons.inj h').2)
/-- Decision procedure for equality of property lists. -/
def Document.decEqFields :
    (fs gs : List (String × Document)) → Decidable (fs = gs)
  | [], [] => isTrue rfl
  | [], _ :: _ => isFalse (fun h => List.noConfusion h)
  | _ :: _, [] => isFalse (fun h => List.noConfusion h)
  | (k, x) :: fs, (l, y) :: gs =>
      if hk : k = l then
        match Document.decEq x y, Document.decEqFields fs gs with
        | isTrue h, isTrue t => isTrue (by rw [hk, h, t])
        | isFalse h, _ => isFalse (fun h' => h (Prod.mk.inj (List.cons.inj h').1).2)
        | _, isFalse t => isFalse (fun h' => t (List.cons.inj h').2)
      else isFalse (fun h' => hk (Prod.mk.inj (List.cons.inj h').1).1)
end

instance : DecidableEq Document := Document.decEq

/-- The classification `realTypeOf` of deep-diff, restricted to JSON values. -/
def realTypeOf : Document → String
  | .null => "null"
  | .bool _ => "boolean"
  | .num _ => "number"
  | .str _ => "string"
  | .arr _ => "array"
  | .obj _ => "object"

/-- JavaScript `typeof v === 'object' && v !== null`: the validator of the `data` path. -/
def Document.isObject : Document → Bool
  | .arr _ => true
  | .obj _ => true
  | _ => false

/-! ## JavaScript string helpers -/

/-- White space and line terminators removed by `String.prototype.trim`. -/
def isJsWhitespace (c : Char) : Bool :=
  let n := c.toNat
  n == 0x09 || n == 0x0A || n == 0x0B || n == 0x0C || n == 0x0D || n == 0x20 || n == 0xA0 ||
  n == 0x1680 || (0x2000 ≤ n && n ≤ 0x200A) || n == 0x2028 || n == 0x2029 || n == 0x202F ||
  n == 0x205F || n == 0x3000 || n == 0xFEFF

/-- The method `String.prototype.trim`. -/
def jsTrim (s : String) : String :=
  String.mk ((s.data.dropWhile isJsWhitespace).reverse.dropWhile isJsWhitespace).reverse

/-- The UTF-16 code units of a character: one unit for a character of the basic plane, a
surrogate pair for a character above it. -/
def utf16Units (c : Char) : List Nat :=
  if c.toNat < 0x10000 then [c.toNat]
  else [0xD800 + (c.toNat - 0x10000) / 0x400, 0xDC00 + (c.toNat - 0x10000) % 0x400]

/-- The UTF-16 code units of a string: what JavaScript counts and indexes. -/
def jsUnits (s : String) : List Nat :=
  s.data.flatMap utf16Units

/-- The property `s.length`: the number of UTF-16 code units. -/
def jsLength (s : String) : Nat :=
  (jsUnits s).length

/-- The characters that make up the first `n` code units of a string; when the cut falls inside
a surrogate pair, the first half that is left is written U+FFFD. -/
def takeUnits : List Char → Nat → List Char
  | [], _ => []
  | _ :: _, 0 => []
  | c :: cs, n + 1 =>
    if c.toNat < 0x10000 then c :: takeUnits cs n
    else
      match n with
      | 0 => [Char.ofNat 0xFFFD]
      | m + 1 => c :: takeUnits cs m

/-- The call `s.substring(0, n)`, which cuts after `n` code units. -/
def jsSubstring0 (s : String) (n : Nat) : String :=
  String.mk (takeUnits s.data n)

/-- A sequence of code units with a first half of a surrogate pair at its end written
U+FFFD. -/
def wellFormedEnd : List Nat → List Nat
  | [] => []
  | [u] => if 0xD800 ≤ u ∧ u < 0xDC00 then [0xFFFD] else [u]
  | u :: v :: rest => u :: wellFormedEnd (v :: rest)

/-- The method `Array.prototype.join` on an array of strings. -/
def jsJoin (sep : String) : List String → String
  | [] => ""
  | [x] => x
  | x :: y :: rest => x ++ sep ++ jsJoin sep (y :: rest)

/-! ## The deep-diff library (`deepDiff.diff`) -/

/-- One element of a difference path: a property name or an array index. -/
inductive PathSeg where
  | key (k : String) : PathSeg
  | idx (i : Nat) : PathSeg
  deriving DecidableEq, Repr

/-- How `Array.prototype.join` renders a path element. -/
def PathSeg.render : PathSeg → String
  | .key k => k
  | .idx i => toString i

/-- The `item` of an array difference: an element appended (`N`) or removed (`D`). -/
inductive ArrayItem where
  | N (rhs : Document) : ArrayItem
  | D (lhs : Document) : ArrayItem
  deriving DecidableEq, Repr

/-- A difference record of deep-diff: `DiffNew`, `DiffDeleted`, `DiffEdit`, `DiffArray`. -/
inductive Diff where
  | N (path : List PathSeg) (rhs : Document) : Diff
  | D (path : List PathSeg) (lhs : Document) : Diff
  | E (path : List PathSeg) (lhs rhs : Document) : Diff
  | A (path : List PathSeg) (index : Nat) (item : ArrayItem) : Diff
  deriving DecidableEq, Repr

/-- The property `kind` of a difference record. -/
def Diff.kind : Diff → String
  | .N _ _ => "N"
  | .D _ _ => "D"
  | .E _ _ _ => "E"
  | .A _ _ _ => "A"

/-- The path handed to the record constructor. -/
def Diff.rawPath : Diff → List PathSeg
  | .N p _ => p
  | .D p _ => p
  | .E p _ _ => p
  | .A p _ _ => p

/-- The property `path`: defined only when the path is non-empty (`if (path && path.length)`). -/
def Diff.path (d : Diff) : Option (List PathSeg) :=
  if d.rawPath.isEmpty then none else some d.rawPath

/-- The property `lhs` (`undefined` is `none`). -/
def Diff.lhs : Diff → Option Document
  | .D _ l => some l
  | .E _ l _ => some l
  | _ => none

/-- The property `rhs` (`undefined` is `none`). -/
def Diff.rhs : Diff → Option Document
  | .N _ r => some r
  | .E _ _ r => some r
  | _ => none

/-- Surplus elements of the longer array, reported from the last index downwards:
`while (i > j) changes.push(new DiffArray(currentPath, i, new DiffNew(undefined, rhs[i--])))`
and the mirror loop for removed elements. -/
def arraySurplus (currentPath : List PathSeg) (mk : Document → ArrayItem) :
    Nat → List Document → List Diff
  | _, [] => []
  | i, x :: rest => arraySurplus currentPath mk (i + 1) rest ++ [Diff.A currentPath i (mk x)]

mutual
/-- The recursive walk `deepDiff(lhs, rhs, changes, prefilter, path, key, stack)` of deep-diff
1.0.2 on JSON values, returning the records it pushes onto `changes`; `currentPath` is
`path` with `key` appended. -/
def deepDiff.walk : Document → Document → List PathSeg → List Diff
  | .arr xs, .arr ys, currentPath => deepDiff.walkArray xs ys currentPath 0
  | .obj fs, .obj gs, currentPath =>
      deepDiff.walkKeys fs gs currentPath ++
        (gs.filter (fun p => !(fs.map Prod.fst).contains p.1 && p.1 != "")).map
          (fun p => Diff.N (currentPath ++ [PathSeg.key p.1]) p.2)
  | lhs, rhs, currentPath =>
      if realTypeOf lhs != realTypeOf rhs then [Diff.E currentPath lhs rhs]
      else if lhs != rhs then [Diff.E currentPath lhs rhs]
      else []
/-- The array branch: surplus elements first, then the common indices from the last one down to
zero (`for (; i >= 0; --i) deepDiff(lhs[i], rhs[i], ..., currentPath, i, ...)`). -/
def deepDiff.walkArray : List Document → List Document → List PathSeg → Nat → List Diff
  | [], ys, currentPath, i => arraySurplus currentPath ArrayItem.N i ys
  | x :: xs, [], currentPath, i => arraySurplus currentPath ArrayItem.D i (x :: xs)
  | x :: xs, y :: ys, currentPath, i =>
      deepDiff.walkArray xs ys currentPath (i + 1) ++
        deepDiff.walk x y (currentPath ++ [PathSeg.idx i])
/-- The first loop of the object branch, over `Object.keys(lhs)`: a key also present in `rhs` is
compared recursively, a key absent from `rhs` is reported deleted. -/
def deepDiff.walkKeys :
    List (String × Document) → List (String × Document) → List PathSeg → List Diff
  | [], _, _ => []
  | (k, v) :: rest, gs, currentPath =>
      (match gs.lookup k with
        | some w => deepDiff.walk v w (currentPath ++ [PathSeg.key k])
        | none => [Diff.D (currentPath ++ [PathSeg.key k]) v]) ++
      deepDiff.walkKeys rest gs currentPath
end

/-- The exported `diff(lhs, rhs)` of deep-diff: the array of differences, or `undefined`
(`none`) when there is none. -/
def deepDiff.diff (lhs rhs : Document) : Option (List Diff) :=
  let changes := deepDiff.walk lhs rhs []
  if changes.isEmpty then none else some changes

/-! ## `services/DiffService.js` -/

/-- One entry of `DiffResult.changes`. -/
structure Change where
  type : String
  path : String
  oldValue : Option Document
  newValue : Option Document
  deriving DecidableEq, Repr

/-- The value returned by `DiffService.computeDiff`; the three counters are absent
(`undefined`) from the result built when there is no difference. -/
structure DiffResult where
  hasChanges : Bool
  changes : List Change
  summary : String
  added : Option Nat := none
  modified : Option Nat := none
  deleted : Option Nat := none
  deriving DecidableEq, Repr

namespace DiffService

/-- `DiffService.getChangeType`. -/
def getChangeType (diff : Diff) : String :=
  if diff.kind = "N" then "added"
  else if diff.kind = "D" then "deleted"
  else if diff.kind = "E" then "modified"
  else if diff.kind = "A" then "array_modified"
  else "unknown"

/-- The expression `changes.filter(c => c.type === t).length`. -/
def countType (changes : List Change) (t : String) : Nat :=
  (changes.filter (fun c => c.type == t)).length

/-- `DiffService.generateSummary`. -/
def generateSummary (changes : List Change) : String :=
  let added := countType changes "added"
  let modified := countType changes "modified"
  let deleted := countType changes "deleted"
  let parts : List String :=
    (if added > 0 then [toString added ++ " added"] else []) ++
    (if modified > 0 then [toString modified ++ " modified"] else []) ++
    (if deleted > 0 then [toString deleted ++ " deleted"] else [])
  let joined := jsJoin ", " parts
  if joined = "" then "No changes" else joined

/-- `DiffService.computeDiff`. -/
def computeDiff (oldData newData : Document) : DiffResult :=
  match deepDiff.diff oldData newData with
  | none => { hasChanges := false, changes := [], summary := "No changes detected" }
  | some differences =>
    let changes := differences.map (fun diff =>
      { type := getChangeType diff
        path := (match diff.path with
          | some p => jsJoin "." (p.map PathSeg.render)
          | none => "root")
        oldValue := diff.lhs
        newValue := diff.rhs : Change })
    { hasChanges := true
      changes := changes
      summary := generateSummary changes
      added := some (countType changes "added")
      modified := some (countType changes "modified")
      deleted := some (countType changes "deleted") }

/-- The callback of `diff.changes.slice(0, 3).map(...)` in `generateChangeLog`. -/
def describeChange (change : Change) : String :=
  if change.type = "added" then "Added " ++ change.path
  else if change.type = "modified" then "Modified " ++ change.path
  else if change.type = "deleted" then "Deleted " ++ change.path
  else "Changed " ++ change.path

/-- `DiffService.generateChangeLog(diff, maxLength = 200)`. -/
def generateChangeLog (diff : DiffResult) (maxLength : Nat := 200) : String :=
  if !diff.hasChanges then "No changes"
  else
    let changeDescriptions := (diff.changes.take 3).map describeChange
    let description := jsJoin "; " changeDescriptions
    let description :=
      if diff.changes.length > 3 then
        description ++ " (+" ++ toString (diff.changes.length - 3) ++ " more)"
      else description
    if jsLength description > maxLength then jsSubstring0 description maxLength ++ "..."
    else description

end DiffService

/-! ## Canonical serialization (`JSON.stringify(data, Object.keys(data).sort())`) -/

/-- A lower-case hexadecimal digit. -/
def hexDigit (n : Nat) : Char :=
  if n < 10 then Char.ofNat (48 + n) else Char.ofNat (87 + n)

/-- The escape of one character in `QuoteJSONString`. -/
def jsonEscapeChar (c : Char) : List Char :=
  let bs := Char.ofNat 92
  if c.toNat = 34 then [bs, c]
  else if c.toNat = 92 then [bs, bs]
  else if c.toNat = 8 then [bs, 'b']
  else if c.toNat = 12 then [bs, 'f']
  else if c.toNat = 10 then [bs, 'n']
  else if c.toNat = 13 then [bs, 'r']
  else if c.toNat = 9 then [bs, 't']
  else if c.toNat < 32 then [bs, 'u', '0', '0', hexDigit (c.toNat / 16), hexDigit (c.toNat % 16)]
  else [c]

/-- `QuoteJSONString`: the JSON string literal for `s`. -/
def jsonQuote (s : String) : String :=
  String.mk ([Char.ofNat 34] ++ (s.data.map jsonEscapeChar).flatten ++ [Char.ofNat 34])

mutual
/-- `JSON.stringify(value, replacer)` with an array replacer whose (deduplicated) strings are
`propertyList`: every object, at every depth, is serialized with exactly the properties named in
`propertyList`, in the order of `propertyList`. -/
def JSON.stringify (propertyList : List String) : Document → String
  | .null => "null"
  | .bool b => if b then "true" else "false"
  | .num n => toString n
  | .str s => jsonQuote s
  | .arr xs => "[" ++ jsJoin "," (JSON.stringifyElements propertyList xs) ++ "]"
  | .obj fs =>
      let serialized := JSON.stringifyProperties propertyList fs
      "\x7b" ++ jsJoin "," (propertyList.filterMap (fun P =>
        (serialized.lookup P).map (fun v => jsonQuote P ++ ":" ++ v))) ++ "\x7d"
/-- The serialized elements of an array. -/
def JSON.stringifyElements (propertyList : List String) : List Document → List String
  | [] => []
  | x :: xs => JSON.stringify propertyList x :: JSON.stringifyElements propertyList xs
/-- The serialized values of the properties of an object, by key. -/
def JSON.stringifyProperties (propertyList : List String) :
    List (String × Document) → List (String × String)
  | [] => []
  | (k, v) :: rest =>
      (k, JSON.stringify propertyList v) :: JSON.stringifyProperties propertyList rest
end

/-- `Object.keys(value)`. -/
def Object.keys : Document → List String
  | .obj fs => fs.map Prod.fst
  | .arr xs => (List.range xs.length).map toString
  | .str s => (List.range (jsLength s)).map toString
  | _ => []

/-- The comparison `x < y` of two strings in JavaScript, on their UTF-16 code units: the first
unit that differs decides, and a proper initial part comes first. -/
def unitsLt : List Nat → List Nat → Bool
  | _, [] => false
  | [], _ :: _ => true
  | a :: as, b :: bs => decide (a < b) || (a == b && unitsLt as bs)

/-- `Array.prototype.sort()` with the default comparison, on an array of strings: ascending by
UTF-16 code units. -/
def jsSort (xs : List String) : List String :=
  xs.insertionSort (fun a b => unitsLt (jsUnits b) (jsUnits a) = false)

/-- The string handed to the digest in the `pre('validate')` hook of `ConfigVersion`. -/
def canonicalSerialization (data : Document) : String :=
  JSON.stringify (jsSort (Object.keys data)).eraseDups data

/-- JavaScript truthiness of a JSON value. -/
def Document.truthy : Document → Bool
  | .null => false
  | .bool b => b
  | .num n => n != 0
  | .str s => s != ""
  | _ => true

/-! ## Errors and the error handler (`middleware/errorHandler.js`) -/

/-- A thrown `Error`: its `name`, `message`, and the optional `status` and `code` properties. -/
structure ServiceError where
  name : String := "Error"
  message : String
  status : Option Nat := none
  code : Option Nat := none
  deriving DecidableEq, Repr

deriving instance DecidableEq for Except

/-- What `errorHandler` sends: the HTTP status and the `error` field of the body. -/
structure ErrorResponse where
  status : Nat
  error : String
  deriving DecidableEq, Repr

/-- `errorHandler(err, req, res, next)`. -/
def errorHandler (err : ServiceError) : ErrorResponse :=
  if err.name = "ValidationError" then { status := 400, error := "Validation Error" }
  else if err.name = "CastError" then { status := 400, error := "Invalid ID format" }
  else if err.code = some 11000 then { status := 409, error := "Duplicate entry" }
  else if err.name = "MongoNetworkError" then
    { status := 503, error := "Database connection error" }
  else
    { status := (match err.status with
        | some 0 => 500
        | some n => n
        | none => 500)
      error := if err.message = "" then "Internal server error" else err.message }

/-! ## `models/Config.js` and `models/ConfigVersion.js` -/

/-- The environment labels of the schema: `enum: ['dev', 'staging', 'prod', 'test']`. -/
inductive Environment where
  | dev : Environment
  | staging : Environment
  | prod : Environment
  | test : Environment
  deriving DecidableEq, Repr

/-- The label as a string. -/
def Environment.label : Environment → String
  | .dev => "dev"
  | .staging => "staging"
  | .prod => "prod"
  | .test => "test"

/-- The nested path `activeVersions` of a config: one nullable number per environment. -/
structure ActiveVersions where
  dev : Option Nat := none
  staging : Option Nat := none
  prod : Option Nat := none
  test : Option Nat := none
  deriving DecidableEq, Repr

/-- The read `config.activeVersions[environment]`. -/
def ActiveVersions.get (a : ActiveVersions) : Environment → Option Nat
  | .dev => a.dev
  | .staging => a.staging
  | .prod => a.prod
  | .test => a.test

/-- The assignment `config.activeVersions[environment] = version`. -/
def ActiveVersions.set (a : ActiveVersions) (environment : Environment) (version : Nat) :
    ActiveVersions :=
  match environment with
  | .dev => { a with dev := some version }
  | .staging => { a with staging := some version }
  | .prod => { a with prod := some version }
  | .test => { a with test := some version }

/-- A document of the `Config` collection. -/
structure Config where
  _id : String
  tenantId : String
  name : String
  description : Option String := none
  environments : List Environment
  activeVersions : ActiveVersions := {}
  tags : List String := []
  isArchived : Bool := false
  createdBy : String
  createdAt : Nat := 0
  updatedAt : Nat := 0
  deriving DecidableEq, Repr

/-- A document of the `ConfigVersion` collection. -/
structure ConfigVersion where
  _id : String
  configId : String
  tenantId : String
  version : Nat
  branch : String
  parentVersion : Option Nat
  data : Document
  checksum : Option String
  changeLog : Option String
  createdBy : String
  createdAt : Nat
  isArchived : Bool
  deriving DecidableEq, Repr

/-- A document of the `AuditLog` collection (`models/AuditLog.js`). -/
structure AuditLog where
  _id : String
  entityType : String
  entityId : String
  tenantId : String
  action : String
  performedBy : String
  performedAt : Nat
  metadata : Document
  ipAddress : Option String
  userAgent : Option String
  deriving DecidableEq, Repr

/-- The database: the three collections, each in insertion order.  In the `Config` collection
`_id` is unique. -/
structure Store where
  configs : List Config := []
  versions : List ConfigVersion := []
  auditLogs : List AuditLog := []
  deriving DecidableEq, Repr

/-- What one service call reads from outside the store. -/
structure World where
  /-- The function `crypto.createHash('sha256').update(s).digest('hex')`. -/
  sha256 : String → String
  /-- The reading of `Date.now()`. -/
  now : Nat
  /-- The `_id` generated for the version document built by the call. -/
  versionId : String
  /-- The `_id` generated for the audit entry built by the call. -/
  auditId : String
  /-- Whether the audit collection accepts the write. -/
  auditWritable : Bool

/-- `Config.findOne({ _id: configId, tenantId })`. -/
def Config.findOne (s : Store) (configId tenantId : String) : Option Config :=
  s.configs.find? (fun c => c._id == configId && c.tenantId == tenantId)

/-- `config.save()`: the `pre('save')` hook stamps `updatedAt`, then the stored document with
this `_id` is replaced. -/
def Config.save (w : World) (s : Store) (config : Config) : Config × Store :=
  let saved := { config with updatedAt := w.now }
  (saved, { s with configs := s.configs.map (fun c => if c._id = saved._id then saved else c) })

/-- The document with the greatest `version` in a list (`sort({ version: -1 })` then
`findOne`); of equal versions the earlier one is kept. -/
def ConfigVersion.latest (vs : List ConfigVersion) : Option ConfigVersion :=
  vs.foldl (fun best v =>
    match best with
    | none => some v
    | some b => if b.version < v.version then some v else some b) none

/-- `ConfigVersion.getNextVersion(configId)`. -/
def ConfigVersion.getNextVersion (s : Store) (configId : String) : Nat :=
  match ConfigVersion.latest (s.versions.filter (fun v => v.configId == configId)) with
  | some lastVersion => lastVersion.version + 1
  | none => 1

/-- `ConfigVersion.findOne({ configId, branch }).sort({ version: -1 })`. -/
def ConfigVersion.findLatestOnBranch (s : Store) (configId branch : String) :
    Option ConfigVersion :=
  ConfigVersion.latest (s.versions.filter (fun v => v.configId == configId && v.branch == branch))

/-- `ConfigVersion.findOne({ configId, tenantId, branch })`. -/
def ConfigVersion.findOneByBranch (s : Store) (configId tenantId branch : String) :
    Option ConfigVersion :=
  s.versions.find? (fun v => v.configId == configId && v.tenantId == tenantId && v.branch == branch)

/-- `ConfigVersion.findOne({ configId, tenantId, version })`. -/
def ConfigVersion.findOneByVersion (s : Store) (configId tenantId : String) (version : Nat) :
    Option ConfigVersion :=
  s.versions.find?
    (fun v => v.configId == configId && v.tenantId == tenantId && v.version == version)

/-- The fields handed to `new ConfigVersion({...})`. -/
structure ConfigVersionInput where
  configId : String
  tenantId : String
  version : Nat
  branch : String
  parentVersion : Option Nat
  data : Document
  changeLog : Option String
  createdBy : String

/-- `new ConfigVersion({...})`: the schema setters and defaults are applied (`trim: true` on
`changeLog`, `createdAt: Date.now`, `isArchived: false`) and an `_id` is generated. -/
def ConfigVersion.new (w : World) (i : ConfigVersionInput) : ConfigVersion :=
  { _id := w.versionId
    configId := i.configId
    tenantId := i.tenantId
    version := i.version
    branch := i.branch
    parentVersion := i.parentVersion
    data := i.data
    checksum := none
    changeLog := i.changeLog.map jsTrim
    createdBy := i.createdBy
    createdAt := w.now
    isArchived := false }

/-- The `pre('validate')` hook: `if (this.data) this.checksum = sha256(canonical(data))`. -/
def ConfigVersion.preValidate (w : World) (doc : ConfigVersion) : ConfigVersion :=
  if doc.data.truthy then { doc with checksum := some (w.sha256 (canonicalSerialization doc.data)) }
  else doc

/-- Schema validation of a version: the `required` paths are present (a required string must be
non-empty) and `data` passes its validator `typeof v === 'object' && v !== null`. -/
def ConfigVersion.validate (doc : ConfigVersion) : Bool :=
  doc.tenantId != "" && doc.data.isObject && doc.checksum.isSome && doc.createdBy != ""

/-- `version.save()`: hook, validation, then the insert, which the unique index
`{ configId: 1, version: -1 }` rejects with code 11000 on a duplicate pair.  The document is
written as it stands; the schema option `minimize`, by which mongoose leaves empty maps out of
what it writes, is not modelled, so the model covers `data` without empty maps. -/
def ConfigVersion.save (w : World) (s : Store) (doc : ConfigVersion) :
    Except ServiceError (ConfigVersion × Store) :=
  let doc := ConfigVersion.preValidate w doc
  if !ConfigVersion.validate doc then
    .error { name := "ValidationError", message := "ConfigVersion validation failed" }
  else if s.versions.any (fun v => v.configId == doc.configId && v.version == doc.version) then
    .error { name := "MongoServerError", message := "E11000 duplicate key error collection",
             code := some 11000 }
  else
    .ok (doc, { s with versions := s.versions ++ [doc] })

/-! ## `services/AuditService.js` -/

/-- The argument of `AuditService.log`. -/
structure AuditInput where
  entityType : String
  entityId : String
  tenantId : String
  action : String
  performedBy : String
  metadata : Document := .obj []
  ipAddress : Option String := none
  userAgent : Option String := none

/-- Schema validation of an audit entry: required paths and the two `enum` lists. -/
def AuditLog.validate (e : AuditLog) : Bool :=
  ["config", "config_version", "tenant", "user"].contains e.entityType &&
  e.entityId != "" &&
  ["CREATE", "UPDATE", "DELETE", "VERSION_CREATE", "VERSION_DELETE", "ROLLBACK", "BRANCH_CREATE",
    "DEPLOY", "ARCHIVE", "RESTORE", "VIEW"].contains e.action &&
  e.performedBy != ""

/-- `AuditService.log`: the entry is saved and returned; any failure in the `try` block is
caught and `null` is returned. -/
def AuditService.log (w : World) (s : Store) (i : AuditInput) : Option AuditLog × Store :=
  let auditEntry : AuditLog :=
    { _id := w.auditId
      entityType := i.entityType
      entityId := i.entityId
      tenantId := i.tenantId
      action := i.action
      performedBy := i.performedBy
      performedAt := w.now
      metadata := i.metadata
      ipAddress := i.ipAddress
      userAgent := i.userAgent }
  if AuditLog.validate auditEntry && w.auditWritable then
    (some auditEntry, { s with auditLogs := s.auditLogs ++ [auditEntry] })
  else (none, s)

/-- A nullable number as a JSON value. -/
def Document.ofOptNat : Option Nat → Document
  | some n => .num n
  | none => .null

/-- A nullable string as a JSON value. -/
def Document.ofOptString : Option String → Document
  | some x => .str x
  | none => .null

/-! ## `services/VersioningService.js` -/

/-- JavaScript `!x` on a nullable number: `null`, `undefined` and `0` are falsy. -/
def jsNotNum : Option Nat → Bool
  | none => true
  | some n => n == 0

/-- JavaScript `!x` on a nullable string: `null`, `undefined` and `''` are falsy. -/
def jsNotStr : Option String → Bool
  | none => true
  | some x => x == ""

/-- The argument of `createVersion`, with its destructuring defaults. -/
structure CreateVersionArgs where
  configId : String
  tenantId : String
  data : Document
  branch : String := "main"
  parentVersion : Option Nat := none
  changeLog : Option String := none
  createdBy : String
  ipAddress : Option String := none
  userAgent : Option String := none

/-- The argument of `createBranch`. -/
structure CreateBranchArgs where
  configId : String
  tenantId : String
  newBranch : String
  sourceVersion : Nat
  data : Document
  createdBy : String
  changeLog : Option String := none
  ipAddress : Option String := none
  userAgent : Option String := none

/-- The argument of `deployVersion`. -/
structure DeployArgs where
  configId : String
  tenantId : String
  version : Nat
  environment : Environment
  performedBy : String
  ipAddress : Option String := none
  userAgent : Option String := none

/-- The argument of `rollback`. -/
structure RollbackArgs where
  configId : String
  tenantId : String
  environment : Environment
  targetVersion : Nat
  performedBy : String
  reason : Option String := none
  ipAddress : Option String := none
  userAgent : Option String := none

/-- The value returned by `deployVersion`. -/
structure DeployResult where
  success : Bool
  configId : String
  environment : Environment
  previousVersion : Option Nat
  deployedVersion : Nat
  deployedAt : Nat
  deriving DecidableEq, Repr

/-- The value returned by `rollback`. -/
structure RollbackResult where
  success : Bool
  configId : String
  environment : Environment
  previousVersion : Option Nat
  currentVersion : Nat
  rolledBackAt : Nat
  deriving DecidableEq, Repr

namespace VersioningService

/-- `VersioningService.createVersion`. -/
def createVersion (w : World) (s : Store) (a : CreateVersionArgs) :
    Except ServiceError ConfigVersion × Store :=
  match Config.findOne s a.configId a.tenantId with
  | none => (.error { message := "Config not found", status := some 404 }, s)
  | some config =>
    if config.isArchived then
      (.error
        { message := "Cannot create versions for an archived configuration. Restore it first.",
          status := some 400 }, s)
    else
      let nextVersion := ConfigVersion.getNextVersion s a.configId
      let currentVersion :=
        if jsNotNum a.parentVersion && decide (nextVersion > 1) then
          ConfigVersion.findLatestOnBranch s a.configId a.branch
        else none
      let finalParentVersion :=
        match currentVersion with
        | some cur => some cur.version
        | none => a.parentVersion
      let finalChangeLog :=
        match currentVersion with
        | some cur =>
            if jsNotStr a.changeLog then
              some (DiffService.generateChangeLog (DiffService.computeDiff cur.data a.data))
            else a.changeLog
        | none => a.changeLog
      let version := ConfigVersion.new w
        { configId := a.configId
          tenantId := a.tenantId
          version := nextVersion
          branch := a.branch
          parentVersion := finalParentVersion
          data := a.data
          changeLog := finalChangeLog
          createdBy := a.createdBy }
      match ConfigVersion.save w s version with
      | .error e => (.error e, s)
      | .ok (version, s1) =>
        let logged := AuditService.log w s1
          { entityType := "config_version"
            entityId := version._id
            tenantId := a.tenantId
            action := "VERSION_CREATE"
            performedBy := a.createdBy
            metadata := .obj [("configId", .str a.configId), ("version", .num nextVersion),
              ("branch", .str a.branch), ("parentVersion", Document.ofOptNat finalParentVersion)]
            ipAddress := a.ipAddress
            userAgent := a.userAgent }
        (.ok version, logged.2)

/-- `VersioningService.rollback`. -/
def rollback (w : World) (s : Store) (a : RollbackArgs) :
    Except ServiceError RollbackResult × Store :=
  match Config.findOne s a.configId a.tenantId with
  | none => (.error { message := "Config not found", status := some 404 }, s)
  | some config =>
    match ConfigVersion.findOneByVersion s a.configId a.tenantId a.targetVersion with
    | none => (.error { message := "Target version not found", status := some 404 }, s)
    | some _ =>
      let currentVersion := config.activeVersions.get a.environment
      let config :=
        { config with activeVersions := config.activeVersions.set a.environment a.targetVersion }
      let s1 := (Config.save w s config).2
      let logged := AuditService.log w s1
        { entityType := "config"
          entityId := a.configId
          tenantId := a.tenantId
          action := "ROLLBACK"
          performedBy := a.performedBy
          metadata := .obj [("environment", .str a.environment.label),
            ("fromVersion", Document.ofOptNat currentVersion),
            ("toVersion", .num a.targetVersion), ("reason", Document.ofOptString a.reason)]
          ipAddress := a.ipAddress
          userAgent := a.userAgent }
      (.ok { success := true
             configId := a.configId
             environment := a.environment
             previousVersion := currentVersion
             currentVersion := a.targetVersion
             rolledBackAt := w.now }, logged.2)

/-- `VersioningService.createBranch`. -/
def createBranch (w : World) (s : Store) (a : CreateBranchArgs) :
    Except ServiceError ConfigVersion × Store :=
  match Config.findOne s a.configId a.tenantId with
  | none => (.error { message := "Config not found", status := some 404 }, s)
  | some _ =>
    match ConfigVersion.findOneByBranch s a.configId a.tenantId a.newBranch with
    | some _ =>
      (.error { message := "Branch " ++ "'" ++ a.newBranch ++ "'" ++ " already exists",
                status := some 400 }, s)
    | none =>
      let nextVersion := ConfigVersion.getNextVersion s a.configId
      let version := ConfigVersion.new w
        { configId := a.configId
          tenantId := a.tenantId
          version := nextVersion
          branch := a.newBranch
          parentVersion := some a.sourceVersion
          data := a.data
          changeLog :=
            if jsNotStr a.changeLog then
              some ("Branch created from version " ++ toString a.sourceVersion)
            else a.changeLog
          createdBy := a.createdBy }
      match ConfigVersion.save w s version with
      | .error e => (.error e, s)
      | .ok (version, s1) =>
        let logged := AuditService.log w s1
          { entityType := "config_version"
            entityId := version._id
            tenantId := a.tenantId
            action := "BRANCH_CREATE"
            performedBy := a.createdBy
            metadata := .obj [("configId", .str a.configId), ("newBranch", .str a.newBranch),
              ("sourceVersion", .num a.sourceVersion), ("newVersion", .num nextVersion)]
            ipAddress := a.ipAddress
            userAgent := a.userAgent }
        (.ok version, logged.2)

/-- `VersioningService.deployVersion`. -/
def deployVersion (w : World) (s : Store) (a : DeployArgs) :
    Except ServiceError DeployResult × Store :=
  match Config.findOne s a.configId a.tenantId with
  | none => (.error { message := "Config not found", status := some 404 }, s)
  | some config =>
    if config.isArchived then
      (.error { message := "Cannot deploy an archived configuration. Restore it first.",
                status := some 400 }, s)
    else if !config.environments.contains a.environment then
      (.error { message := "Environment " ++ "'" ++ a.environment.label ++ "'" ++
                  " not configured for this config",
                status := some 400 }, s)
    else
      match ConfigVersion.findOneByVersion s a.configId a.tenantId a.version with
      | none => (.error { message := "Version not found", status := some 404 }, s)
      | some versionDoc =>
        let previousVersion := config.activeVersions.get a.environment
        let config :=
          { config with activeVersions := config.activeVersions.set a.environment a.version }
        let s1 := (Config.save w s config).2
        let logged := AuditService.log w s1
          { entityType := "config"
            entityId := a.configId
            tenantId := a.tenantId
            action := "DEPLOY"
            performedBy := a.performedBy
            metadata := .obj [("environment", .str a.environment.label),
              ("previousVersion", Document.ofOptNat previousVersion),
              ("deployedVersion", .num a.version), ("branch", .str versionDoc.branch)]
            ipAddress := a.ipAddress
            userAgent := a.userAgent }
        (.ok { success := true
               configId := a.configId
               environment := a.environment
               previousVersion := previousVersion
               deployedVersion := a.version
               deployedAt := w.now }, logged.2)

end VersioningService

/-! ## Read-only operations -/

/-- The `options` argument of `getVersionHistory`, with its destructuring defaults. -/
structure HistoryOptions where
  branch : Option String := none
  limit : Nat := 50
  skip : Nat := 0

/-- The order of `sort({ version: -1 })`: the greater version number comes first. -/
def versionDesc (a b : ConfigVersion) : Prop := b.version ≤ a.version

instance : DecidableRel versionDesc := fun a b => Nat.decLe b.version a.version

instance : IsTotal ConfigVersion versionDesc := ⟨fun a b => Nat.le_total b.version a.version⟩

instance : IsTrans ConfigVersion versionDesc :=
  ⟨fun _ _ _ hab hbc => Nat.le_trans hbc hab⟩

/-- The cursor method `limit(n)` of MongoDB: a limit of `0` is no limit. -/
def mongoLimit (n : Nat) (docs : List ConfigVersion) : List ConfigVersion :=
  if n = 0 then docs else docs.take n

/-- The metadata `compareVersions` returns for each side. -/
structure VersionMeta where
  version : Nat
  branch : String
  createdAt : Nat
  createdBy : String
  checksum : Option String
  deriving DecidableEq, Repr

/-- The value returned by `compareVersions`. -/
structure CompareResult where
  version1 : VersionMeta
  version2 : VersionMeta
  diff : DiffResult
  deriving DecidableEq, Repr

/-- The read `obj[name]` on a JSON value; `none` is `undefined`. -/
def Document.getProp (d : Document) (name : String) : Option Document :=
  match d with
  | .obj fs => fs.lookup name
  | _ => none

/-- An entry of `changes` as the object literal built in `computeDiff`; a property whose value
is `undefined` is absent. -/
def Change.toDocument (c : Change) : Document :=
  .obj ([("type", .str c.type), ("path", .str c.path)] ++
    (match c.oldValue with
      | some v => [("oldValue", v)]
      | none => []) ++
    (match c.newValue with
      | some v => [("newValue", v)]
      | none => []))

/-- The object returned by `computeDiff`, property by property. -/
def DiffResult.toDocument (d : DiffResult) : Document :=
  .obj ([("hasChanges", .bool d.hasChanges), ("changes", .arr (d.changes.map Change.toDocument)),
      ("summary", .str d.summary)] ++
    (match d.added with
      | some n => [("added", .num n)]
      | none => []) ++
    (match d.modified with
      | some n => [("modified", .num n)]
      | none => []) ++
    (match d.deleted with
      | some n => [("deleted", .num n)]
      | none => []))

/-- One side of the comparison as the object literal built in `compareVersions`. -/
def VersionMeta.toDocument (m : VersionMeta) : Document :=
  .obj [("version", .num m.version), ("branch", .str m.branch), ("createdAt", .num m.createdAt),
    ("createdBy", .str m.createdBy), ("checksum", Document.ofOptString m.checksum)]

/-- The object returned by `compareVersions`, property by property. -/
def CompareResult.toDocument (r : CompareResult) : Document :=
  .obj [("version1", r.version1.toDocument), ("version2", r.version2.toDocument),
    ("diff", r.diff.toDocument)]

namespace VersioningService

/-- `VersioningService.getVersionHistory(configId, tenantId, options = {})`. -/
def getVersionHistory (s : Store) (configId tenantId : String) (options : HistoryOptions := {}) :
    List ConfigVersion × Store :=
  let query : ConfigVersion → Bool := fun v =>
    v.configId == configId && v.tenantId == tenantId &&
      (if jsNotStr options.branch then true else some v.branch == options.branch)
  (mongoLimit options.limit
    (((s.versions.filter query).insertionSort versionDesc).drop options.skip), s)

/-- `VersioningService.compareVersions(configId, tenantId, version1, version2)`. -/
def compareVersions (s : Store) (configId tenantId : String) (version1 version2 : Nat) :
    Except ServiceError CompareResult × Store :=
  match ConfigVersion.findOneByVersion s configId tenantId version1,
      ConfigVersion.findOneByVersion s configId tenantId version2 with
  | none, _ =>
    (.error { message := "Version " ++ toString version1 ++ " not found", status := some 404 }, s)
  | some _, none =>
    (.error { message := "Version " ++ toString version2 ++ " not found", status := some 404 }, s)
  | some v1, some v2 =>
    let diff := DiffService.computeDiff v1.data v2.data
    (.ok { version1 :=
             { version := v1.version, branch := v1.branch, createdAt := v1.createdAt,
               createdBy := v1.createdBy, checksum := v1.checksum }
           version2 :=
             { version := v2.version, branch := v2.branch, createdAt := v2.createdAt,
               createdBy := v2.createdBy, checksum := v2.checksum }
           diff := diff }, s)

end VersioningService

/-! ## `controllers/ConfigController.js` -/

/-- The `data` of the success response of `getActiveVersion`. -/
structure ActiveVersionData where
  configId : String
  environment : Environment
  version : Nat
  data : Document
  checksum : Option String
  updatedAt : Nat
  deriving DecidableEq, Repr

/-- `ConfigController.getActiveVersion`: the response for `(configId, tenantId)` and the query
parameter `environment` (default `'dev'`). -/
def ConfigController.getActiveVersion (s : Store) (configId tenantId : String)
    (environment : Environment := .dev) : Except ErrorResponse ActiveVersionData :=
  match Config.findOne s configId tenantId with
  | none => .error { status := 404, error := "Config not found" }
  | some config =>
    let activeVersion := config.activeVersions.get environment
    if jsNotNum activeVersion then
      .error { status := 404,
               error := "No active version for environment: " ++ environment.label }
    else
      match ConfigVersion.findOneByVersion s configId tenantId (activeVersion.getD 0) with
      | none => .error { status := 404, error := "Active version data not found" }
      | some version =>
        .ok { configId := configId
              environment := environment
              version := activeVersion.getD 0
              data := version.data
              checksum := version.checksum
              updatedAt := version.createdAt }

/-- The callback of `differences.map(...)` in `computeDiff`: the change built from one
difference record. -/
def DiffService.toChange (diff : Diff) : Change :=
  { type := DiffService.getChangeType diff
    path := (match diff.path with
      | some p => jsJoin "." (p.map PathSeg.render)
      | none => "root")
    oldValue := diff.lhs
    newValue := diff.rhs }

/-! ## Structural notions on documents -/

mutual
/-- Structural equality of documents, maps compared regardless of key order: two maps are equal
when they have the same keys and equal values under each key; two sequences are equal when they
have the same length and equal elements at each index. -/
def Document.structurallyEqual : Document → Document → Bool
  | .null, .null => true
  | .bool a, .bool b => a == b
  | .num a, .num b => a == b
  | .str a, .str b => a == b
  | .arr xs, .arr ys => Document.structurallyEqualList xs ys
  | .obj fs, .obj gs =>
      Document.structurallyEqualFields fs gs &&
        gs.all (fun p => (fs.map Prod.fst).contains p.1)
  | _, _ => false
/-- Element-wise structural equality of two sequences. -/
def Document.structurallyEqualList : List Document → List Document → Bool
  | [], [] => true
  | x :: xs, y :: ys => x.structurallyEqual y && Document.structurallyEqualList xs ys
  | _, _ => false
/-- Every property of the first map is a property of the second, with an equal value. -/
def Document.structurallyEqualFields :
    List (String × Document) → List (String × Document) → Bool
  | [], _ => true
  | (k, v) :: rest, gs =>
      (match gs.lookup k with
        | some w => v.structurallyEqual w
        | none => false) &&
      Document.structurallyEqualFields rest gs
end

mutual
/-- No map in the document, at any depth, has the empty string as a key. -/
def Document.keysNonEmpty : Document → Bool
  | .arr xs => Document.keysNonEmptyList xs
  | .obj fs => Document.keysNonEmptyFields fs
  | _ => true
/-- `keysNonEmpty` for every element of a sequence. -/
def Document.keysNonEmptyList : List Document → Bool
  | [] => true
  | x :: xs => x.keysNonEmpty && Document.keysNonEmptyList xs
/-- `keysNonEmpty` for every property of a map, whose keys are non-empty themselves. -/
def Document.keysNonEmptyFields : List (String × Document) → Bool
  | [] => true
  | (k, v) :: rest => k != "" && v.keysNonEmpty && Document.keysNonEmptyFields rest
end

mutual
/-- Every map in the document, at any depth, lists each key once: the document represents a
JavaScript value. -/
def Document.keysDistinct : Document → Bool
  | .arr xs => Document.keysDistinctList xs
  | .obj fs => Document.keysDistinctFields fs
  | _ => true
/-- `keysDistinct` for every element of a sequence. -/
def Document.keysDistinctList : List Document → Bool
  | [] => true
  | x :: xs => x.keysDistinct && Document.keysDistinctList xs
/-- The keys of the property list are pairwise distinct and every value is `keysDistinct`. -/
def Document.keysDistinctFields : List (String × Document) → Bool
  | [] => true
  | (k, v) :: rest =>
      !(rest.map Prod.fst).contains k && v.keysDistinct && Document.keysDistinctFields rest
end

/-- A scalar: null, a boolean, a number or a string. -/
def Document.isScalar : Document → Bool
  | .arr _ => false
  | .obj _ => false
  | _ => true

/-- The changes the classification rules prescribe for two flat maps: for each key of the old
map, in order, `deleted` when the new map lacks it and `modified` when the new map holds a
different value; then, for each key of the new map that the old map lacks, in order, `added`.
The path of a change is its key. -/
def expectedFlatChanges (old new : List (String × Document)) : List Change :=
  old.filterMap (fun p =>
    match new.lookup p.1 with
    | none => some { type := "deleted", path := p.1, oldValue := some p.2, newValue := none }
    | some w =>
        if p.2 = w then none
        else some { type := "modified", path := p.1, oldValue := some p.2,
                    newValue := some w }) ++
  (new.filter (fun p => !(old.map Prod.fst).contains p.1)).map (fun p =>
    { type := "added", path := p.1, oldValue := none, newValue := some p.2 })

/-! ## Error taxonomy, call sequences and ledger predicates -/

/-- The kinds of failure a caller can tell apart. -/
inductive ErrorKind where
  | NotFound : ErrorKind
  | Conflict : ErrorKind
  | InvalidState : ErrorKind
  | ValidationError : ErrorKind
  | Internal : ErrorKind
  deriving DecidableEq, Repr

/-- The kind of a thrown error, read off what `errorHandler` answers for it: a schema or cast
failure is a validation error, HTTP 404 is not-found, HTTP 409 is a conflict, any other HTTP 400
is an invalid-state rejection, everything else is internal. -/
def errorKind (e : ServiceError) : ErrorKind :=
  if e.name = "ValidationError" ∨ e.name = "CastError" then .ValidationError
  else if (errorHandler e).status = 404 then .NotFound
  else if (errorHandler e).status = 409 then .Conflict
  else if (errorHandler e).status = 400 then .InvalidState
  else .Internal

/-- A call that writes to the version ledger. -/
inductive LedgerCall where
  | createVersion (w : World) (a : CreateVersionArgs) : LedgerCall
  | createBranch (w : World) (a : CreateBranchArgs) : LedgerCall

/-- Performs one ledger call on a store. -/
def LedgerCall.run (s : Store) : LedgerCall → Except ServiceError ConfigVersion × Store
  | .createVersion w a => VersioningService.createVersion w s a
  | .createBranch w a => VersioningService.createBranch w s a

/-- The config a ledger call addresses. -/
def LedgerCall.configId : LedgerCall → String
  | .createVersion _ a => a.configId
  | .createBranch _ a => a.configId

/-- The parent version number the caller supplies, if any. -/
def LedgerCall.suppliedParent : LedgerCall → Option Nat
  | .createVersion _ a => a.parentVersion
  | .createBranch _ a => some a.sourceVersion

/-- Performs ledger calls one after the other; the outcomes are listed in call order. -/
def runCalls : Store → List LedgerCall → List (Except ServiceError ConfigVersion) × Store
  | s, [] => ([], s)
  | s, c :: cs => ((c.run s).1 :: (runCalls (c.run s).2 cs).1, (runCalls (c.run s).2 cs).2)

/-- The versions returned by the successful calls, in call order. -/
def returnedVersions (outcomes : List (Except ServiceError ConfigVersion)) : List ConfigVersion :=
  outcomes.filterMap Except.toOption

/-- The versions returned for one config by the successful calls of a sequence, in call
order. -/
def returnedFor (s : Store) (calls : List LedgerCall) (configId : String) : List ConfigVersion :=
  (returnedVersions (runCalls s calls).1).filter (fun v => v.configId == configId)

/-- The version numbers present in the ledger of one config, in insertion order. -/
def ledgerNumbers (s : Store) (configId : String) : List Nat :=
  (s.versions.filter (fun v => v.configId == configId)).map (fun v => v.version)

/-- The greatest version number in the ledger of a config, `0` for an empty ledger. -/
def maxVersion (s : Store) (configId : String) : Nat :=
  (ledgerNumbers s configId).foldr max 0

/-- Every lineage pointer that is set names another version in the ledger of the same config. -/
def lineageValid (s : Store) : Bool :=
  s.versions.all (fun v =>
    match v.parentVersion with
    | none => true
    | some p => s.versions.any
        (fun u => u.configId == v.configId && u.version == p && u.version != v.version))

/-- The parent the caller supplies, if any, names a version in the ledger of the config. -/
def LedgerCall.parentKnown (s : Store) (c : LedgerCall) : Bool :=
  match c.suppliedParent with
  | none => true
  | some p => s.versions.any (fun u => u.configId == c.configId && u.version == p)

/-- Along a sequence of calls, every supplied parent names a version present at that moment. -/
def parentsKnown : Store → List LedgerCall → Bool
  | _, [] => true
  | s, c :: cs => c.parentKnown s && parentsKnown (c.run s).2 cs

/-- A call of one of the four state-changing operations of the service. -/
inductive ServiceCall where
  | createVersion (w : World) (a : CreateVersionArgs) : ServiceCall
  | createBranch (w : World) (a : CreateBranchArgs) : ServiceCall
  | deployVersion (w : World) (a : DeployArgs) : ServiceCall
  | rollback (w : World) (a : RollbackArgs) : ServiceCall

/-- The store a call leaves behind, whether it succeeds or fails. -/
def ServiceCall.run (s : Store) : ServiceCall → Store
  | .createVersion w a => (VersioningService.createVersion w s a).2
  | .createBranch w a => (VersioningService.createBranch w s a).2
  | .deployVersion w a => (VersioningService.deployVersion w s a).2
  | .rollback w a => (VersioningService.rollback w s a).2

/-- The store after a sequence of calls. -/
def runService (s : Store) (calls : List ServiceCall) : Store :=
  calls.foldl ServiceCall.run s

/-- Every active version that is set for the config with this id names a version number present
in the ledger of that config. -/
def activeVersionsValid (s : Store) (configId : String) : Bool :=
  s.configs.all (fun c => c._id != configId ||
    [Environment.dev, .staging, .prod, .test].all (fun e =>
      match c.activeVersions.get e with
      | none => true
      | some n => s.versions.any (fun u => u.configId == configId && u.version == n)))

/-! ## Example data -/

/-- A world for the examples; the digest is a stand-in. -/
def World.sample : World :=
  { sha256 := fun x => "digest" ++ toString x.length, now := 1000, versionId := "v-id", auditId := "a-id",
    auditWritable := true }

/-- The config of the test suite: tenant `t`, environments dev and prod. -/
def Config.sample : Config :=
  { _id := "c1", tenantId := "t", name := "test-config", environments := [.dev, .prod],
    createdBy := "test@example.com" }

/-- A store holding the sample config and no version. -/
def Store.sample : Store :=
  { configs := [Config.sample] }

/-- The first call of the test suite: data `{ v: 1 }` on the default branch. -/
def CreateVersionArgs.first : CreateVersionArgs :=
  { configId := "c1", tenantId := "t", data := .obj [("v", .num 1)],
    createdBy := "test@example.com" }

/-- The second call of the test suite: data `{ v: 2 }` on the default branch. -/
def CreateVersionArgs.second : CreateVersionArgs :=
  { configId := "c1", tenantId := "t", data := .obj [("v", .num 2)],
    createdBy := "test@example.com" }

/-- The sample store after the first call. -/
def Store.withOne : Store :=
  (VersioningService.createVersion World.sample Store.sample CreateVersionArgs.first).2

/-- The sample store after the first and the second call. -/
def Store.withTwo : Store :=
  (VersioningService.createVersion World.sample Store.withOne CreateVersionArgs.second).2

/-- A fork of version 1 onto the new branch `experiment`, without a changeLog. -/
def CreateBranchArgs.sample : CreateBranchArgs :=
  { configId := "c1", tenantId := "t", newBranch := "experiment", sourceVersion := 1,
    data := .obj [("v", .num 3)], createdBy := "test@example.com" }

/-- The sample config, archived. -/
def Config.archivedSample : Config :=
  { Config.sample with isArchived := true }

/-- A store whose only config is archived. -/
def Store.archived : Store :=
  { configs := [Config.archivedSample] }

/-- The version the first call of the test suite returns on `Store.sample`. -/
def ConfigVersion.sampleFirst : ConfigVersion :=
  { _id := "v-id", configId := "c1", tenantId := "t", version := 1, branch := "main",
    parentVersion := none, data := .obj [("v", .num 1)], checksum := some "digest7",
    changeLog := none, createdBy := "test@example.com", createdAt := 1000,
    isArchived := false }

/-- The version the second call of the test suite returns on `Store.withOne`. -/
def ConfigVersion.sampleSecond : ConfigVersion :=
  { _id := "v-id", configId := "c1", tenantId := "t", version := 2, branch := "main",
    parentVersion := some 1, data := .obj [("v", .num 2)], checksum := some "digest7",
    changeLog := some "Modified v", createdBy := "test@example.com", createdAt := 1000,
    isArchived := false }

/-- Six calls on the sample config: two branches interleaved, one call under a wrong tenant
and one fork onto a branch that already exists. -/
def LedgerCall.sampleRun : List LedgerCall :=
  [ .createVersion World.sample CreateVersionArgs.first,
    .createBranch World.sample CreateBranchArgs.sample,
    .createVersion World.sample { CreateVersionArgs.second with tenantId := "other" },
    .createVersion World.sample { CreateVersionArgs.second with branch := "experiment" },
    .createBranch World.sample CreateBranchArgs.sample,
    .createVersion World.sample CreateVersionArgs.second ]

/-- The version a fork of version 1 onto the branch `experiment` returns on `Store.withOne`. -/
def ConfigVersion.sampleBranch : ConfigVersion :=
  { _id := "v-id", configId := "c1", tenantId := "t", version := 2, branch := "experiment",
    parentVersion := some 1, data := .obj [("v", .num 3)], checksum := some "digest7",
    changeLog := some "Branch created from version 1", createdBy := "test@example.com",
    createdAt := 1000, isArchived := false }

/-- The deployment of version 2 of the sample config to dev. -/
def DeployArgs.sample : DeployArgs :=
  { configId := "c1", tenantId := "t", version := 2, environment := .dev,
    performedBy := "admin@example.com" }

/-- The sample ledger under the archived sample config. -/
def Store.archivedWithOne : Store :=
  { Store.withOne with configs := [Config.archivedSample] }

/-- A rollback of dev on the sample config to version 1. -/
def RollbackArgs.sample : RollbackArgs :=
  { configId := "c1", tenantId := "t", environment := .dev, targetVersion := 1,
    performedBy := "admin@example.com" }

/-- Five calls on the sample store with two versions: a deployment, a rollback, a new version,
a deployment of a version that does not exist and a rollback under a wrong tenant. -/
def ServiceCall.sampleRun : List ServiceCall :=
  [ .deployVersion World.sample DeployArgs.sample,
    .rollback World.sample RollbackArgs.sample,
    .createVersion World.sample CreateVersionArgs.second,
    .deployVersion World.sample { DeployArgs.sample with version := 9 },
    .rollback World.sample { RollbackArgs.sample with tenantId := "other" } ]

/-- The ledger of the comparison test: `{ feature: false, setting: 'old' }` followed by
`{ feature: true, setting: 'new', extra: 'added' }`. -/
def Store.compareSample : Store :=
  (VersioningService.createVersion World.sample
    (VersioningService.createVersion World.sample Store.sample
      { CreateVersionArgs.first with
        data := .obj [("feature", .bool false), ("setting", .str "old")] }).2
    { CreateVersionArgs.second with
      data := .obj [("feature", .bool true), ("setting", .str "new"),
        ("extra", .str "added")] }).2

/-- The sample store after the six ledger calls of `LedgerCall.sampleRun`: versions 1 and 4 on
main, versions 2 and 3 on experiment. -/
def Store.afterSampleRun : Store :=
  (runCalls Store.sample LedgerCall.sampleRun).2

/-! ## What a ledger call needs -/

/-- What a ledger call needs in order to succeed: the config exists for the tenant and, for
`createVersion`, is not archived, for `createBranch`, has no version on the new branch under
this tenant; and the document built passes the schema (tenant and author non-empty, data an
object). -/
def LedgerCall.accepted (s : Store) : LedgerCall → Bool
  | .createVersion _ a =>
    (match Config.findOne s a.configId a.tenantId with
      | some config => !config.isArchived
      | none => false) &&
    a.tenantId != "" && a.data.isObject && a.createdBy != ""
  | .createBranch _ a =>
    (Config.findOne s a.configId a.tenantId).isSome &&
    (ConfigVersion.findOneByBranch s a.configId a.tenantId a.newBranch).isNone &&
    a.tenantId != "" && a.data.isObject && a.createdBy != ""

/-- Along a sequence of calls, every call meets what it needs at its moment. -/
def callsAccepted : Store → List LedgerCall → Bool
  | _, [] => true
  | s, c :: cs => c.accepted s && callsAccepted (c.run s).2 cs

/-- Four calls on the sample config that all succeed: the two calls of the test suite on main,
a fork onto `experiment` and a further version on that branch. -/
def LedgerCall.acceptedRun : List LedgerCall :=
  [ .createVersion World.sample CreateVersionArgs.first,
    .createVersion World.sample CreateVersionArgs.second,
    .createBranch World.sample CreateBranchArgs.sample,
    .createVersion World.sample { CreateVersionArgs.second with branch := "experiment" } ]

/-! ## The change log in the words of the specification -/

/-- The rendering of one change in a change log, after the specification: `Added <path>`,
`Modified <path>`, `Deleted <path>`, and `Changed <path>` for any other type. -/
def changeLogPhrase (c : Change) : String :=
  (match c.type with
    | "added" => "Added "
    | "modified" => "Modified "
    | "deleted" => "Deleted "
    | _ => "Changed ") ++ c.path

/-- The change log before truncation, after the specification: the first three changes in list
order, rendered and joined by `; `, followed by ` (+<N-3> more)` when the list has `N > 3`
changes. -/
def changeLogDescription (changes : List Change) : String :=
  "; ".intercalate ((changes.take 3).map changeLogPhrase) ++
    (if changes.length > 3 then " (+" ++ toString (changes.length - 3) ++ " more)" else "")

/-- Whether the characters of `sub` open the list `s`. -/
def startsWithChars : List Char → List Char → Bool
  | _, [] => true
  | [], _ :: _ => false
  | c :: s, d :: sub => c == d && startsWithChars s sub

/-- Whether the characters of `sub` occur in `s` one after the other. -/
def includesChars : List Char → List Char → Bool
  | [], sub => sub.isEmpty
  | c :: s, sub => startsWithChars (c :: s) sub || includesChars s sub

/-- `String.prototype.includes`: whether `sub` occurs in `s`. -/
def jsIncludes (s sub : String) : Bool :=
  includesChars s.data sub.data

/-- The diff of the test `should truncate long changelogs`: ten changes of type added, with
paths `field0` to `field9`. -/
def DiffResult.tenAdded : DiffResult :=
  { hasChanges := true
    changes := (List.range 10).map (fun i =>
      { type := "added", path := "field" ++ toString i, oldValue := none,
        newValue := some (.num i) })
    summary := "10 added" }

/-! ## The lodash library (`_.cloneDeep`, `_.set`, `_.unset`) and `applyPatch`

The model follows lodash 4.17 on JSON values.  A result that is not a JSON value (a property set
to `undefined`, an array with a hole or with a named property) and a path written with brackets
are outside the model: the operation then has no value (`none`). -/

/-- The operator `key in Object(object)` for a string that is not the name of an inherited
property. -/
def lodash.hasProperty (object : Document) (key : String) : Bool :=
  match object with
  | .obj fs => (fs.lookup key).isSome
  | _ => false

/-- The pieces of a string between its dots. -/
def lodash.splitDots : List Char → List (List Char)
  | [] => [[]]
  | c :: cs =>
    if c = '.' then [] :: lodash.splitDots cs
    else
      match lodash.splitDots cs with
      | [] => [[c]]
      | seg :: segs => (c :: seg) :: segs

/-- `castPath(value, object)` for a string: the string itself when `isKey` holds (it is a
property of the object, or it has neither a dot nor an opening bracket), else `stringToPath`,
which for a string without brackets splits at the dots. -/
def lodash.castPath (value : String) (object : Document) : Option (List String) :=
  if lodash.hasProperty object value then some [value]
  else if !value.data.contains '.' && !value.data.contains '[' then some [value]
  else if value.data.contains '[' || value.data.contains ']' then none
  else some ((lodash.splitDots value.data).map String.mk)

/-- The number a string denotes when it matches `/^(?:0|[1-9]\d*)$/`. -/
def lodash.toIndex (s : String) : Option Nat :=
  match s.data with
  | [] => none
  | c :: cs =>
    if (c :: cs) = ['0'] then some 0
    else if c ≠ '0' ∧ (c :: cs).all Char.isDigit then
      some ((c :: cs).foldl (fun n d => 10 * n + (d.toNat - 48)) 0)
    else none

/-- `isIndex(value)` for a string. -/
def lodash.isIndex (s : String) : Bool :=
  match lodash.toIndex s with
  | some n => n < 9007199254740991
  | none => false

/-- The read `object[key]` on a JSON container; `none` is `undefined`. -/
def lodash.getProperty (object : Document) (key : String) : Option Document :=
  match object with
  | .obj fs => fs.lookup key
  | .arr xs =>
    match lodash.toIndex key with
    | some i => xs.get? i
    | none => none
  | _ => none

/-- The assignment `object[key] = value` on the properties of a map: an existing property
keeps its place, a new one comes last. -/
def lodash.assignField (fs : List (String × Document)) (key : String) (value : Document) :
    List (String × Document) :=
  if (fs.lookup key).isSome then fs.map (fun p => if p.1 = key then (key, value) else p)
  else fs ++ [(key, value)]

/-- `assignValue(object, key, value)` on a JSON container. -/
def lodash.assignValue (object : Document) (key : String) (value : Document) :
    Option Document :=
  match object with
  | .obj fs => some (.obj (lodash.assignField fs key value))
  | .arr xs =>
    match lodash.toIndex key with
    | some i =>
      if i < xs.length then some (.arr (xs.set i value))
      else if i = xs.length then some (.arr (xs ++ [value]))
      else none
    | none => none
  | _ => none

/-- The loop of `baseSet` along a path, `nested` being the container reached so far. -/
def lodash.baseSetLoop : Document → List String → Document → Option Document
  | nested, [], _ => some nested
  | nested, [key], value =>
    if key = "__proto__" ∨ key = "constructor" ∨ key = "prototype" then some nested
    else lodash.assignValue nested key value
  | nested, key :: next :: rest, value =>
    if key = "__proto__" ∨ key = "constructor" ∨ key = "prototype" then some nested
    else
      let newValue :=
        match lodash.getProperty nested key with
        | some (.obj fs) => .obj fs
        | some (.arr xs) => .arr xs
        | _ => if lodash.isIndex next then .arr [] else .obj []
      match lodash.baseSetLoop newValue (next :: rest) value with
      | none => none
      | some inner => lodash.assignValue nested key inner

/-- `_.set(object, path, value)` for a string path. -/
def lodash.set (object : Document) (path : String) (value : Document) : Option Document :=
  if !object.isObject then some object
  else
    match lodash.castPath path object with
    | none => none
    | some keys => lodash.baseSetLoop object keys value

/-- The properties of a map after `delete object[key]`. -/
def lodash.deleteField (fs : List (String × Document)) (key : String) :
    List (String × Document) :=
  fs.filter (fun p => p.1 != key)

/-- `delete object[key]` on a JSON container. -/
def lodash.deleteProperty (object : Document) (key : String) : Option Document :=
  match object with
  | .obj fs => some (.obj (lodash.deleteField fs key))
  | .arr xs =>
    match lodash.toIndex key with
    | some i => if i < xs.length then none else some (.arr xs)
    | none => none
  | _ => none

/-- `baseUnset` along a path: the parent is looked up, then the last key is deleted from it;
nothing happens when the parent is `undefined` or `null`. -/
def lodash.baseUnsetLoop : Document → List String → Option Document
  | object, [] => some object
  | object, [key] => lodash.deleteProperty object key
  | object, key :: next :: rest =>
    match lodash.getProperty object key with
    | none => some object
    | some .null => some object
    | some child =>
      match lodash.baseUnsetLoop child (next :: rest) with
      | none => none
      | some inner => lodash.assignValue object key inner

/-- `_.unset(object, path)` for a string path; the value is the object afterwards. -/
def lodash.unset (object : Document) (path : String) : Option Document :=
  if object = .null then some object
  else
    match lodash.castPath path object with
    | none => none
    | some keys => lodash.baseUnsetLoop object keys

/-- The body of the loop of `applyPatch`, on the clone. -/
def DiffService.applyChange (result : Document) (change : Change) : Option Document :=
  if change.type = "added" ∨ change.type = "modified" then
    match change.newValue with
    | some value => lodash.set result change.path value
    | none => none
  else if change.type = "deleted" then lodash.unset result change.path
  else some result

/-- `DiffService.applyPatch(original, patch)`: the changes of the patch applied, one after the
other, to a deep clone of `original`. -/
def DiffService.applyPatch (original : Document) (patch : DiffResult) : Option Document :=
  patch.changes.foldl (fun result change => result.bind (fun r => DiffService.applyChange r change))
    (some original)

/-! ## Two ledger calls in flight at once

Each call is taken in two steps, as it runs between two `await`s that matter for numbering: the
reads (the config lookup, the branch lookups and `getNextVersion`, which reads the greatest
number), after which the document to insert is built, and the insert (`version.save()` followed
by the audit entry).  The steps of two calls may alternate in any order. -/

/-- The reads of `createVersion`: everything before `version.save()`.  The value is the error
thrown, or the document built by `new ConfigVersion({...})`. -/
def VersioningService.createVersionRead (w : World) (s : Store) (a : CreateVersionArgs) :
    Except ServiceError ConfigVersion :=
  match Config.findOne s a.configId a.tenantId with
  | none => .error { message := "Config not found", status := some 404 }
  | some config =>
    if config.isArchived then
      .error
        { message := "Cannot create versions for an archived configuration. Restore it first.",
          status := some 400 }
    else
      let nextVersion := ConfigVersion.getNextVersion s a.configId
      let currentVersion :=
        if jsNotNum a.parentVersion && decide (nextVersion > 1) then
          ConfigVersion.findLatestOnBranch s a.configId a.branch
        else none
      let finalParentVersion :=
        match currentVersion with
        | some cur => some cur.version
        | none => a.parentVersion
      let finalChangeLog :=
        match currentVersion with
        | some cur =>
            if jsNotStr a.changeLog then
              some (DiffService.generateChangeLog (DiffService.computeDiff cur.data a.data))
            else a.changeLog
        | none => a.changeLog
      .ok (ConfigVersion.new w
        { configId := a.configId
          tenantId := a.tenantId
          version := nextVersion
          branch := a.branch
          parentVersion := finalParentVersion
          data := a.data
          changeLog := finalChangeLog
          createdBy := a.createdBy })

/-- The insert of `createVersion`: `version.save()` and the audit entry, on the store as it is
when the insert runs; `built` is the document the reads produced, which holds the number and the
parent the call has settled on. -/
def VersioningService.createVersionWrite (w : World) (s : Store) (a : CreateVersionArgs)
    (built : ConfigVersion) : Except ServiceError ConfigVersion × Store :=
  match ConfigVersion.save w s built with
  | .error e => (.error e, s)
  | .ok (version, s1) =>
    let logged := AuditService.log w s1
      { entityType := "config_version"
        entityId := version._id
        tenantId := a.tenantId
        action := "VERSION_CREATE"
        performedBy := a.createdBy
        metadata := .obj [("configId", .str a.configId), ("version", .num built.version),
          ("branch", .str a.branch), ("parentVersion", Document.ofOptNat built.parentVersion)]
        ipAddress := a.ipAddress
        userAgent := a.userAgent }
    (.ok version, logged.2)

/-- The reads of `createBranch`: everything before `version.save()`. -/
def VersioningService.createBranchRead (w : World) (s : Store) (a : CreateBranchArgs) :
    Except ServiceError ConfigVersion :=
  match Config.findOne s a.configId a.tenantId with
  | none => .error { message := "Config not found", status := some 404 }
  | some _ =>
    match ConfigVersion.findOneByBranch s a.configId a.tenantId a.newBranch with
    | some _ =>
      .error { message := "Branch " ++ "'" ++ a.newBranch ++ "'" ++ " already exists",
               status := some 400 }
    | none =>
      let nextVersion := ConfigVersion.getNextVersion s a.configId
      .ok (ConfigVersion.new w
        { configId := a.configId
          tenantId := a.tenantId
          version := nextVersion
          branch := a.newBranch
          parentVersion := some a.sourceVersion
          data := a.data
          changeLog :=
            if jsNotStr a.changeLog then
              some ("Branch created from version " ++ toString a.sourceVersion)
            else a.changeLog
          createdBy := a.createdBy })

/-- The insert of `createBranch`: `version.save()` and the audit entry. -/
def VersioningService.createBranchWrite (w : World) (s : Store) (a : CreateBranchArgs)
    (built : ConfigVersion) : Except ServiceError ConfigVersion × Store :=
  match ConfigVersion.save w s built with
  | .error e => (.error e, s)
  | .ok (version, s1) =>
    let logged := AuditService.log w s1
      { entityType := "config_version"
        entityId := version._id
        tenantId := a.tenantId
        action := "BRANCH_CREATE"
        performedBy := a.createdBy
        metadata := .obj [("configId", .str a.configId), ("newBranch", .str a.newBranch),
          ("sourceVersion", .num a.sourceVersion), ("newVersion", .num built.version)]
        ipAddress := a.ipAddress
        userAgent := a.userAgent }
    (.ok version, logged.2)

/-- The reads of a ledger call. -/
def LedgerCall.read (s : Store) : LedgerCall → Except ServiceError ConfigVersion
  | .createVersion w a => VersioningService.createVersionRead w s a
  | .createBranch w a => VersioningService.createBranchRead w s a

/-- The insert of a ledger call. -/
def LedgerCall.write (s : Store) (built : ConfigVersion) :
    LedgerCall → Except ServiceError ConfigVersion × Store
  | .createVersion w a => VersioningService.createVersionWrite w s a built
  | .createBranch w a => VersioningService.createBranchWrite w s a built

/-- Where a call in flight stands: before its reads, between its reads and its insert (holding
the document it built), or finished with its outcome. -/
inductive CallState where
  | ready : CallState
  | inserting (built : ConfigVersion) : CallState
  | done (outcome : Except ServiceError ConfigVersion) : CallState
  deriving DecidableEq

/-- One step of a call in flight; a finished call stays as it is. -/
def LedgerCall.step (c : LedgerCall) (s : Store) : CallState → CallState × Store
  | .ready =>
    match c.read s with
    | .error e => (.done (.error e), s)
    | .ok built => (.inserting built, s)
  | .inserting built => (.done (c.write s built).1, (c.write s built).2)
  | .done outcome => (.done outcome, s)

/-- Two calls in flight under a schedule: each entry of the schedule names the call that takes
its next step, `false` for the first call and `true` for the second. -/
def runInterleaved (c1 c2 : LedgerCall) :
    Store → CallState → CallState → List Bool → CallState × CallState × Store
  | s, p1, p2, [] => (p1, p2, s)
  | s, p1, p2, false :: rest =>
      runInterleaved c1 c2 (c1.step s p1).2 (c1.step s p1).1 p2 rest
  | s, p1, p2, true :: rest =>
      runInterleaved c1 c2 (c2.step s p2).2 p1 (c2.step s p2).1 rest

/-- No two versions in the ledger share config and number: what the unique index
`{ configId: 1, version: -1 }` maintains. -/
def ledgerUnique (s : Store) : Prop :=
  (s.versions.map (fun v => (v.configId, v.version))).Nodup

instance (s : Store) : Decidable (ledgerUnique s) :=
  inferInstanceAs (Decidable (List.Nodup _))

/-- The schedules in which both calls read before either inserts. -/
def racingSchedules : List (List Bool) :=
  [[false, true, false, true], [false, true, true, false], [true, false, false, true],
   [true, false, true, false]]

/-- The first call of the test suite as a ledger call. -/
def LedgerCall.sampleFirst : LedgerCall :=
  .createVersion World.sample CreateVersionArgs.first

/-- The second call of the test suite as a ledger call. -/
def LedgerCall.sampleSecond : LedgerCall :=
  .createVersion World.sample CreateVersionArgs.second

/-! ## Basic lemmas -/

theorem ConfigVersion.latest_foldl_some (vs : List ConfigVersion) (a : ConfigVersion) :
    ∃ b, vs.foldl (fun best v =>
        match best with
        | none => some v
        | some b => if b.version < v.version then some v else some b) (some a) = some b ∧
      (b = a ∨ b ∈ vs) ∧ a.version ≤ b.version ∧ ∀ v ∈ vs, v.version ≤ b.version := by
  induction vs generalizing a with
  | nil => exact ⟨a, rfl, Or.inl rfl, le_refl _, by simp⟩
  | cons x xs ih =>
    simp only [List.foldl_cons]
    by_cases hlt : a.version < x.version
    · obtain ⟨b, hb, hmem, hle, hall⟩ := ih x
      refine ⟨b, by simpa [hlt] using hb, ?_, by omega, ?_⟩
      · rcases hmem with h | h
        · exact Or.inr (by simp [h])
        · exact Or.inr (by simp [h])
      · intro v hv
        simp only [List.mem_cons] at hv
        rcases hv with h | h
        · rw [h]; exact hle
        · exact hall v h
    · obtain ⟨b, hb, hmem, hle, hall⟩ := ih a
      refine ⟨b, by simpa [hlt] using hb, ?_, hle, ?_⟩
      · rcases hmem with h | h
        · exact Or.inl h
        · exact Or.inr (by simp [h])
      · intro v hv
        simp only [List.mem_cons] at hv
        rcases hv with h | h
        · rw [h]; omega
        · exact hall v h

theorem ConfigVersion.latest_nil : ConfigVersion.latest [] = none := rfl

theorem ConfigVersion.latest_cons (x : ConfigVersion) (xs : List ConfigVersion) :
    ∃ b, ConfigVersion.latest (x :: xs) = some b ∧ b ∈ x :: xs ∧
      ∀ v ∈ x :: xs, v.version ≤ b.version := by
  obtain ⟨b, hb, hmem, hle, hall⟩ := ConfigVersion.latest_foldl_some xs x
  refine ⟨b, by simpa [ConfigVersion.latest] using hb, ?_, ?_⟩
  · rcases hmem with h | h
    · simp [h]
    · simp [h]
  · intro v hv
    simp only [List.mem_cons] at hv
    rcases hv with h | h
    · rw [h]; exact hle
    · exact hall v h

theorem ConfigVersion.latest_eq_none_iff (vs : List ConfigVersion) :
    ConfigVersion.latest vs = none ↔ vs = [] := by
  cases vs with
  | nil => simp [ConfigVersion.latest]
  | cons x xs =>
    obtain ⟨b, hb, _⟩ := ConfigVersion.latest_cons x xs
    simp [hb]

theorem ConfigVersion.latest_eq_some {vs : List ConfigVersion} {b : ConfigVersion}
    (h : ConfigVersion.latest vs = some b) : b ∈ vs ∧ ∀ v ∈ vs, v.version ≤ b.version := by
  cases vs with
  | nil => simp [ConfigVersion.latest] at h
  | cons x xs =>
    obtain ⟨b', hb, hmem, hall⟩ := ConfigVersion.latest_cons x xs
    rw [hb] at h
    cases h
    exact ⟨hmem, hall⟩

theorem ConfigVersion.getNextVersion_gt (s : Store) (configId : String) (v : ConfigVersion)
    (hv : v ∈ s.versions) (hc : v.configId = configId) :
    v.version < ConfigVersion.getNextVersion s configId := by
  unfold ConfigVersion.getNextVersion
  have hmem : v ∈ s.versions.filter (fun v => v.configId == configId) := by
    simp [List.mem_filter, hv, hc]
  cases hl : ConfigVersion.latest (s.versions.filter (fun v => v.configId == configId)) with
  | none =>
    rw [ConfigVersion.latest_eq_none_iff] at hl
    rw [hl] at hmem
    simp at hmem
  | some b =>
    have := (ConfigVersion.latest_eq_some hl).2 v hmem
    simp only
    omega

theorem ConfigVersion.getNextVersion_pos (s : Store) (configId : String) :
    0 < ConfigVersion.getNextVersion s configId := by
  unfold ConfigVersion.getNextVersion
  split <;> omega

theorem foldr_max_le (xs : List Nat) (n : Nat) (h : ∀ x ∈ xs, x ≤ n) : xs.foldr max 0 ≤ n := by
  induction xs with
  | nil => simp
  | cons x xs ih =>
    simp only [List.foldr_cons]
    have h1 := h x (by simp)
    have h2 := ih (fun y hy => h y (by simp [hy]))
    exact max_le h1 h2

theorem le_foldr_max (xs : List Nat) (x : Nat) (h : x ∈ xs) : x ≤ xs.foldr max 0 := by
  induction xs with
  | nil => simp at h
  | cons y ys ih =>
    simp only [List.foldr_cons]
    simp only [List.mem_cons] at h
    rcases h with h | h
    · rw [h]; exact le_max_left _ _
    · exact le_trans (ih h) (le_max_right _ _)

theorem ConfigVersion.getNextVersion_eq (s : Store) (configId : String) :
    ConfigVersion.getNextVersion s configId = maxVersion s configId + 1 := by
  unfold ConfigVersion.getNextVersion maxVersion ledgerNumbers
  cases hl : ConfigVersion.latest (s.versions.filter (fun v => v.configId == configId)) with
  | none =>
    rw [ConfigVersion.latest_eq_none_iff] at hl
    simp [hl]
  | some b =>
    obtain ⟨hmem, hall⟩ := ConfigVersion.latest_eq_some hl
    simp only
    have h1 : b.version ≤ ((s.versions.filter (fun v => v.configId == configId)).map
        (fun v => v.version)).foldr max 0 :=
      le_foldr_max _ _ (List.mem_map.mpr ⟨b, hmem, rfl⟩)
    have h2 : ((s.versions.filter (fun v => v.configId == configId)).map
        (fun v => v.version)).foldr max 0 ≤ b.version := by
      apply foldr_max_le
      intro x hx
      obtain ⟨v, hv, rfl⟩ := List.mem_map.mp hx
      exact hall v hv
    omega

/-- What a successful `save` stores and returns. -/
theorem ConfigVersion.save_ok {w : World} {s s1 : Store} {doc saved : ConfigVersion}
    (h : ConfigVersion.save w s doc = .ok (saved, s1)) :
    saved = ConfigVersion.preValidate w doc ∧ s1 = { s with versions := s.versions ++ [saved] } ∧
      ConfigVersion.validate saved = true := by
  unfold ConfigVersion.save at h
  simp only at h
  split at h
  · cases h
  · split at h
    · cases h
    · rename_i hval _
      simp only [Except.ok.injEq, Prod.mk.injEq] at h
      obtain ⟨h1, h2⟩ := h
      subst h1
      refine ⟨rfl, h2.symm, ?_⟩
      simpa using hval

theorem ConfigVersion.preValidate_fields (w : World) (doc : ConfigVersion) :
    (ConfigVersion.preValidate w doc).version = doc.version ∧
    (ConfigVersion.preValidate w doc).configId = doc.configId ∧
    (ConfigVersion.preValidate w doc).tenantId = doc.tenantId ∧
    (ConfigVersion.preValidate w doc).branch = doc.branch ∧
    (ConfigVersion.preValidate w doc).parentVersion = doc.parentVersion ∧
    (ConfigVersion.preValidate w doc).data = doc.data ∧
    (ConfigVersion.preValidate w doc).changeLog = doc.changeLog ∧
    (ConfigVersion.preValidate w doc).createdBy = doc.createdBy := by
  unfold ConfigVersion.preValidate
  split <;> simp

theorem AuditService.log_frame (w : World) (s : Store) (i : AuditInput) :
    (AuditService.log w s i).2.versions = s.versions ∧
    (AuditService.log w s i).2.configs = s.configs := by
  unfold AuditService.log
  simp only
  split <;> simp

/-- The version built by `createVersion` before it is saved. -/
theorem VersioningService.createVersion_ok {w : World} {s s' : Store} {a : CreateVersionArgs}
    {v : ConfigVersion} (h : VersioningService.createVersion w s a = (.ok v, s')) :
    ∃ config, Config.findOne s a.configId a.tenantId = some config ∧ config.isArchived = false ∧
      v.version = ConfigVersion.getNextVersion s a.configId ∧
      v.configId = a.configId ∧ v.tenantId = a.tenantId ∧ v.branch = a.branch ∧
      v.data = a.data ∧
      v.parentVersion =
        (match (if jsNotNum a.parentVersion &&
                    decide (ConfigVersion.getNextVersion s a.configId > 1) then
                  ConfigVersion.findLatestOnBranch s a.configId a.branch
                else none) with
          | some cur => some cur.version
          | none => a.parentVersion) ∧
      v.changeLog =
        (match (if jsNotNum a.parentVersion &&
                    decide (ConfigVersion.getNextVersion s a.configId > 1) then
                  ConfigVersion.findLatestOnBranch s a.configId a.branch
                else none) with
          | some cur =>
              if jsNotStr a.changeLog then
                some (DiffService.generateChangeLog (DiffService.computeDiff cur.data a.data))
              else a.changeLog
          | none => a.changeLog).map jsTrim ∧
      s'.versions = s.versions ++ [v] ∧ s'.configs = s.configs := by
  unfold VersioningService.createVersion at h
  split at h
  · simp at h
  · rename_i config hfind
    refine ⟨config, hfind, ?_⟩
    split at h
    · simp at h
    · rename_i harch
      simp only at h
      split at h
      · simp at h
      · rename_i saved s1 hsave
        obtain ⟨hsaved, hs1, _⟩ := ConfigVersion.save_ok hsave
        simp only [Prod.mk.injEq, Except.ok.injEq] at h
        obtain ⟨hv, hs'⟩ := h
        subst hv
        have hf := ConfigVersion.preValidate_fields w (ConfigVersion.new w
          { configId := a.configId, tenantId := a.tenantId,
            version := ConfigVersion.getNextVersion s a.configId, branch := a.branch,
            parentVersion := (match (if jsNotNum a.parentVersion &&
                    decide (ConfigVersion.getNextVersion s a.configId > 1) then
                  ConfigVersion.findLatestOnBranch s a.configId a.branch
                else none) with
              | some cur => some cur.version
              | none => a.parentVersion),
            data := a.data,
            changeLog := (match (if jsNotNum a.parentVersion &&
                    decide (ConfigVersion.getNextVersion s a.configId > 1) then
                  ConfigVersion.findLatestOnBranch s a.configId a.branch
                else none) with
              | some cur =>
                  if jsNotStr a.changeLog then
                    some (DiffService.generateChangeLog (DiffService.computeDiff cur.data a.data))
                  else a.changeLog
              | none => a.changeLog),
            createdBy := a.createdBy })
        rw [← hsaved] at hf
        obtain ⟨f1, f2, f3, f4, f5, f6, f7, _⟩ := hf
        have hl := AuditService.log_frame w s1
        refine ⟨by simpa using harch, f1, f2, f3, f4, f6, f5, f7, ?_, ?_⟩
        · rw [← hs', (hl _).1, hs1]
        · rw [← hs', (hl _).2, hs1]

theorem VersioningService.createVersion_error {w : World} {s : Store} {a : CreateVersionArgs}
    {e : ServiceError} (h : (VersioningService.createVersion w s a).1 = .error e) :
    (VersioningService.createVersion w s a).2 = s := by
  generalize hr : VersioningService.createVersion w s a = r at h ⊢
  unfold VersioningService.createVersion at hr
  split at hr
  · subst hr; rfl
  · split at hr
    · subst hr; rfl
    · simp only at hr
      split at hr
      · subst hr; rfl
      · subst hr; simp at h

/-- The version built by `createBranch` before it is saved. -/
theorem VersioningService.createBranch_ok {w : World} {s s' : Store} {a : CreateBranchArgs}
    {v : ConfigVersion} (h : VersioningService.createBranch w s a = (.ok v, s')) :
    ∃ config, Config.findOne s a.configId a.tenantId = some config ∧
      ConfigVersion.findOneByBranch s a.configId a.tenantId a.newBranch = none ∧
      v.version = ConfigVersion.getNextVersion s a.configId ∧
      v.configId = a.configId ∧ v.tenantId = a.tenantId ∧ v.branch = a.newBranch ∧
      v.data = a.data ∧ v.parentVersion = some a.sourceVersion ∧
      v.changeLog =
        (if jsNotStr a.changeLog then
          some ("Branch created from version " ++ toString a.sourceVersion)
        else a.changeLog).map jsTrim ∧
      s'.versions = s.versions ++ [v] ∧ s'.configs = s.configs := by
  unfold VersioningService.createBranch at h
  split at h
  · simp at h
  · rename_i config hfind
    refine ⟨config, hfind, ?_⟩
    split at h
    · simp at h
    · rename_i hbranch
      simp only at h
      split at h
      · simp at h
      · rename_i saved s1 hsave
        obtain ⟨hsaved, hs1, _⟩ := ConfigVersion.save_ok hsave
        simp only [Prod.mk.injEq, Except.ok.injEq] at h
        obtain ⟨hv, hs'⟩ := h
        subst hv
        have hf := ConfigVersion.preValidate_fields w (ConfigVersion.new w
          { configId := a.configId, tenantId := a.tenantId,
            version := ConfigVersion.getNextVersion s a.configId, branch := a.newBranch,
            parentVersion := some a.sourceVersion,
            data := a.data,
            changeLog := (if jsNotStr a.changeLog then
                some ("Branch created from version " ++ toString a.sourceVersion)
              else a.changeLog),
            createdBy := a.createdBy })
        rw [← hsaved] at hf
        obtain ⟨f1, f2, f3, f4, f5, f6, f7, _⟩ := hf
        have hl := AuditService.log_frame w s1
        refine ⟨hbranch, f1, f2, f3, f4, f6, f5, f7, ?_, ?_⟩
        · rw [← hs', (hl _).1, hs1]
        · rw [← hs', (hl _).2, hs1]

theorem VersioningService.createBranch_error {w : World} {s : Store} {a : CreateBranchArgs}
    {e : ServiceError} (h : (VersioningService.createBranch w s a).1 = .error e) :
    (VersioningService.createBranch w s a).2 = s := by
  generalize hr : VersioningService.createBranch w s a = r at h ⊢
  unfold VersioningService.createBranch at hr
  split at hr
  · subst hr; rfl
  · split at hr
    · subst hr; rfl
    · simp only at hr
      split at hr
      · subst hr; rfl
      · subst hr; simp at h

/-- Each ledger call either fails and leaves the store as it was, or appends exactly the
version it returns, numbered by `getNextVersion`. -/
theorem LedgerCall.run_cases (c : LedgerCall) (s : Store) :
    (∃ e, (c.run s).1 = .error e ∧ (c.run s).2 = s) ∨
    (∃ v, (c.run s).1 = .ok v ∧ (c.run s).2.versions = s.versions ++ [v] ∧
      (c.run s).2.configs = s.configs ∧
      v.version = ConfigVersion.getNextVersion s c.configId ∧ v.configId = c.configId) := by
  cases c with
  | createVersion w a =>
    simp only [LedgerCall.run, LedgerCall.configId]
    cases hr : (VersioningService.createVersion w s a).1 with
    | error e => exact Or.inl ⟨e, rfl, VersioningService.createVersion_error hr⟩
    | ok v =>
      have hpair : VersioningService.createVersion w s a =
          (.ok v, (VersioningService.createVersion w s a).2) := by
        rw [← hr]
      obtain ⟨_, _, _, h1, h2, _, _, _, _, _, h3, h4⟩ :=
        VersioningService.createVersion_ok hpair
      exact Or.inr ⟨v, rfl, h3, h4, h1, h2⟩
  | createBranch w a =>
    simp only [LedgerCall.run, LedgerCall.configId]
    cases hr : (VersioningService.createBranch w s a).1 with
    | error e => exact Or.inl ⟨e, rfl, VersioningService.createBranch_error hr⟩
    | ok v =>
      have hpair : VersioningService.createBranch w s a =
          (.ok v, (VersioningService.createBranch w s a).2) := by
        rw [← hr]
      obtain ⟨_, _, _, h1, h2, _, _, _, _, _, h3, h4⟩ :=
        VersioningService.createBranch_ok hpair
      exact Or.inr ⟨v, rfl, h3, h4, h1, h2⟩

theorem foldr_max_range' (n : Nat) : (List.range' 1 n).foldr max 0 = n := by
  apply le_antisymm
  · apply foldr_max_le
    intro x hx
    rw [List.mem_range'_1] at hx
    omega
  · cases n with
    | zero => simp
    | succ m =>
      apply le_foldr_max
      rw [List.mem_range'_1]
      omega

theorem ConfigVersion.getNextVersion_of_range (s : Store) (configId : String) (n : Nat)
    (h : ledgerNumbers s configId = List.range' 1 n) :
    ConfigVersion.getNextVersion s configId = n + 1 := by
  rw [ConfigVersion.getNextVersion_eq, maxVersion, h, foldr_max_range']

theorem ledgerNumbers_append (s s' : Store) (v : ConfigVersion) (configId : String)
    (h : s'.versions = s.versions ++ [v]) :
    ledgerNumbers s' configId =
      ledgerNumbers s configId ++ (if v.configId = configId then [v.version] else []) := by
  unfold ledgerNumbers
  rw [h, List.filter_append, List.map_append]
  by_cases hc : v.configId = configId <;> simp [List.filter_cons, hc]

/-- Gap-free numbering, from any ledger in which the config already holds `1..n`. -/
theorem runCalls_numbering (configId : String) (calls : List LedgerCall) :
    ∀ (s : Store) (n : Nat), ledgerNumbers s configId = List.range' 1 n →
      (returnedFor s calls configId).map (fun v => v.version) =
        List.range' (n + 1) (returnedFor s calls configId).length ∧
      ledgerNumbers (runCalls s calls).2 configId =
        List.range' 1 (n + (returnedFor s calls configId).length) := by
  induction calls with
  | nil =>
    intro s n h
    simp [returnedFor, runCalls, returnedVersions, h]
  | cons c cs ih =>
    intro s n h
    rcases LedgerCall.run_cases c s with ⟨e, he, hs⟩ | ⟨v, hv, hvers, _, hnum, hcid⟩
    · have := ih s n h
      simpa [returnedFor, runCalls, returnedVersions, he, hs, Except.toOption] using this
    · by_cases hc : c.configId = configId
      · have hnext := ConfigVersion.getNextVersion_of_range s configId n h
        have hvc : v.configId = configId := by rw [hcid, hc]
        have hl : ledgerNumbers (c.run s).2 configId = List.range' 1 (n + 1) := by
          rw [ledgerNumbers_append s _ v configId hvers, h, if_pos hvc, hnum, hc, hnext,
            List.range'_1_concat, Nat.add_comm 1 n]
        obtain ⟨ih1, ih2⟩ := ih (c.run s).2 (n + 1) hl
        have hret : returnedFor s (c :: cs) configId = v :: returnedFor (c.run s).2 cs configId := by
          simp [returnedFor, runCalls, returnedVersions, hv, Except.toOption, hvc]
        rw [hret]
        refine ⟨?_, ?_⟩
        · simp only [List.map_cons, List.length_cons, ih1]
          rw [hnum, hc, hnext]
          rw [List.range'_succ]
        · simp only [runCalls, List.length_cons]
          rw [ih2]
          congr 1
          omega
      · have hvc : ¬ v.configId = configId := by rw [hcid]; exact hc
        have hl : ledgerNumbers (c.run s).2 configId = List.range' 1 n := by
          rw [ledgerNumbers_append s _ v configId hvers, h, if_neg hvc, List.append_nil]
        obtain ⟨ih1, ih2⟩ := ih (c.run s).2 n hl
        have hret : returnedFor s (c :: cs) configId = returnedFor (c.run s).2 cs configId := by
          simp [returnedFor, runCalls, returnedVersions, hv, Except.toOption, hvc]
        rw [hret]
        exact ⟨ih1, by simpa [runCalls] using ih2⟩

/-- C2: parent inference in `createVersion`.  In a ledger whose version numbers are positive, a
successful call that supplies no parentVersion stores as parent exactly the highest version
number found on the same branch of the same config, and stores none when that branch has no
version (in particular when the ledger of the config is empty, and also when only other branches
have versions).  A supplied parentVersion (a positive version number) is stored as given. -/
theorem C2_parent_inference (w : World) (s s' : Store) (a : CreateVersionArgs)
    (v : ConfigVersion) (hpos : ∀ u ∈ s.versions, 0 < u.version)
    (h : VersioningService.createVersion w s a = (.ok v, s')) :
    (a.parentVersion = none →
      (∀ p, v.parentVersion = some p ↔
        ((∃ u ∈ s.versions, u.configId = a.configId ∧ u.branch = a.branch ∧ u.version = p) ∧
          ∀ u ∈ s.versions, u.configId = a.configId → u.branch = a.branch → u.version ≤ p)) ∧
      ((∀ u ∈ s.versions, u.configId = a.configId → u.branch ≠ a.branch) →
        v.parentVersion = none)) ∧
    (∀ p, 0 < p → a.parentVersion = some p → v.parentVersion = some p) := by
  obtain ⟨_, _, _, _, _, _, _, _, hpar, _, _, _⟩ := VersioningService.createVersion_ok h
  constructor
  · intro hnone
    rw [hnone] at hpar
    simp only [jsNotNum, Bool.true_and, decide_eq_true_eq] at hpar
    have key : ∀ p, v.parentVersion = some p ↔
        ((∃ u ∈ s.versions, u.configId = a.configId ∧ u.branch = a.branch ∧ u.version = p) ∧
          ∀ u ∈ s.versions, u.configId = a.configId → u.branch = a.branch → u.version ≤ p) := by
      intro p
      by_cases hn : ConfigVersion.getNextVersion s a.configId > 1
      · rw [if_pos hn] at hpar
        unfold ConfigVersion.findLatestOnBranch at hpar
        cases hl : ConfigVersion.latest (s.versions.filter
            (fun v => v.configId == a.configId && v.branch == a.branch)) with
        | none =>
          rw [hl] at hpar
          rw [ConfigVersion.latest_eq_none_iff, List.filter_eq_nil_iff] at hl
          simp only [hpar]
          constructor
          · intro hh; cases hh
          · rintro ⟨⟨u, hu, hc, hb, _⟩, _⟩
            have := hl u hu
            simp [hc, hb] at this
        | some b =>
          rw [hl] at hpar
          obtain ⟨hmem, hall⟩ := ConfigVersion.latest_eq_some hl
          simp only [List.mem_filter, Bool.and_eq_true, beq_iff_eq] at hmem
          simp only [hpar, Option.some.injEq]
          constructor
          · intro hp
            subst hp
            refine ⟨⟨b, hmem.1, hmem.2.1, hmem.2.2, rfl⟩, ?_⟩
            intro u hu hc hb
            exact hall u (by simp [List.mem_filter, hu, hc, hb])
          · rintro ⟨⟨u, hu, hc, hb, hup⟩, hmax⟩
            have h1 := hall u (by simp [List.mem_filter, hu, hc, hb])
            have h2 := hmax b hmem.1 hmem.2.1 hmem.2.2
            omega
      · rw [if_neg hn] at hpar
        simp only [hpar]
        constructor
        · intro hh; cases hh
        · rintro ⟨⟨u, hu, hc, _, _⟩, _⟩
          have h1 := ConfigVersion.getNextVersion_gt s a.configId u hu hc
          have h2 := hpos u hu
          omega
    refine ⟨key, ?_⟩
    intro hno
    cases hv : v.parentVersion with
    | none => rfl
    | some p =>
      obtain ⟨⟨u, hu, hc, hb, _⟩, _⟩ := (key p).mp hv
      exact absurd hb (hno u hu hc)
  · intro p hp hsome
    rw [hsome] at hpar
    have : (p == 0) = false := by simp; omega
    simp only [jsNotNum, this, Bool.false_and] at hpar
    simpa using hpar

theorem toDigitsCore_suffix (b : Nat) : ∀ (fuel n : Nat) (ds : List Char),
    ∃ pre, Nat.toDigitsCore b fuel n ds = pre ++ ds := by
  intro fuel
  induction fuel with
  | zero => intro n ds; exact ⟨[], by simp [Nat.toDigitsCore]⟩
  | succ f ih =>
    intro n ds
    simp only [Nat.toDigitsCore]
    split
    · exact ⟨[Nat.digitChar (n % b)], by simp⟩
    · obtain ⟨pre, hpre⟩ := ih (n / b) (Nat.digitChar (n % b) :: ds)
      exact ⟨pre ++ [Nat.digitChar (n % b)], by simp [hpre]⟩

theorem toString_nat_data (n : Nat) :
    ∃ pre, (toString n).data = pre ++ [Nat.digitChar (n % 10)] := by
  show ∃ pre, (Nat.repr n).data = pre ++ [Nat.digitChar (n % 10)]
  simp only [Nat.repr, Nat.toDigits, Nat.toDigitsCore, List.asString]
  split
  · exact ⟨[], by simp⟩
  · obtain ⟨pre, hpre⟩ := toDigitsCore_suffix 10 n (n / 10) [Nat.digitChar (n % 10)]
    exact ⟨pre, hpre⟩

theorem digitChar_not_whitespace (n : Nat) :
    isJsWhitespace (Nat.digitChar (n % 10)) = false := by
  have h : n % 10 < 10 := Nat.mod_lt _ (by decide)
  generalize n % 10 = k at h
  interval_cases k <;> decide

theorem jsTrim_eq_self (c d : Char) (mid : List Char) (hc : isJsWhitespace c = false)
    (hd : isJsWhitespace d = false) :
    jsTrim (String.mk (c :: (mid ++ [d]))) = String.mk (c :: (mid ++ [d])) := by
  simp [jsTrim, List.dropWhile_cons, hc, hd, List.dropWhile, List.reverse_append]

/-- Trimming leaves the default branch changelog as it is. -/
theorem jsTrim_branch_default (n : Nat) :
    jsTrim ("Branch created from version " ++ toString n) =
      "Branch created from version " ++ toString n := by
  obtain ⟨pre, hpre⟩ := toString_nat_data n
  have hd : "Branch created from version " ++ toString n =
      String.mk ('B' :: (("ranch created from version ".data ++ pre) ++
        [Nat.digitChar (n % 10)])) := by
    apply String.ext
    rw [String.data_append, hpre]
    simp
  rw [hd]
  exact jsTrim_eq_self _ _ _ (by decide) (digitChar_not_whitespace n)

/-- C4: `createVersion` on an archived config fails with the invalid-state error (HTTP 400)
whatever the data, branch, parentVersion and changeLog, and leaves the whole store (the version
ledger and every config with its active versions) unchanged. -/
theorem C4_createVersion_archived_rejected (w : World) (s : Store) (a : CreateVersionArgs)
    (config : Config) (hfind : Config.findOne s a.configId a.tenantId = some config)
    (harch : config.isArchived = true) :
    VersioningService.createVersion w s a =
      (.error
        { message := "Cannot create versions for an archived configuration. Restore it first.",
          status := some 400 }, s) ∧
    errorKind
        { message := "Cannot create versions for an archived configuration. Restore it first.",
          status := some 400 } = ErrorKind.InvalidState := by
  refine ⟨?_, by decide⟩
  unfold VersioningService.createVersion
  rw [hfind]
  simp [harch]

/-- C5: config lookup is scoped by tenant.  When no config has the given id together with the
given tenant (also when the id exists under another tenant), `createVersion`, `createBranch`,
`deployVersion` and `rollback` each fail with the not-found error 'Config not found' (HTTP 404)
and leave the whole store unchanged. -/
theorem C5_config_lookup_scoped_by_tenant (w : World) (s : Store) (configId tenantId : String)
    (hscope : ∀ c ∈ s.configs, ¬ (c._id = configId ∧ c.tenantId = tenantId))
    (cv : CreateVersionArgs) (cb : CreateBranchArgs) (d : DeployArgs) (r : RollbackArgs)
    (hcv : cv.configId = configId ∧ cv.tenantId = tenantId)
    (hcb : cb.configId = configId ∧ cb.tenantId = tenantId)
    (hd : d.configId = configId ∧ d.tenantId = tenantId)
    (hr : r.configId = configId ∧ r.tenantId = tenantId) :
    VersioningService.createVersion w s cv =
      (.error { message := "Config not found", status := some 404 }, s) ∧
    VersioningService.createBranch w s cb =
      (.error { message := "Config not found", status := some 404 }, s) ∧
    VersioningService.deployVersion w s d =
      (.error { message := "Config not found", status := some 404 }, s) ∧
    VersioningService.rollback w s r =
      (.error { message := "Config not found", status := some 404 }, s) ∧
    errorKind { message := "Config not found", status := some 404 } = ErrorKind.NotFound := by
  have hnone : Config.findOne s configId tenantId = none := by
    unfold Config.findOne
    rw [List.find?_eq_none]
    intro c hc
    have := hscope c hc
    simpa using this
  refine ⟨?_, ?_, ?_, ?_, by decide⟩
  · unfold VersioningService.createVersion
    rw [hcv.1, hcv.2, hnone]
  · unfold VersioningService.createBranch
    rw [hcb.1, hcb.2, hnone]
  · unfold VersioningService.deployVersion
    rw [hd.1, hd.2, hnone]
  · unfold VersioningService.rollback
    rw [hr.1, hr.2, hnone]

/-- A schema-valid version whose number is not yet taken for its config is stored. -/
theorem ConfigVersion.save_succeeds (w : World) (s : Store) (doc : ConfigVersion)
    (ht : doc.tenantId ≠ "") (hd : doc.data.isObject = true) (hc : doc.createdBy ≠ "")
    (hfresh : ∀ u ∈ s.versions, u.configId = doc.configId → u.version ≠ doc.version) :
    ∃ saved s1, ConfigVersion.save w s doc = .ok (saved, s1) := by
  have htruthy : doc.data.truthy = true := by
    cases hdoc : doc.data <;> simp_all [Document.isObject, Document.truthy]
  have hval : ConfigVersion.validate (ConfigVersion.preValidate w doc) = true := by
    simp [ConfigVersion.validate, ConfigVersion.preValidate, htruthy, ht, hd, hc]
  have hany : (s.versions.any (fun v =>
      v.configId == (ConfigVersion.preValidate w doc).configId &&
        v.version == (ConfigVersion.preValidate w doc).version)) = false := by
    rw [List.any_eq_false]
    intro u hu
    have hf := ConfigVersion.preValidate_fields w doc
    rw [hf.1, hf.2.1]
    have := hfresh u hu
    simp only [Bool.and_eq_true, beq_iff_eq, not_and]
    exact this
  refine ⟨ConfigVersion.preValidate w doc,
    { s with versions := s.versions ++ [ConfigVersion.preValidate w doc] }, ?_⟩
  unfold ConfigVersion.save
  simp only [hval, hany, Bool.not_true, Bool.false_eq_true, if_false]

/-- C6: on an archived config `createBranch` does not fail: it stores and returns version 1,
whereas `createVersion` on the same store is rejected with the invalid-state error. -/
theorem C6_createBranch_ignores_archived_flag :
    (VersioningService.createBranch World.sample Store.archived
        { configId := "c1", tenantId := "t", newBranch := "experiment", sourceVersion := 1,
          data := .obj [("v", .num 1)], createdBy := "test@example.com" }).1.toOption.map
      (fun v => (v.version, v.branch)) = some (1, "experiment") ∧
    (VersioningService.createBranch World.sample Store.archived
        { configId := "c1", tenantId := "t", newBranch := "experiment", sourceVersion := 1,
          data := .obj [("v", .num 1)], createdBy := "test@example.com" }).2.versions.length = 1 ∧
    (VersioningService.createVersion World.sample Store.archived
        { configId := "c1", tenantId := "t", branch := "experiment",
          data := .obj [("v", .num 1)], createdBy := "test@example.com" }).1.toOption = none := by
  decide

/-- C7 (as stated, refuted): creating a branch that already exists is answered with HTTP 400,
the status of the invalid-state rejections, not with a conflict (HTTP 409). -/
theorem C7_branch_exists_is_not_conflict :
    ¬ ∃ e, (VersioningService.createBranch World.sample Store.withOne
        { configId := "c1", tenantId := "t", newBranch := "main", sourceVersion := 1,
          data := .obj [("v", .num 3)], createdBy := "test@example.com" }).1 = .error e ∧
      errorKind e = ErrorKind.Conflict := by
  rintro ⟨e, he, hk⟩
  have hrun : (VersioningService.createBranch World.sample Store.withOne
        { configId := "c1", tenantId := "t", newBranch := "main", sourceVersion := 1,
          data := .obj [("v", .num 3)], createdBy := "test@example.com" }).1 =
      .error { message := "Branch 'main' already exists", status := some 400 } := by
    decide
  rw [hrun] at he
  cases he
  revert hk
  decide

/-- C7 (amended): for an existing config, `createBranch` fails when the config (under this
tenant) already has a version on `newBranch`: the error says the branch already exists, carries
HTTP status 400 (an invalid-state rejection, not a 409 conflict) and the store is unchanged.
When no version exists on `newBranch`, the config is not archived and the input passes schema
validation (object data, non-empty author and tenant), the call succeeds. -/
theorem C7_createBranch_existing_branch_rejected (w : World) (s : Store) (a : CreateBranchArgs)
    (config : Config) (hfind : Config.findOne s a.configId a.tenantId = some config) :
    ((∃ u ∈ s.versions,
        u.configId = a.configId ∧ u.tenantId = a.tenantId ∧ u.branch = a.newBranch) →
      VersioningService.createBranch w s a =
        (.error { message := "Branch " ++ "'" ++ a.newBranch ++ "'" ++ " already exists",
                  status := some 400 }, s) ∧
      errorKind { message := "Branch " ++ "'" ++ a.newBranch ++ "'" ++ " already exists",
                  status := some 400 } = ErrorKind.InvalidState) ∧
    ((∀ u ∈ s.versions,
        ¬ (u.configId = a.configId ∧ u.tenantId = a.tenantId ∧ u.branch = a.newBranch)) →
      config.isArchived = false → a.data.isObject = true → a.createdBy ≠ "" →
      a.tenantId ≠ "" →
      ∃ v, (VersioningService.createBranch w s a).1 = .ok v) := by
  constructor
  · rintro ⟨u, hu, hc, ht, hb⟩
    have hsome : ∃ x, ConfigVersion.findOneByBranch s a.configId a.tenantId a.newBranch
        = some x := by
      cases hx : ConfigVersion.findOneByBranch s a.configId a.tenantId a.newBranch with
      | some x => exact ⟨x, rfl⟩
      | none =>
        unfold ConfigVersion.findOneByBranch at hx
        rw [List.find?_eq_none] at hx
        have := hx u hu
        simp [hc, ht, hb] at this
    obtain ⟨x, hx⟩ := hsome
    refine ⟨?_, ?_⟩
    · unfold VersioningService.createBranch
      rw [hfind]
      simp only [hx]
    · have e1 : ¬ ("Error" = "ValidationError") := by decide
      have e2 : ¬ ("Error" = "CastError") := by decide
      have e3 : ¬ ("Error" = "MongoNetworkError") := by decide
      simp [errorKind, errorHandler, e1, e2, e3]
  · intro hno _ hdata hby hten
    have hnone : ConfigVersion.findOneByBranch s a.configId a.tenantId a.newBranch = none := by
      unfold ConfigVersion.findOneByBranch
      rw [List.find?_eq_none]
      intro u hu
      have := hno u hu
      simpa [and_assoc] using this
    obtain ⟨saved, s1, hsave⟩ := ConfigVersion.save_succeeds w s
      (ConfigVersion.new w
        { configId := a.configId, tenantId := a.tenantId,
          version := ConfigVersion.getNextVersion s a.configId, branch := a.newBranch,
          parentVersion := some a.sourceVersion, data := a.data,
          changeLog := (if jsNotStr a.changeLog then
              some ("Branch created from version " ++ toString a.sourceVersion)
            else a.changeLog),
          createdBy := a.createdBy })
      hten hdata hby
      (by
        intro u hu hc
        have := ConfigVersion.getNextVersion_gt s a.configId u hu hc
        simp only [ConfigVersion.new]
        omega)
    refine ⟨saved, ?_⟩
    unfold VersioningService.createBranch
    rw [hfind]
    simp only [hnone, hsave]

/-- C7, witness: the sample store after the first call, asked for a branch named main. -/
theorem C7_createBranch_existing_branch_rejected_witness :
    Config.findOne Store.withOne "c1" "t" = some Config.sample ∧
    VersioningService.createBranch World.sample Store.withOne
        { configId := "c1", tenantId := "t", newBranch := "main", sourceVersion := 1,
          data := .obj [("v", .num 3)], createdBy := "test@example.com" } =
      (.error { message := "Branch 'main' already exists", status := some 400 },
        Store.withOne) ∧
    (∃ v, (VersioningService.createBranch World.sample Store.withOne
        { configId := "c1", tenantId := "t", newBranch := "experiment", sourceVersion := 1,
          data := .obj [("v", .num 3)], createdBy := "test@example.com" }).1 = .ok v) :=
  ⟨by decide,
   ((C7_createBranch_existing_branch_rejected World.sample Store.withOne
      { configId := "c1", tenantId := "t", newBranch := "main", sourceVersion := 1,
        data := .obj [("v", .num 3)], createdBy := "test@example.com" } Config.sample
      (by decide)).1
      (by decide)).1,
   (C7_createBranch_existing_branch_rejected World.sample Store.withOne
      { configId := "c1", tenantId := "t", newBranch := "experiment", sourceVersion := 1,
        data := .obj [("v", .num 3)], createdBy := "test@example.com" } Config.sample
      (by decide)).2
      (by decide) (by decide) (by decide) (by decide) (by decide)⟩

/-- C8 (as stated, refuted): a supplied changeLog with surrounding white space is not stored as
supplied; the schema setter `trim: true` strips it. -/
theorem C8_supplied_changeLog_is_trimmed :
    (VersioningService.createBranch World.sample Store.withOne
        { configId := "c1", tenantId := "t", newBranch := "experiment", sourceVersion := 1,
          data := .obj [("v", .num 3)], createdBy := "test@example.com",
          changeLog := some " fork for the experiment " }).1.toOption.map
      (fun v => v.changeLog) = some (some "fork for the experiment") ∧
    (VersioningService.createBranch World.sample Store.withOne
        { configId := "c1", tenantId := "t", newBranch := "experiment", sourceVersion := 1,
          data := .obj [("v", .num 3)], createdBy := "test@example.com",
          changeLog := some " fork for the experiment " }).1.toOption.map
      (fun v => v.changeLog) ≠ some (some " fork for the experiment ") := by
  decide

/-- C8 (amended): a successful `createBranch` returns a version whose number is the greatest
version number of the config plus one (1 for an empty ledger), whose branch is `newBranch`,
whose parentVersion is `sourceVersion`, whose data is the supplied data, and whose changeLog is
the supplied non-empty changeLog with surrounding white space trimmed or, when none (or an empty
one) is given, exactly "Branch created from version <sourceVersion>". -/
theorem C8_createBranch_result (w : World) (s s' : Store) (a : CreateBranchArgs)
    (v : ConfigVersion) (h : VersioningService.createBranch w s a = (.ok v, s')) :
    v.version = maxVersion s a.configId + 1 ∧ v.branch = a.newBranch ∧
    v.parentVersion = some a.sourceVersion ∧ v.data = a.data ∧
    (∀ c, a.changeLog = some c → c ≠ "" → v.changeLog = some (jsTrim c)) ∧
    ((a.changeLog = none ∨ a.changeLog = some "") →
      v.changeLog = some ("Branch created from version " ++ toString a.sourceVersion)) := by
  obtain ⟨_, _, _, hver, _, _, hbr, hdata, hpar, hlog, _, _⟩ :=
    VersioningService.createBranch_ok h
  refine ⟨by rw [hver, ConfigVersion.getNextVersion_eq], hbr, hpar, hdata, ?_, ?_⟩
  · intro c hc hne
    rw [hlog, hc]
    simp [jsNotStr, hne]
  · intro hc
    have hnot : jsNotStr a.changeLog = true := by
      rcases hc with hc | hc <;> simp [hc, jsNotStr]
    rw [hlog, hnot]
    simp only [if_true, Option.map_some', jsTrim_branch_default]

/-- C8, witness: a branch forked from version 1 of the sample store, no changeLog given. -/
theorem C8_createBranch_result_witness :
    VersioningService.createBranch World.sample Store.withOne CreateBranchArgs.sample =
      (.ok ConfigVersion.sampleBranch,
        (VersioningService.createBranch World.sample Store.withOne CreateBranchArgs.sample).2) ∧
    ConfigVersion.sampleBranch.version = maxVersion Store.withOne "c1" + 1 ∧
    ConfigVersion.sampleBranch.changeLog = some ("Branch created from version " ++ toString 1) :=
  ⟨by decide,
   (C8_createBranch_result World.sample Store.withOne
      (VersioningService.createBranch World.sample Store.withOne CreateBranchArgs.sample).2
      CreateBranchArgs.sample ConfigVersion.sampleBranch (by decide)).1,
   (C8_createBranch_result World.sample Store.withOne
      (VersioningService.createBranch World.sample Store.withOne CreateBranchArgs.sample).2
      CreateBranchArgs.sample ConfigVersion.sampleBranch (by decide)).2.2.2.2.2 (Or.inl rfl)⟩

theorem ActiveVersions.get_set_same (a : ActiveVersions) (e : Environment) (n : Nat) :
    (a.set e n).get e = some n := by
  cases e <;> rfl

theorem ActiveVersions.get_set_other (a : ActiveVersions) (e e' : Environment) (n : Nat)
    (h : e' ≠ e) : (a.set e n).get e' = a.get e' := by
  cases e <;> cases e' <;> first | rfl | exact absurd rfl h

/-- After `save`, looking the saved config up again finds the saved document. -/
theorem Config.findOne_after_save (configs : List Config) (configId tenantId : String)
    (config saved : Config)
    (hfind : configs.find? (fun c => c._id == configId && c.tenantId == tenantId) = some config)
    (hid : saved._id = configId) (hten : saved.tenantId = tenantId) :
    (configs.map (fun c => if c._id = saved._id then saved else c)).find?
      (fun c => c._id == configId && c.tenantId == tenantId) = some saved := by
  induction configs with
  | nil => simp at hfind
  | cons x xs ih =>
    simp only [List.map_cons, List.find?_cons]
    by_cases hx : x._id = saved._id
    · simp [hx, hid, hten]
    · have hx' : ¬ x._id = configId := by rw [← hid]; exact hx
      simp only [List.find?_cons] at hfind
      simp only [if_neg hx]
      have hp : (x._id == configId && x.tenantId == tenantId) = false := by simp [hx']
      rw [hp] at hfind ⊢
      exact ih hfind

/-- C10: effect of a successful `deployVersion`.  The result reports as previousVersion what
`activeVersions[environment]` held before the call and as deployedVersion the requested
version; afterwards the config has `activeVersions[environment] = version`, its other
environments keep their active version, every other config is unchanged, and so is the version
ledger. -/
theorem C10_deployVersion_effect (w : World) (s s' : Store) (a : DeployArgs) (r : DeployResult)
    (h : VersioningService.deployVersion w s a = (.ok r, s')) :
    ∃ config config', Config.findOne s a.configId a.tenantId = some config ∧
      r.previousVersion = config.activeVersions.get a.environment ∧
      r.deployedVersion = a.version ∧
      Config.findOne s' a.configId a.tenantId = some config' ∧
      config'.activeVersions.get a.environment = some a.version ∧
      (∀ e, e ≠ a.environment → config'.activeVersions.get e = config.activeVersions.get e) ∧
      s'.configs.length = s.configs.length ∧
      (∀ (i : Nat) (c : Config), s.configs[i]? = some c → c._id ≠ a.configId →
        s'.configs[i]? = some c) ∧
      s'.versions = s.versions := by
  unfold VersioningService.deployVersion at h
  split at h
  · simp at h
  · rename_i config hfind
    split at h
    · simp at h
    · split at h
      · simp at h
      · split at h
        · simp at h
        · simp only [Prod.mk.injEq, Except.ok.injEq] at h
          obtain ⟨hr, hs'⟩ := h
          have hid : config._id = a.configId ∧ config.tenantId = a.tenantId := by
            have := List.find?_some hfind
            simpa using this
          have hl := AuditService.log_frame w
          refine ⟨config, { config with
              activeVersions := config.activeVersions.set a.environment a.version,
              updatedAt := w.now }, hfind, ?_, ?_, ?_, ?_, ?_, ?_, ?_, ?_⟩
          · rw [← hr]
          · rw [← hr]
          · unfold Config.findOne
            rw [← hs', (hl _ _).2]
            simp only [Config.save]
            exact Config.findOne_after_save s.configs a.configId a.tenantId config
              { config with
                activeVersions := config.activeVersions.set a.environment a.version,
                updatedAt := w.now } hfind hid.1 hid.2
          · exact ActiveVersions.get_set_same _ _ _
          · intro e he
            exact ActiveVersions.get_set_other _ _ _ _ he
          · rw [← hs', (hl _ _).2]
            simp [Config.save]
          · intro i c hc hne
            rw [← hs', (hl _ _).2]
            simp only [Config.save, List.getElem?_map, hc, Option.map_some']
            rw [if_neg]
            rw [hid.1]
            exact hne
          · rw [← hs', (hl _ _).1]
            simp [Config.save]

/-- C10, witness: version 2 of the sample config is deployed to dev. -/
theorem C10_deployVersion_effect_witness :
    VersioningService.deployVersion World.sample Store.withTwo DeployArgs.sample =
      (.ok { success := true, configId := "c1", environment := .dev, previousVersion := none,
             deployedVersion := 2, deployedAt := 1000 },
        (VersioningService.deployVersion World.sample Store.withTwo DeployArgs.sample).2) ∧
    ∃ config config', Config.findOne Store.withTwo "c1" "t" = some config ∧
      (none : Option Nat) = config.activeVersions.get .dev ∧
      (2 : Nat) = 2 ∧
      Config.findOne (VersioningService.deployVersion World.sample Store.withTwo
        DeployArgs.sample).2 "c1" "t" = some config' ∧
      config'.activeVersions.get .dev = some 2 ∧
      (∀ e, e ≠ Environment.dev →
        config'.activeVersions.get e = config.activeVersions.get e) ∧
      (VersioningService.deployVersion World.sample Store.withTwo
        DeployArgs.sample).2.configs.length = Store.withTwo.configs.length ∧
      (∀ (i : Nat) (c : Config), Store.withTwo.configs[i]? = some c → c._id ≠ "c1" →
        (VersioningService.deployVersion World.sample Store.withTwo
          DeployArgs.sample).2.configs[i]? = some c) ∧
      (VersioningService.deployVersion World.sample Store.withTwo
        DeployArgs.sample).2.versions = Store.withTwo.versions :=
  ⟨by decide,
   C10_deployVersion_effect World.sample Store.withTwo
     (VersioningService.deployVersion World.sample Store.withTwo DeployArgs.sample).2
     DeployArgs.sample
     { success := true, configId := "c1", environment := .dev, previousVersion := none,
       deployedVersion := 2, deployedAt := 1000 } (by decide)⟩

theorem ConfigVersion.save_then (w : World) (s : Store) (doc : ConfigVersion)
    (ht : doc.tenantId ≠ "") (hd : doc.data.isObject = true) (hc : doc.createdBy ≠ "")
    (hv : doc.version = ConfigVersion.getNextVersion s doc.configId)
    (k : ConfigVersion → Store → Store) :
    ∃ v, (match ConfigVersion.save w s doc with
      | .error e => ((.error e : Except ServiceError ConfigVersion), s)
      | .ok (version, s1) => (.ok version, k version s1)).1 = .ok v := by
  obtain ⟨saved, s1, hsave⟩ := ConfigVersion.save_succeeds w s doc ht hd hc
    (by
      intro u hu huc
      have := ConfigVersion.getNextVersion_gt s doc.configId u hu huc
      omega)
  exact ⟨saved, by rw [hsave]⟩

theorem ConfigVersion.save_validated {w : World} {s s1 : Store} {doc saved : ConfigVersion}
    (h : ConfigVersion.save w s doc = .ok (saved, s1)) :
    doc.tenantId ≠ "" ∧ doc.data.isObject = true ∧ doc.createdBy ≠ "" := by
  obtain ⟨h1, _, h3⟩ := ConfigVersion.save_ok h
  have hf := ConfigVersion.preValidate_fields w doc
  rw [h1] at h3
  simp only [ConfigVersion.validate, Bool.and_eq_true, bne_iff_ne, ne_eq] at h3
  rw [hf.2.2.1, hf.2.2.2.2.2.1, hf.2.2.2.2.2.2.2] at h3
  exact ⟨h3.1.1.1, h3.1.1.2, h3.2⟩

/-- A ledger call succeeds exactly when it meets what it needs, and then returns the number
after the greatest one in the ledger of its config. -/
theorem LedgerCall.run_ok_iff (c : LedgerCall) (s : Store) :
    (∃ v, (c.run s).1 = .ok v) ↔ c.accepted s = true := by
  cases c with
  | createVersion w a =>
    simp only [LedgerCall.run, LedgerCall.accepted]
    constructor
    · rintro ⟨v, hv⟩
      unfold VersioningService.createVersion at hv
      cases hfind : Config.findOne s a.configId a.tenantId with
      | none => rw [hfind] at hv; cases hv
      | some config =>
        rw [hfind] at hv
        dsimp only at hv
        by_cases harch : config.isArchived = true
        · simp only [harch, ↓reduceIte] at hv
          cases hv
        · simp only [harch, Bool.false_eq_true, ↓reduceIte] at hv
          split at hv
          · cases hv
          · rename_i version s1 hsave
            obtain ⟨h1, h2, h3⟩ := ConfigVersion.save_validated hsave
            simp only [ConfigVersion.new] at h1 h2 h3
            simp [harch, h1, h2, h3]
    · intro hacc
      simp only [Bool.and_eq_true, bne_iff_ne, ne_eq] at hacc
      obtain ⟨⟨⟨hcfg, hten⟩, hdata⟩, hby⟩ := hacc
      cases hfind : Config.findOne s a.configId a.tenantId with
      | none => rw [hfind] at hcfg; cases hcfg
      | some config =>
        rw [hfind] at hcfg
        have harch : config.isArchived = false := by simpa using hcfg
        unfold VersioningService.createVersion
        rw [hfind]
        simp only [harch, Bool.false_eq_true, ↓reduceIte]
        exact ConfigVersion.save_then w s _ hten hdata hby rfl _
  | createBranch w a =>
    simp only [LedgerCall.run, LedgerCall.accepted]
    constructor
    · rintro ⟨v, hv⟩
      unfold VersioningService.createBranch at hv
      cases hfind : Config.findOne s a.configId a.tenantId with
      | none => rw [hfind] at hv; cases hv
      | some config =>
        rw [hfind] at hv
        dsimp only at hv
        cases hbranch : ConfigVersion.findOneByBranch s a.configId a.tenantId a.newBranch with
        | some _ => rw [hbranch] at hv; cases hv
        | none =>
          rw [hbranch] at hv
          dsimp only at hv
          split at hv
          · cases hv
          · rename_i version s1 hsave
            obtain ⟨h1, h2, h3⟩ := ConfigVersion.save_validated hsave
            simp only [ConfigVersion.new] at h1 h2 h3
            simp [h1, h2, h3]
    · intro hacc
      simp only [Bool.and_eq_true, bne_iff_ne, ne_eq] at hacc
      obtain ⟨⟨⟨⟨hcfg, hbr⟩, hten⟩, hdata⟩, hby⟩ := hacc
      cases hfind : Config.findOne s a.configId a.tenantId with
      | none => rw [hfind] at hcfg; cases hcfg
      | some config =>
        cases hbranch : ConfigVersion.findOneByBranch s a.configId a.tenantId a.newBranch with
        | some _ => rw [hbranch] at hbr; cases hbr
        | none =>
          unfold VersioningService.createBranch
          rw [hfind]
          simp only [hbranch]
          exact ConfigVersion.save_then w s _ hten hdata hby rfl _

theorem returnedFor_length (configId : String) (calls : List LedgerCall) :
    ∀ s : Store, callsAccepted s calls = true → (∀ c ∈ calls, c.configId = configId) →
      (returnedFor s calls configId).length = calls.length := by
  induction calls with
  | nil => intro s _ _; rfl
  | cons c cs ih =>
    intro s hacc hall
    simp only [callsAccepted, Bool.and_eq_true] at hacc
    obtain ⟨v, hv⟩ := (LedgerCall.run_ok_iff c s).mpr hacc.1
    have hcid : v.configId = configId := by
      rcases LedgerCall.run_cases c s with ⟨e, he, _⟩ | ⟨v', hv', _, _, _, hc⟩
      · rw [he] at hv; cases hv
      · rw [hv'] at hv
        cases hv
        rw [hc]
        exact hall c (by simp)
    have hret : returnedFor s (c :: cs) configId =
        v :: returnedFor (c.run s).2 cs configId := by
      simp [returnedFor, runCalls, returnedVersions, hv, Except.toOption, hcid]
    rw [hret, List.length_cons, List.length_cons,
      ih (c.run s).2 hacc.2 (fun c' hc' => hall c' (List.mem_cons_of_mem _ hc'))]

/-- C1: version numbering is gap-free and shared across branches.  Starting from a store in
which the config has no version, after any sequence of `createVersion` and `createBranch` calls
(on this or any other config, on any branches) the versions returned for the config by the
successful calls are numbered 1, 2, ..., k in call order, the ledger of the config holds exactly
the numbers 1..k, without duplicates, and a failed call leaves the ledger untouched.  A call
succeeds exactly when the config exists for the tenant (not archived for `createVersion`, without
a version on the new branch for `createBranch`) and the document passes the schema; it then
returns the number after the greatest one in the ledger of its config.  So when every call of
the sequence addresses the config and meets these conditions, the n calls return 1, 2, ..., n. -/
theorem C1_version_numbering_gap_free (s : Store) (configId : String) (calls : List LedgerCall)
    (hempty : ∀ v ∈ s.versions, v.configId ≠ configId) :
    (returnedFor s calls configId).map (fun v => v.version) =
      List.range' 1 (returnedFor s calls configId).length ∧
    ledgerNumbers (runCalls s calls).2 configId =
      List.range' 1 (returnedFor s calls configId).length ∧
    (ledgerNumbers (runCalls s calls).2 configId).Nodup ∧
    (∀ (s₁ : Store) (c : LedgerCall) (e : ServiceError),
      (c.run s₁).1 = .error e → (c.run s₁).2.versions = s₁.versions) ∧
    (∀ (s₁ : Store) (c : LedgerCall),
      (∃ v, (c.run s₁).1 = .ok v) ↔ c.accepted s₁ = true) ∧
    (∀ (s₁ : Store) (c : LedgerCall) (v : ConfigVersion),
      (c.run s₁).1 = .ok v → v.version = maxVersion s₁ c.configId + 1) ∧
    (callsAccepted s calls = true → (∀ c ∈ calls, c.configId = configId) →
      (returnedFor s calls configId).map (fun v => v.version) =
        List.range' 1 calls.length) := by
  have h0 : ledgerNumbers s configId = List.range' 1 0 := by
    simp only [ledgerNumbers, List.range'_zero, List.map_eq_nil_iff, List.filter_eq_nil_iff]
    intro v hv
    simpa using hempty v hv
  obtain ⟨h1, h2⟩ := runCalls_numbering configId calls s 0 h0
  simp only [Nat.zero_add] at h1 h2
  refine ⟨h1, h2, ?_, ?_, fun s₁ c => LedgerCall.run_ok_iff c s₁, ?_, ?_⟩
  · rw [h2]; exact List.nodup_range' 1 _
  · intro s₁ c e he
    rcases LedgerCall.run_cases c s₁ with ⟨e', _, hs⟩ | ⟨v, hv, _⟩
    · rw [hs]
    · rw [hv] at he; cases he
  · intro s₁ c v hv
    rcases LedgerCall.run_cases c s₁ with ⟨e, he, _⟩ | ⟨v', hv', _, _, hnum, _⟩
    · rw [he] at hv; cases hv
    · rw [hv'] at hv
      cases hv
      rw [hnum, ConfigVersion.getNextVersion_eq]
  · intro hacc hall
    rw [h1, returnedFor_length configId calls s hacc hall]

/-- C1, witness: six calls on the sample config, two branches interleaved, two of them
failing; and four calls that all succeed, which return 1, 2, 3, 4. -/
theorem C1_version_numbering_gap_free_witness :
    (∀ v ∈ Store.sample.versions, v.configId ≠ "c1") ∧
    ((returnedFor Store.sample LedgerCall.sampleRun "c1").map (fun v => v.version) =
      List.range' 1 (returnedFor Store.sample LedgerCall.sampleRun "c1").length ∧
    ledgerNumbers (runCalls Store.sample LedgerCall.sampleRun).2 "c1" =
      List.range' 1 (returnedFor Store.sample LedgerCall.sampleRun "c1").length ∧
    (ledgerNumbers (runCalls Store.sample LedgerCall.sampleRun).2 "c1").Nodup ∧
    (∀ (s₁ : Store) (c : LedgerCall) (e : ServiceError),
      (c.run s₁).1 = .error e → (c.run s₁).2.versions = s₁.versions) ∧
    (∀ (s₁ : Store) (c : LedgerCall),
      (∃ v, (c.run s₁).1 = .ok v) ↔ c.accepted s₁ = true) ∧
    (∀ (s₁ : Store) (c : LedgerCall) (v : ConfigVersion),
      (c.run s₁).1 = .ok v → v.version = maxVersion s₁ c.configId + 1) ∧
    (callsAccepted Store.sample LedgerCall.sampleRun = true →
      (∀ c ∈ LedgerCall.sampleRun, c.configId = "c1") →
      (returnedFor Store.sample LedgerCall.sampleRun "c1").map (fun v => v.version) =
        List.range' 1 LedgerCall.sampleRun.length)) ∧
    callsAccepted Store.sample LedgerCall.acceptedRun = true ∧
    (returnedFor Store.sample LedgerCall.acceptedRun "c1").map (fun v => v.version) =
      [1, 2, 3, 4] :=
  ⟨by decide,
   C1_version_numbering_gap_free Store.sample "c1" LedgerCall.sampleRun (by decide),
   by decide,
   (C1_version_numbering_gap_free Store.sample "c1" LedgerCall.acceptedRun
      (by decide)).2.2.2.2.2.2 (by decide) (by decide)⟩

/-- C2, witness: the second call of the test suite infers version 1 as its parent. -/
theorem C2_parent_inference_witness :
    (∀ u ∈ Store.withOne.versions, 0 < u.version) ∧
    VersioningService.createVersion World.sample Store.withOne CreateVersionArgs.second =
      (.ok ConfigVersion.sampleSecond, Store.withTwo) ∧
    ((CreateVersionArgs.second.parentVersion = none →
      (∀ p, ConfigVersion.sampleSecond.parentVersion = some p ↔
        ((∃ u ∈ Store.withOne.versions, u.configId = CreateVersionArgs.second.configId ∧
            u.branch = CreateVersionArgs.second.branch ∧ u.version = p) ∧
          ∀ u ∈ Store.withOne.versions, u.configId = CreateVersionArgs.second.configId →
            u.branch = CreateVersionArgs.second.branch → u.version ≤ p)) ∧
      ((∀ u ∈ Store.withOne.versions, u.configId = CreateVersionArgs.second.configId →
          u.branch ≠ CreateVersionArgs.second.branch) →
        ConfigVersion.sampleSecond.parentVersion = none)) ∧
    (∀ p, 0 < p → CreateVersionArgs.second.parentVersion = some p →
      ConfigVersion.sampleSecond.parentVersion = some p)) :=
  ⟨by decide, by decide,
   C2_parent_inference World.sample Store.withOne Store.withTwo CreateVersionArgs.second
     ConfigVersion.sampleSecond (by decide) (by decide)⟩

/-- C4, witness: the first call of the test suite against the archived store. -/
theorem C4_createVersion_archived_rejected_witness :
    Config.findOne Store.archived CreateVersionArgs.first.configId
      CreateVersionArgs.first.tenantId = some Config.archivedSample ∧
    Config.archivedSample.isArchived = true ∧
    VersioningService.createVersion World.sample Store.archived CreateVersionArgs.first =
      (.error
        { message := "Cannot create versions for an archived configuration. Restore it first.",
          status := some 400 }, Store.archived) :=
  ⟨by decide, by decide,
   (C4_createVersion_archived_rejected World.sample Store.archived CreateVersionArgs.first
     Config.archivedSample (by decide) (by decide)).1⟩

/-- C5, witness: the sample config exists for tenant `t`; the four calls name the same id under
tenant `other`. -/
theorem C5_config_lookup_scoped_by_tenant_witness :
    (∀ c ∈ Store.sample.configs, ¬ (c._id = "c1" ∧ c.tenantId = "other")) ∧
    (∃ c ∈ Store.sample.configs, c._id = "c1") ∧
    VersioningService.createVersion World.sample Store.sample
        { configId := "c1", tenantId := "other", data := .obj [],
          createdBy := "test@example.com" } =
      (.error { message := "Config not found", status := some 404 }, Store.sample) ∧
    VersioningService.createBranch World.sample Store.sample
        { configId := "c1", tenantId := "other", newBranch := "experiment", sourceVersion := 1,
          data := .obj [], createdBy := "test@example.com" } =
      (.error { message := "Config not found", status := some 404 }, Store.sample) ∧
    VersioningService.deployVersion World.sample Store.sample
        { configId := "c1", tenantId := "other", version := 1, environment := .dev,
          performedBy := "admin@example.com" } =
      (.error { message := "Config not found", status := some 404 }, Store.sample) ∧
    VersioningService.rollback World.sample Store.sample
        { configId := "c1", tenantId := "other", environment := .dev, targetVersion := 1,
          performedBy := "admin@example.com" } =
      (.error { message := "Config not found", status := some 404 }, Store.sample) ∧
    errorKind { message := "Config not found", status := some 404 } = ErrorKind.NotFound :=
  ⟨by decide, by decide,
   C5_config_lookup_scoped_by_tenant World.sample Store.sample "c1" "other" (by decide)
     { configId := "c1", tenantId := "other", data := .obj [],
       createdBy := "test@example.com" }
     { configId := "c1", tenantId := "other", newBranch := "experiment", sourceVersion := 1,
       data := .obj [], createdBy := "test@example.com" }
     { configId := "c1", tenantId := "other", version := 1, environment := .dev,
       performedBy := "admin@example.com" }
     { configId := "c1", tenantId := "other", environment := .dev, targetVersion := 1,
       performedBy := "admin@example.com" }
     ⟨rfl, rfl⟩ ⟨rfl, rfl⟩ ⟨rfl, rfl⟩ ⟨rfl, rfl⟩⟩

theorem lineageValid_iff (s : Store) :
    lineageValid s = true ↔
      ∀ v ∈ s.versions, ∀ p, v.parentVersion = some p →
        ∃ u ∈ s.versions, u.configId = v.configId ∧ u.version = p ∧ u.version ≠ v.version := by
  unfold lineageValid
  rw [List.all_eq_true]
  constructor
  · intro h v hv p hp
    have := h v hv
    rw [hp] at this
    simp only [List.any_eq_true, Bool.and_eq_true, beq_iff_eq, bne_iff_ne] at this
    obtain ⟨u, hu, ⟨h1, h2⟩, h3⟩ := this
    exact ⟨u, hu, h1, h2, h3⟩
  · intro h v hv
    cases hp : v.parentVersion with
    | none => rfl
    | some p =>
      obtain ⟨u, hu, h1, h2, h3⟩ := h v hv p hp
      simp only [List.any_eq_true, Bool.and_eq_true, beq_iff_eq, bne_iff_ne]
      exact ⟨u, hu, ⟨h1, h2⟩, h3⟩

/-- The parent a successful call stores, when the caller's own choice (if any) is known to the
ledger, names a version already in the ledger of the config. -/
theorem LedgerCall.run_parent (c : LedgerCall) (s : Store) (v : ConfigVersion)
    (hok : (c.run s).1 = .ok v) (hknown : c.parentKnown s = true) :
    ∀ p, v.parentVersion = some p →
      ∃ u ∈ s.versions, u.configId = c.configId ∧ u.version = p := by
  intro p hp
  have hsupplied : ∀ q, c.suppliedParent = some q →
      ∃ u ∈ s.versions, u.configId = c.configId ∧ u.version = q := by
    intro q hq
    unfold LedgerCall.parentKnown at hknown
    rw [hq] at hknown
    simp only [List.any_eq_true, Bool.and_eq_true, beq_iff_eq] at hknown
    obtain ⟨u, hu, h1, h2⟩ := hknown
    exact ⟨u, hu, h1, h2⟩
  cases c with
  | createVersion w a =>
    simp only [LedgerCall.run] at hok
    have hpair : VersioningService.createVersion w s a =
        (.ok v, (VersioningService.createVersion w s a).2) := by
      rw [← hok]
    obtain ⟨_, _, _, _, _, _, _, _, hpar, _, _, _⟩ := VersioningService.createVersion_ok hpair
    simp only [LedgerCall.configId]
    split at hpar
    · rename_i cur hcur
      split at hcur
      · unfold ConfigVersion.findLatestOnBranch at hcur
        have hmem := (ConfigVersion.latest_eq_some hcur).1
        simp only [List.mem_filter, Bool.and_eq_true, beq_iff_eq] at hmem
        rw [hpar] at hp
        cases hp
        exact ⟨cur, hmem.1, hmem.2.1, rfl⟩
      · cases hcur
    · rw [hpar] at hp
      exact hsupplied p hp
  | createBranch w a =>
    simp only [LedgerCall.run] at hok
    have hpair : VersioningService.createBranch w s a =
        (.ok v, (VersioningService.createBranch w s a).2) := by
      rw [← hok]
    obtain ⟨_, _, _, _, _, _, _, _, hpar, _, _, _⟩ := VersioningService.createBranch_ok hpair
    rw [hpar] at hp
    exact hsupplied p hp

/-- One ledger call keeps the lineage pointers valid. -/
theorem LedgerCall.run_lineageValid (c : LedgerCall) (s : Store)
    (hvalid : lineageValid s = true) (hknown : c.parentKnown s = true) :
    lineageValid (c.run s).2 = true := by
  rcases LedgerCall.run_cases c s with ⟨e, _, hs⟩ | ⟨v, hv, hvers, _, hnum, hcid⟩
  · rw [hs]; exact hvalid
  · rw [lineageValid_iff] at hvalid ⊢
    rw [hvers]
    intro x hx p hp
    simp only [List.mem_append, List.mem_singleton] at hx
    rcases hx with hx | hx
    · obtain ⟨u, hu, h1, h2, h3⟩ := hvalid x hx p hp
      exact ⟨u, by simp [hu], h1, h2, h3⟩
    · subst hx
      obtain ⟨u, hu, h1, h2⟩ := LedgerCall.run_parent c s x hv hknown p hp
      have hlt := ConfigVersion.getNextVersion_gt s c.configId u hu h1
      refine ⟨u, by simp [hu], by rw [h1, hcid], h2, ?_⟩
      rw [hnum]
      omega

/-- C9 (as stated, refuted): one `createBranch` on an empty ledger with `sourceVersion` 7 leaves
a version whose parentVersion names no version of the ledger. -/
theorem C9_dangling_parent_reachable :
    Store.sample.versions = [] ∧
    lineageValid (runCalls Store.sample
      [.createBranch World.sample { CreateBranchArgs.sample with sourceVersion := 7 }]).2
      = false := by
  decide

/-- C9 (amended): lineage pointers stay valid along calls whose supplied parent is known.
From a ledger in which every set parentVersion names another version of the same config, any
sequence of `createVersion` and `createBranch` calls in which each supplied parentVersion or
sourceVersion names a version present in the config's ledger at the time of the call (the code
stores a supplied value unchecked; an inferred parent always exists) leads to a ledger with the
same property. -/
theorem C9_lineage_pointers_valid (calls : List LedgerCall) (s : Store)
    (hvalid : lineageValid s = true) (hknown : parentsKnown s calls = true) :
    lineageValid (runCalls s calls).2 = true := by
  induction calls generalizing s with
  | nil => simpa [runCalls] using hvalid
  | cons c cs ih =>
    simp only [parentsKnown, Bool.and_eq_true] at hknown
    simp only [runCalls]
    exact ih (c.run s).2 (LedgerCall.run_lineageValid c s hvalid hknown.1) hknown.2

/-- C9, witness: the sample run, which forks from version 1 and infers every other parent. -/
theorem C9_lineage_pointers_valid_witness :
    lineageValid Store.sample = true ∧
    parentsKnown Store.sample LedgerCall.sampleRun = true ∧
    lineageValid (runCalls Store.sample LedgerCall.sampleRun).2 = true :=
  ⟨by decide, by decide,
   C9_lineage_pointers_valid LedgerCall.sampleRun Store.sample (by decide) (by decide)⟩

/-- A string whose first character is not white space. -/
theorem jsTrim_ne_empty (s : String) (ch : Char) (rest : List Char)
    (hs : s.data = ch :: rest) (hch : isJsWhitespace ch = false) : jsTrim s ≠ "" := by
  intro h
  have hdata := congrArg String.data h
  simp only [jsTrim, hs, List.dropWhile_cons, hch, Bool.false_eq_true, if_false,
    List.reverse_cons] at hdata
  have hnil : List.dropWhile isJsWhitespace (rest.reverse ++ [ch]) = [] := by
    simpa using hdata
  rw [List.dropWhile_eq_nil_iff] at hnil
  have := hnil ch (by simp)
  rw [hch] at this
  cases this

theorem DiffService.computeDiff_changes_ne_nil (x y : Document)
    (h : (DiffService.computeDiff x y).hasChanges = true) :
    (DiffService.computeDiff x y).changes ≠ [] := by
  unfold DiffService.computeDiff at h ⊢
  cases hd : deepDiff.diff x y with
  | none => rw [hd] at h; simp at h
  | some ds =>
    simp only
    unfold deepDiff.diff at hd
    simp only at hd
    split at hd
    · cases hd
    · rename_i hne
      cases hd
      intro hmap
      rw [List.map_eq_nil_iff] at hmap
      rw [hmap] at hne
      simp at hne

theorem DiffService.describeChange_head (c : Change) :
    ∃ ch rest, (DiffService.describeChange c).data = ch :: rest ∧
      isJsWhitespace ch = false := by
  unfold DiffService.describeChange
  split
  · exact ⟨'A', "dded ".data ++ c.path.data, by rw [String.data_append]; rfl, by decide⟩
  · split
    · exact ⟨'M', "odified ".data ++ c.path.data, by rw [String.data_append]; rfl, by decide⟩
    · split
      · exact ⟨'D', "eleted ".data ++ c.path.data, by rw [String.data_append]; rfl,
          by decide⟩
      · exact ⟨'C', "hanged ".data ++ c.path.data, by rw [String.data_append]; rfl,
          by decide⟩

theorem jsJoin_cons_head (sep x : String) (xs : List String) (ch : Char) (rest : List Char)
    (hx : x.data = ch :: rest) : ∃ rest', (jsJoin sep (x :: xs)).data = ch :: rest' := by
  cases xs with
  | nil => exact ⟨rest, by simpa [jsJoin] using hx⟩
  | cons y ys =>
    exact ⟨rest ++ sep.data ++ (jsJoin sep (y :: ys)).data, by
      simp [jsJoin, String.data_append, hx]⟩

theorem DiffService.description_head (changes : List Change) (hne : changes ≠ []) :
    ∃ ch rest,
      (if changes.length > 3 then
          jsJoin "; " ((changes.take 3).map DiffService.describeChange) ++ " (+" ++
            toString (changes.length - 3) ++ " more)"
        else jsJoin "; " ((changes.take 3).map DiffService.describeChange)).data = ch :: rest ∧
      isJsWhitespace ch = false := by
  cases changes with
  | nil => exact absurd rfl hne
  | cons c cs =>
    obtain ⟨ch, rest, hd, hws⟩ := DiffService.describeChange_head c
    obtain ⟨rest1, h1⟩ := jsJoin_cons_head "; " (DiffService.describeChange c)
      ((cs.take 2).map DiffService.describeChange) ch rest hd
    have htake : ((c :: cs).take 3).map DiffService.describeChange =
        DiffService.describeChange c :: (cs.take 2).map DiffService.describeChange := by
      simp
    rw [htake]
    by_cases hlen : (c :: cs).length > 3
    · rw [if_pos hlen]
      refine ⟨ch, rest1 ++ " (+".data ++ (toString ((c :: cs).length - 3)).data ++
        " more)".data, ?_, hws⟩
      simp only [String.data_append, h1, List.cons_append, List.append_assoc]
    · rw [if_neg hlen]
      exact ⟨ch, rest1, h1, hws⟩

theorem takeUnits_head (ch : Char) (rest : List Char) (m : Nat)
    (hws : isJsWhitespace ch = false) :
    ∃ ch' rest', takeUnits (ch :: rest) (m + 1) = ch' :: rest' ∧
      isJsWhitespace ch' = false := by
  unfold takeUnits
  split
  · exact ⟨ch, _, rfl, hws⟩
  · cases m with
    | zero => exact ⟨Char.ofNat 0xFFFD, [], rfl, by decide⟩
    | succ k => exact ⟨ch, _, rfl, hws⟩

theorem truncate_head (description : String) (ch : Char) (rest : List Char) (maxLength : Nat)
    (hd : description.data = ch :: rest) (hws : isJsWhitespace ch = false)
    (hmax : 0 < maxLength) :
    ∃ ch' rest', (if jsLength description > maxLength then
        jsSubstring0 description maxLength ++ "..." else description).data = ch' :: rest' ∧
      isJsWhitespace ch' = false := by
  by_cases hlen : jsLength description > maxLength
  · rw [if_pos hlen]
    obtain ⟨m, hm⟩ : ∃ m, maxLength = m + 1 := ⟨maxLength - 1, by omega⟩
    obtain ⟨ch', rest', h1, h2⟩ := takeUnits_head ch rest m hws
    refine ⟨ch', rest' ++ "...".data, ?_, h2⟩
    simp only [jsSubstring0, String.data_append, hd, hm, h1, List.cons_append]
  · rw [if_neg hlen]
    exact ⟨ch, rest, hd, hws⟩

/-- A generated changelog of a computed diff starts with a character that is not white
space. -/
theorem DiffService.generateChangeLog_head (x y : Document) (maxLength : Nat)
    (hmax : 0 < maxLength) :
    ∃ ch rest,
      (DiffService.generateChangeLog (DiffService.computeDiff x y) maxLength).data = ch :: rest ∧
      isJsWhitespace ch = false := by
  unfold DiffService.generateChangeLog
  cases hh : (DiffService.computeDiff x y).hasChanges with
  | false => exact ⟨'N', "o changes".data, by simp, by decide⟩
  | true =>
    have hne := DiffService.computeDiff_changes_ne_nil x y hh
    obtain ⟨ch, rest, hd, hws⟩ := DiffService.description_head _ hne
    obtain ⟨ch', rest', hr, hws'⟩ := truncate_head _ ch rest maxLength hd hws hmax
    exact ⟨ch', rest', by simpa using hr, hws'⟩

/-- C3 (as stated, refuted): with a key that ends in a blank the generated changelog ends in a
blank, and the stored changeLog is the trimmed text, not the generated one. -/
theorem C3_generated_changeLog_is_trimmed :
    DiffService.generateChangeLog
      (DiffService.computeDiff (.obj [("name ", .num 1)]) (.obj [("name ", .num 2)])) =
        "Modified name " ∧
    (VersioningService.createVersion World.sample
        (VersioningService.createVersion World.sample Store.sample
          { CreateVersionArgs.first with data := .obj [("name ", .num 1)] }).2
        { CreateVersionArgs.second with data := .obj [("name ", .num 2)] }).1.toOption.map
      (fun v => v.changeLog) = some (some "Modified name") ∧
    (VersioningService.createVersion World.sample
        (VersioningService.createVersion World.sample Store.sample
          { CreateVersionArgs.first with data := .obj [("name ", .num 1)] }).2
        { CreateVersionArgs.second with data := .obj [("name ", .num 2)] }).1.toOption.map
      (fun v => v.changeLog) ≠
      some (some (DiffService.generateChangeLog
        (DiffService.computeDiff (.obj [("name ", .num 1)]) (.obj [("name ", .num 2)])))) := by
  decide

/-- C3 (amended): auto-generated changelog in `createVersion`.  In a ledger whose version
numbers are positive, when a successful call supplies neither parentVersion nor changeLog and
the branch already has a latest version `cur` (the inferred parent), the stored changeLog is
`generateChangeLog(computeDiff(cur.data, data))` with the default maxLength of 200, with
surrounding white space trimmed by the schema setter; it is never empty.  A supplied non-empty
changeLog is stored (trimmed) instead of a generated one. -/
theorem C3_auto_changelog (w : World) (s s' : Store) (a : CreateVersionArgs)
    (v : ConfigVersion) (hpos : ∀ u ∈ s.versions, 0 < u.version)
    (h : VersioningService.createVersion w s a = (.ok v, s')) :
    (∀ cur, a.parentVersion = none → a.changeLog = none →
      ConfigVersion.findLatestOnBranch s a.configId a.branch = some cur →
      v.changeLog = some (jsTrim
        (DiffService.generateChangeLog (DiffService.computeDiff cur.data a.data) 200)) ∧
      v.changeLog ≠ some "" ∧ v.changeLog ≠ none) ∧
    (∀ c, a.changeLog = some c → c ≠ "" → v.changeLog = some (jsTrim c)) := by
  obtain ⟨_, _, _, _, _, _, _, _, _, hlog, _, _⟩ := VersioningService.createVersion_ok h
  constructor
  · intro cur hpar hcl hcur
    have hmem := (ConfigVersion.latest_eq_some
      (by unfold ConfigVersion.findLatestOnBranch at hcur; exact hcur)).1
    simp only [List.mem_filter, Bool.and_eq_true, beq_iff_eq] at hmem
    have h1 := ConfigVersion.getNextVersion_gt s a.configId cur hmem.1 hmem.2.1
    have h2 := hpos cur hmem.1
    have hnext : ConfigVersion.getNextVersion s a.configId > 1 := by omega
    rw [hpar, hcl, hcur] at hlog
    simp only [jsNotNum, jsNotStr, Bool.true_and, decide_eq_true_eq, hnext, if_true,
      Option.map_some'] at hlog
    refine ⟨hlog, ?_, ?_⟩
    · rw [hlog]
      obtain ⟨ch, rest, hd, hws⟩ :=
        DiffService.generateChangeLog_head cur.data a.data 200 (by decide)
      intro hempty
      exact jsTrim_ne_empty _ ch rest hd hws (Option.some.inj hempty)
    · rw [hlog]; simp
  · intro c hc hne
    rw [hc] at hlog
    have hnot : jsNotStr (some c) = false := by simp [jsNotStr, hne]
    rw [hlog, hnot]
    split <;> simp

/-- C3, witness: `{ v: 1 }` followed by `{ v: 2 }` stores the changeLog "Modified v". -/
theorem C3_auto_changelog_witness :
    (∀ u ∈ Store.withOne.versions, 0 < u.version) ∧
    VersioningService.createVersion World.sample Store.withOne CreateVersionArgs.second =
      (.ok ConfigVersion.sampleSecond, Store.withTwo) ∧
    CreateVersionArgs.second.parentVersion = none ∧
    CreateVersionArgs.second.changeLog = none ∧
    ConfigVersion.findLatestOnBranch Store.withOne "c1" "main" =
      some ConfigVersion.sampleFirst ∧
    (ConfigVersion.sampleSecond.changeLog = some (jsTrim
        (DiffService.generateChangeLog
          (DiffService.computeDiff (.obj [("v", .num 1)]) (.obj [("v", .num 2)])) 200)) ∧
      ConfigVersion.sampleSecond.changeLog ≠ some "" ∧
      ConfigVersion.sampleSecond.changeLog ≠ none) ∧
    ConfigVersion.sampleSecond.changeLog = some "Modified v" :=
  ⟨by decide, by decide, rfl, rfl, by decide,
   (C3_auto_changelog World.sample Store.withOne Store.withTwo CreateVersionArgs.second
     ConfigVersion.sampleSecond (by decide) (by decide)).1 ConfigVersion.sampleFirst rfl rfl
     (by decide),
   rfl⟩

/-- C11: `deployVersion` succeeds exactly when the config exists for the pair of config id and
tenant, is not archived, declares the environment, and the ledger holds the target version for
that config and tenant.  Every failure is a not-found error (HTTP 404: the config or the version
is missing) or an invalid-state error (HTTP 400: the config is archived or the environment is
not declared), and leaves the whole store, the active versions included, unchanged. -/
theorem C11_deployVersion_preconditions (w : World) (s : Store) (a : DeployArgs) :
    ((∃ r, (VersioningService.deployVersion w s a).1 = .ok r) ↔
      ∃ config, Config.findOne s a.configId a.tenantId = some config ∧
        config.isArchived = false ∧ a.environment ∈ config.environments ∧
        ∃ u ∈ s.versions, u.configId = a.configId ∧ u.tenantId = a.tenantId ∧
          u.version = a.version) ∧
    (∀ e, (VersioningService.deployVersion w s a).1 = .error e →
      (VersioningService.deployVersion w s a).2 = s ∧
      ((errorKind e = ErrorKind.NotFound ∧
          (Config.findOne s a.configId a.tenantId = none ∨
            ∀ u ∈ s.versions, ¬ (u.configId = a.configId ∧ u.tenantId = a.tenantId ∧
              u.version = a.version))) ∨
        (errorKind e = ErrorKind.InvalidState ∧
          ∃ config, Config.findOne s a.configId a.tenantId = some config ∧
            (config.isArchived = true ∨ a.environment ∉ config.environments)))) := by
  have e1 : ¬ ("Error" = "ValidationError") := by decide
  have e2 : ¬ ("Error" = "CastError") := by decide
  have e3 : ¬ ("Error" = "MongoNetworkError") := by decide
  have hver : ∀ x, ConfigVersion.findOneByVersion s a.configId a.tenantId a.version = x →
      (x = none ↔ ∀ u ∈ s.versions, ¬ (u.configId = a.configId ∧ u.tenantId = a.tenantId ∧
        u.version = a.version)) := by
    intro x hx
    subst hx
    unfold ConfigVersion.findOneByVersion
    rw [List.find?_eq_none]
    simp [and_assoc]
  unfold VersioningService.deployVersion
  cases hfind : Config.findOne s a.configId a.tenantId with
  | none =>
    simp [errorKind, errorHandler, e1, e2, e3]
  | some config =>
    by_cases harch : config.isArchived = true
    · simp [harch, errorKind, errorHandler, e1, e2, e3]
    · by_cases henv : a.environment ∈ config.environments
      · cases hv : ConfigVersion.findOneByVersion s a.configId a.tenantId a.version with
        | none =>
          have hno := (hver none hv).mp rfl
          simp [harch, henv, errorKind, errorHandler, e1, e2, e3]
          intro u hu hc ht
          exact fun hvv => hno u hu ⟨hc, ht, hvv⟩
        | some versionDoc =>
          have hex : ∃ u ∈ s.versions, u.configId = a.configId ∧ u.tenantId = a.tenantId ∧
              u.version = a.version := by
            by_contra hcon
            push_neg at hcon
            have := (hver (some versionDoc) hv).mpr (fun u hu h => hcon u hu h.1 h.2.1 h.2.2)
            cases this
          simp [harch, henv]
          exact hex
      · simp [harch, henv, errorKind, errorHandler, e1, e2, e3]

theorem ConfigVersion.findOneByVersion_eq_none_iff (s : Store) (configId tenantId : String)
    (version : Nat) :
    ConfigVersion.findOneByVersion s configId tenantId version = none ↔
      ∀ u ∈ s.versions, ¬ (u.configId = configId ∧ u.tenantId = tenantId ∧
        u.version = version) := by
  unfold ConfigVersion.findOneByVersion
  rw [List.find?_eq_none]
  simp [and_assoc]

theorem ConfigVersion.findOneByVersion_some {s : Store} {configId tenantId : String}
    {version : Nat} {u : ConfigVersion}
    (h : ConfigVersion.findOneByVersion s configId tenantId version = some u) :
    u ∈ s.versions ∧ u.configId = configId ∧ u.tenantId = tenantId ∧ u.version = version := by
  unfold ConfigVersion.findOneByVersion at h
  have h1 := List.mem_of_find?_eq_some h
  have h2 := List.find?_some h
  simp only [Bool.and_eq_true, beq_iff_eq] at h2
  exact ⟨h1, h2.1.1, h2.1.2, h2.2⟩

theorem Config.findOne_some {s : Store} {configId tenantId : String} {config : Config}
    (h : Config.findOne s configId tenantId = some config) :
    config ∈ s.configs ∧ config._id = configId ∧ config.tenantId = tenantId := by
  unfold Config.findOne at h
  have h1 := List.mem_of_find?_eq_some h
  have h2 := List.find?_some h
  simp only [Bool.and_eq_true, beq_iff_eq] at h2
  exact ⟨h1, h2.1, h2.2⟩

/-- The outcome of `rollback` when the config and the target version are found. -/
theorem VersioningService.rollback_found (w : World) (s : Store) (a : RollbackArgs)
    (config : Config) (u : ConfigVersion)
    (hfind : Config.findOne s a.configId a.tenantId = some config)
    (hver : ConfigVersion.findOneByVersion s a.configId a.tenantId a.targetVersion = some u) :
    (VersioningService.rollback w s a).1 =
      .ok { success := true, configId := a.configId, environment := a.environment,
            previousVersion := config.activeVersions.get a.environment,
            currentVersion := a.targetVersion, rolledBackAt := w.now } ∧
    (VersioningService.rollback w s a).2.versions = s.versions ∧
    (VersioningService.rollback w s a).2.configs =
      s.configs.map (fun c => if c._id = config._id then
        { config with
          activeVersions := config.activeVersions.set a.environment a.targetVersion,
          updatedAt := w.now } else c) := by
  have hl := AuditService.log_frame w
  unfold VersioningService.rollback
  rw [hfind]
  simp only [hver]
  refine ⟨trivial, ?_, ?_⟩
  · rw [(hl _ _).1]; simp [Config.save]
  · rw [(hl _ _).2]; simp [Config.save]

/-- The outcome of `deployVersion` when all its checks pass. -/
theorem VersioningService.deployVersion_found (w : World) (s : Store) (a : DeployArgs)
    (config : Config) (u : ConfigVersion)
    (hfind : Config.findOne s a.configId a.tenantId = some config)
    (harch : config.isArchived = false) (henv : a.environment ∈ config.environments)
    (hver : ConfigVersion.findOneByVersion s a.configId a.tenantId a.version = some u) :
    (VersioningService.deployVersion w s a).1 =
      .ok { success := true, configId := a.configId, environment := a.environment,
            previousVersion := config.activeVersions.get a.environment,
            deployedVersion := a.version, deployedAt := w.now } ∧
    (VersioningService.deployVersion w s a).2.versions = s.versions ∧
    (VersioningService.deployVersion w s a).2.configs =
      s.configs.map (fun c => if c._id = config._id then
        { config with
          activeVersions := config.activeVersions.set a.environment a.version,
          updatedAt := w.now } else c) := by
  have hl := AuditService.log_frame w
  have hcont : (!config.environments.contains a.environment) = false := by simp [henv]
  unfold VersioningService.deployVersion
  rw [hfind]
  simp only [harch, hcont, hver, Bool.false_eq_true, if_false]
  refine ⟨trivial, ?_, ?_⟩
  · rw [(hl _ _).1]; simp [Config.save]
  · rw [(hl _ _).2]; simp [Config.save]

/-- C12: `rollback` succeeds exactly when the config exists for the pair of config id and
tenant and the ledger holds the target version for it; nothing is asked of the archived flag, of
the declared environments or of the history of the environment.  On success it returns the
prior `activeVersions[environment]` as previousVersion and the target as currentVersion, and the
config then has `activeVersions[environment] = targetVersion`.  When the config exists and the
target version is missing it fails with 'Target version not found' and the store is unchanged. -/
theorem C12_rollback_preconditions_and_effect (w : World) (s : Store) (a : RollbackArgs) :
    ((∃ r, (VersioningService.rollback w s a).1 = .ok r) ↔
      (∃ config, Config.findOne s a.configId a.tenantId = some config) ∧
        ∃ u ∈ s.versions, u.configId = a.configId ∧ u.tenantId = a.tenantId ∧
          u.version = a.targetVersion) ∧
    (∀ r, (VersioningService.rollback w s a).1 = .ok r →
      ∃ config config', Config.findOne s a.configId a.tenantId = some config ∧
        r.previousVersion = config.activeVersions.get a.environment ∧
        r.currentVersion = a.targetVersion ∧
        Config.findOne (VersioningService.rollback w s a).2 a.configId a.tenantId =
          some config' ∧
        config'.activeVersions.get a.environment = some a.targetVersion) ∧
    (∀ config, Config.findOne s a.configId a.tenantId = some config →
      (∀ u ∈ s.versions, ¬ (u.configId = a.configId ∧ u.tenantId = a.tenantId ∧
        u.version = a.targetVersion)) →
      VersioningService.rollback w s a =
        (.error { message := "Target version not found", status := some 404 }, s)) := by
  cases hfind : Config.findOne s a.configId a.tenantId with
  | none =>
    have hrun : VersioningService.rollback w s a =
        (.error { message := "Config not found", status := some 404 }, s) := by
      unfold VersioningService.rollback
      rw [hfind]
    refine ⟨?_, ?_, ?_⟩
    · rw [hrun]; simp
    · rw [hrun]; simp
    · intro config h; cases h
  | some config =>
    cases hver : ConfigVersion.findOneByVersion s a.configId a.tenantId a.targetVersion with
    | none =>
      have hno := (ConfigVersion.findOneByVersion_eq_none_iff _ _ _ _).mp hver
      have hrun : VersioningService.rollback w s a =
          (.error { message := "Target version not found", status := some 404 }, s) := by
        unfold VersioningService.rollback
        simp only [hfind, hver]
      refine ⟨?_, ?_, ?_⟩
      · rw [hrun]
        simp only [reduceCtorEq, exists_false, false_iff, not_and, not_exists]
        intro _ u hu hc ht hv
        exact hno u hu ⟨hc, ht, hv⟩
      · rw [hrun]; simp
      · intro _ _ _; exact hrun
    | some u =>
      obtain ⟨hu, hc, ht, hv⟩ := ConfigVersion.findOneByVersion_some hver
      obtain ⟨hok, _, hconfigs⟩ := VersioningService.rollback_found w s a config u hfind hver
      obtain ⟨_, hid, hten⟩ := Config.findOne_some hfind
      refine ⟨?_, ?_, ?_⟩
      · rw [hok]
        simp only [Except.ok.injEq, exists_eq', true_iff]
        exact ⟨⟨config, rfl⟩, u, hu, hc, ht, hv⟩
      · intro r hr
        rw [hok] at hr
        cases hr
        refine ⟨config, { config with
            activeVersions := config.activeVersions.set a.environment a.targetVersion,
            updatedAt := w.now }, rfl, rfl, rfl, ?_, ActiveVersions.get_set_same _ _ _⟩
        unfold Config.findOne at hfind ⊢
        rw [hconfigs]
        exact Config.findOne_after_save s.configs a.configId a.tenantId config
          { config with
            activeVersions := config.activeVersions.set a.environment a.targetVersion,
            updatedAt := w.now } hfind hid hten
      · intro _ _ hno
        exact absurd ⟨hc, ht, hv⟩ (hno u hu)

theorem activeVersionsValid_iff (s : Store) (configId : String) :
    activeVersionsValid s configId = true ↔
      ∀ c ∈ s.configs, c._id = configId → ∀ e n, c.activeVersions.get e = some n →
        ∃ u ∈ s.versions, u.configId = configId ∧ u.version = n := by
  unfold activeVersionsValid
  rw [List.all_eq_true]
  constructor
  · intro h c hc hid e n hn
    have h1 := h c hc
    simp only [Bool.or_eq_true, bne_iff_ne, ne_eq, hid, not_true_eq_false, false_or,
      List.all_eq_true] at h1
    have h2 := h1 e (by cases e <;> simp)
    rw [hn] at h2
    simp only [List.any_eq_true, Bool.and_eq_true, beq_iff_eq] at h2
    obtain ⟨u, hu, h3, h4⟩ := h2
    exact ⟨u, hu, h3, h4⟩
  · intro h c hc
    by_cases hid : c._id = configId
    · simp only [Bool.or_eq_true, bne_iff_ne, ne_eq, hid, not_true_eq_false, false_or,
        List.all_eq_true]
      intro e _
      cases hn : c.activeVersions.get e with
      | none => rfl
      | some n =>
        obtain ⟨u, hu, h3, h4⟩ := h c hc hid e n hn
        simp only [List.any_eq_true, Bool.and_eq_true, beq_iff_eq]
        exact ⟨u, hu, h3, h4⟩
    · simp [hid]

/-- Pointing one environment of a config at a version of its ledger keeps the invariant. -/
theorem activeVersionsValid_set (s s' : Store) (configId : String) (config : Config)
    (environment : Environment) (version now : Nat)
    (hvalid : activeVersionsValid s configId = true) (hmem : config ∈ s.configs)
    (hex : ∃ u ∈ s.versions, u.configId = config._id ∧ u.version = version)
    (hvers : s'.versions = s.versions)
    (hconfigs : s'.configs = s.configs.map (fun c => if c._id = config._id then
      { config with activeVersions := config.activeVersions.set environment version,
                    updatedAt := now } else c)) :
    activeVersionsValid s' configId = true := by
  rw [activeVersionsValid_iff] at hvalid ⊢
  rw [hvers, hconfigs]
  intro c' hc' hid e n hn
  rw [List.mem_map] at hc'
  obtain ⟨c, hc, hcc⟩ := hc'
  by_cases hsame : c._id = config._id
  · rw [if_pos hsame] at hcc
    subst hcc
    simp only at hid hn
    by_cases he : e = environment
    · subst he
      rw [ActiveVersions.get_set_same] at hn
      cases hn
      obtain ⟨u, hu, h1, h2⟩ := hex
      exact ⟨u, hu, by rw [h1, hid], h2⟩
    · rw [ActiveVersions.get_set_other _ _ _ _ he] at hn
      exact hvalid config hmem hid e n hn
  · rw [if_neg hsame] at hcc
    subst hcc
    exact hvalid c hc hid e n hn

/-- A call that changes no config and drops no version keeps the invariant. -/
theorem activeVersionsValid_grow (s s' : Store) (configId : String)
    (hvalid : activeVersionsValid s configId = true) (hconfigs : s'.configs = s.configs)
    (hvers : ∀ u ∈ s.versions, u ∈ s'.versions) :
    activeVersionsValid s' configId = true := by
  rw [activeVersionsValid_iff] at hvalid ⊢
  rw [hconfigs]
  intro c hc hid e n hn
  obtain ⟨u, hu, h1, h2⟩ := hvalid c hc hid e n hn
  exact ⟨u, hvers u hu, h1, h2⟩

theorem VersioningService.deployVersion_store (w : World) (s : Store) (a : DeployArgs) :
    (VersioningService.deployVersion w s a).2 = s ∨
    ∃ config u, Config.findOne s a.configId a.tenantId = some config ∧
      ConfigVersion.findOneByVersion s a.configId a.tenantId a.version = some u ∧
      (VersioningService.deployVersion w s a).2.versions = s.versions ∧
      (VersioningService.deployVersion w s a).2.configs =
        s.configs.map (fun c => if c._id = config._id then
          { config with
            activeVersions := config.activeVersions.set a.environment a.version,
            updatedAt := w.now } else c) := by
  cases hfind : Config.findOne s a.configId a.tenantId with
  | none => left; unfold VersioningService.deployVersion; rw [hfind]
  | some config =>
    by_cases harch : config.isArchived = true
    · left; unfold VersioningService.deployVersion; rw [hfind]; simp [harch]
    · by_cases henv : a.environment ∈ config.environments
      · cases hver : ConfigVersion.findOneByVersion s a.configId a.tenantId a.version with
        | none =>
          left; unfold VersioningService.deployVersion; rw [hfind]; simp [harch, henv, hver]
        | some u =>
          right
          obtain ⟨_, h1, h2⟩ := VersioningService.deployVersion_found w s a config u hfind
            (by simpa using harch) henv hver
          exact ⟨config, u, rfl, rfl, h1, h2⟩
      · left; unfold VersioningService.deployVersion; rw [hfind]; simp [harch, henv]

theorem VersioningService.rollback_store (w : World) (s : Store) (a : RollbackArgs) :
    (VersioningService.rollback w s a).2 = s ∨
    ∃ config u, Config.findOne s a.configId a.tenantId = some config ∧
      ConfigVersion.findOneByVersion s a.configId a.tenantId a.targetVersion = some u ∧
      (VersioningService.rollback w s a).2.versions = s.versions ∧
      (VersioningService.rollback w s a).2.configs =
        s.configs.map (fun c => if c._id = config._id then
          { config with
            activeVersions := config.activeVersions.set a.environment a.targetVersion,
            updatedAt := w.now } else c) := by
  cases hfind : Config.findOne s a.configId a.tenantId with
  | none => left; unfold VersioningService.rollback; rw [hfind]
  | some config =>
    cases hver : ConfigVersion.findOneByVersion s a.configId a.tenantId a.targetVersion with
    | none => left; unfold VersioningService.rollback; rw [hfind]; simp only [hver]
    | some u =>
      right
      obtain ⟨_, h1, h2⟩ := VersioningService.rollback_found w s a config u hfind hver
      exact ⟨config, u, rfl, rfl, h1, h2⟩

/-- One call of any of the four operations keeps the invariant. -/
theorem ServiceCall.run_activeVersionsValid (c : ServiceCall) (s : Store) (configId : String)
    (hvalid : activeVersionsValid s configId = true) :
    activeVersionsValid (c.run s) configId = true := by
  cases c with
  | createVersion w a =>
    rcases LedgerCall.run_cases (.createVersion w a) s with ⟨e, _, hs⟩ | ⟨v, _, hv, hc, _⟩
    · simp only [LedgerCall.run] at hs
      simp only [ServiceCall.run, hs, hvalid]
    · simp only [LedgerCall.run] at hv hc
      exact activeVersionsValid_grow s _ configId hvalid hc
        (fun u hu => by simp only [ServiceCall.run]; rw [hv]; simp [hu])
  | createBranch w a =>
    rcases LedgerCall.run_cases (.createBranch w a) s with ⟨e, _, hs⟩ | ⟨v, _, hv, hc, _⟩
    · simp only [LedgerCall.run] at hs
      simp only [ServiceCall.run, hs, hvalid]
    · simp only [LedgerCall.run] at hv hc
      exact activeVersionsValid_grow s _ configId hvalid hc
        (fun u hu => by simp only [ServiceCall.run]; rw [hv]; simp [hu])
  | deployVersion w a =>
    rcases VersioningService.deployVersion_store w s a with hs | ⟨config, u, hf, hu, hv, hc⟩
    · simp only [ServiceCall.run, hs, hvalid]
    · obtain ⟨hmem, hid, _⟩ := Config.findOne_some hf
      obtain ⟨h1, h2, _, h4⟩ := ConfigVersion.findOneByVersion_some hu
      exact activeVersionsValid_set s _ configId config a.environment a.version w.now hvalid
        hmem ⟨u, h1, by rw [h2, hid], h4⟩ hv hc
  | rollback w a =>
    rcases VersioningService.rollback_store w s a with hs | ⟨config, u, hf, hu, hv, hc⟩
    · simp only [ServiceCall.run, hs, hvalid]
    · obtain ⟨hmem, hid, _⟩ := Config.findOne_some hf
      obtain ⟨h1, h2, _, h4⟩ := ConfigVersion.findOneByVersion_some hu
      exact activeVersionsValid_set s _ configId config a.environment a.targetVersion w.now
        hvalid hmem ⟨u, h1, by rw [h2, hid], h4⟩ hv hc

/-- C13: the active-version invariant.  If every active version that is set for a config names
a version number present in the ledger of that config, the same holds after any sequence of
`createVersion`, `createBranch`, `deployVersion` and `rollback` calls, successful or failed, on
this or any other config; a config without any active version satisfies the invariant, so it
holds in every state reached from there. -/
theorem C13_active_version_invariant (calls : List ServiceCall) (s : Store)
    (configId : String) (hvalid : activeVersionsValid s configId = true) :
    activeVersionsValid (runService s calls) configId = true ∧
    (∀ c : ServiceCall, activeVersionsValid (c.run s) configId = true) ∧
    (∀ s₀ : Store, (∀ c ∈ s₀.configs, c._id = configId → c.activeVersions = {}) →
      activeVersionsValid s₀ configId = true) := by
  refine ⟨?_, fun c => ServiceCall.run_activeVersionsValid c s configId hvalid, ?_⟩
  · induction calls generalizing s with
    | nil => simpa [runService] using hvalid
    | cons c cs ih =>
      simp only [runService, List.foldl_cons]
      exact ih (c.run s) (ServiceCall.run_activeVersionsValid c s configId hvalid)
  · intro s₀ h
    rw [activeVersionsValid_iff]
    intro c hc hid e n hn
    rw [h c hc hid] at hn
    cases e <;> simp [ActiveVersions.get] at hn

theorem VersioningService.deployVersion_ok {w : World} {s : Store} {a : DeployArgs}
    {r : DeployResult} (h : (VersioningService.deployVersion w s a).1 = .ok r) :
    ∃ config u, Config.findOne s a.configId a.tenantId = some config ∧
      config.isArchived = false ∧ a.environment ∈ config.environments ∧
      ConfigVersion.findOneByVersion s a.configId a.tenantId a.version = some u := by
  cases hfind : Config.findOne s a.configId a.tenantId with
  | none =>
    unfold VersioningService.deployVersion at h
    rw [hfind] at h
    cases h
  | some config =>
    by_cases harch : config.isArchived = true
    · unfold VersioningService.deployVersion at h
      rw [hfind] at h
      simp [harch] at h
    · by_cases henv : a.environment ∈ config.environments
      · cases hver : ConfigVersion.findOneByVersion s a.configId a.tenantId a.version with
        | none =>
          unfold VersioningService.deployVersion at h
          rw [hfind] at h
          simp [harch, henv, hver] at h
        | some u => exact ⟨config, u, rfl, by simpa using harch, henv, rfl⟩
      · unfold VersioningService.deployVersion at h
        rw [hfind] at h
        simp [harch, henv] at h

theorem VersioningService.rollback_ok {w : World} {s : Store} {a : RollbackArgs}
    {r : RollbackResult} (h : (VersioningService.rollback w s a).1 = .ok r) :
    ∃ config u, Config.findOne s a.configId a.tenantId = some config ∧
      ConfigVersion.findOneByVersion s a.configId a.tenantId a.targetVersion = some u := by
  cases hfind : Config.findOne s a.configId a.tenantId with
  | none =>
    unfold VersioningService.rollback at h
    rw [hfind] at h
    cases h
  | some config =>
    cases hver : ConfigVersion.findOneByVersion s a.configId a.tenantId a.targetVersion with
    | none =>
      unfold VersioningService.rollback at h
      rw [hfind] at h
      simp only [hver] at h
      cases h
    | some u => exact ⟨config, u, rfl, rfl⟩

/-- Reading back an environment whose active version is a positive number found in the
ledger. -/
theorem ConfigController.getActiveVersion_found (s : Store) (configId tenantId : String)
    (environment : Environment) (config : Config) (u : ConfigVersion) (n : Nat)
    (hfind : Config.findOne s configId tenantId = some config)
    (hget : config.activeVersions.get environment = some n) (hn : 0 < n)
    (hver : ConfigVersion.findOneByVersion s configId tenantId n = some u) :
    ConfigController.getActiveVersion s configId tenantId environment =
      .ok { configId := configId, environment := environment, version := n, data := u.data,
            checksum := u.checksum, updatedAt := u.createdAt } := by
  have hnot : jsNotNum (some n) = false := by simp [jsNotNum]; omega
  unfold ConfigController.getActiveVersion
  rw [hfind]
  simp only [hget, hnot, Option.getD_some, hver, Bool.false_eq_true, if_false]

theorem ConfigVersion.findOneByVersion_congr (s s' : Store) (configId tenantId : String)
    (n : Nat) (h : s'.versions = s.versions) :
    ConfigVersion.findOneByVersion s' configId tenantId n =
      ConfigVersion.findOneByVersion s configId tenantId n := by
  unfold ConfigVersion.findOneByVersion
  rw [h]

/-- C14: deploy, read back, roll back.  In a ledger whose version numbers are positive, after a
successful `deployVersion` of version v to environment e, `getActiveVersion` for that config and
environment succeeds and returns version v with the data and checksum of the ledger entry of v;
a following successful `rollback` of the same environment to any version w returns
previousVersion = v, and afterwards `getActiveVersion` returns version w with the data and
checksum of the ledger entry of w, whether or not w was ever active in e. -/
theorem C14_deploy_readback_rollback (w₁ : World) (s : Store) (d : DeployArgs)
    (r : DeployResult) (hpos : ∀ u ∈ s.versions, 0 < u.version)
    (hd : (VersioningService.deployVersion w₁ s d).1 = .ok r) :
    (∃ u, ConfigVersion.findOneByVersion s d.configId d.tenantId d.version = some u ∧
      ConfigController.getActiveVersion (VersioningService.deployVersion w₁ s d).2
          d.configId d.tenantId d.environment =
        .ok { configId := d.configId, environment := d.environment, version := d.version,
              data := u.data, checksum := u.checksum, updatedAt := u.createdAt }) ∧
    (∀ (w₂ : World) (b : RollbackArgs) (rr : RollbackResult),
      b.configId = d.configId → b.tenantId = d.tenantId → b.environment = d.environment →
      (VersioningService.rollback w₂ (VersioningService.deployVersion w₁ s d).2 b).1 = .ok rr →
      rr.previousVersion = some d.version ∧ rr.currentVersion = b.targetVersion ∧
      ∃ u', ConfigVersion.findOneByVersion s d.configId d.tenantId b.targetVersion = some u' ∧
        ConfigController.getActiveVersion
            (VersioningService.rollback w₂ (VersioningService.deployVersion w₁ s d).2 b).2
            d.configId d.tenantId d.environment =
          .ok { configId := d.configId, environment := d.environment,
                version := b.targetVersion, data := u'.data, checksum := u'.checksum,
                updatedAt := u'.createdAt }) := by
  obtain ⟨config, u, hfind, harch, henv, hver⟩ := VersioningService.deployVersion_ok hd
  obtain ⟨_, hvers, hconfigs⟩ :=
    VersioningService.deployVersion_found w₁ s d config u hfind harch henv hver
  obtain ⟨_, hid, hten⟩ := Config.findOne_some hfind
  obtain ⟨hu, _, _, huv⟩ := ConfigVersion.findOneByVersion_some hver
  have hfind1 : Config.findOne (VersioningService.deployVersion w₁ s d).2 d.configId d.tenantId
      = some { config with
          activeVersions := config.activeVersions.set d.environment d.version,
          updatedAt := w₁.now } := by
    unfold Config.findOne at hfind ⊢
    rw [hconfigs]
    exact Config.findOne_after_save s.configs d.configId d.tenantId config
      { config with
        activeVersions := config.activeVersions.set d.environment d.version,
        updatedAt := w₁.now } hfind hid hten
  have hver1 := ConfigVersion.findOneByVersion_congr s
    (VersioningService.deployVersion w₁ s d).2 d.configId d.tenantId d.version hvers
  constructor
  · refine ⟨u, hver, ?_⟩
    exact ConfigController.getActiveVersion_found _ _ _ _ _ u d.version hfind1
      (ActiveVersions.get_set_same _ _ _) (by rw [← huv]; exact hpos u hu)
      (by rw [hver1]; exact hver)
  · intro w₂ b rr hbc hbt hbe hrb
    obtain ⟨config1, u', hf1, hv1⟩ := VersioningService.rollback_ok hrb
    obtain ⟨hok, hvers2, hconfigs2⟩ :=
      VersioningService.rollback_found w₂ _ b config1 u' hf1 hv1
    rw [hbc, hbt] at hf1 hv1
    have hget1 : config1.activeVersions.get d.environment = some d.version := by
      rw [hfind1] at hf1
      cases hf1
      exact ActiveVersions.get_set_same _ _ _
    obtain ⟨_, hid1, hten1⟩ := Config.findOne_some hf1
    rw [hok] at hrb
    cases hrb
    rw [ConfigVersion.findOneByVersion_congr s _ _ _ _ hvers] at hv1
    obtain ⟨hu', _, _, huv'⟩ := ConfigVersion.findOneByVersion_some hv1
    refine ⟨by simp only [hbe]; exact hget1, rfl, u', hv1, ?_⟩
    have hfind2 : Config.findOne (VersioningService.rollback w₂
        (VersioningService.deployVersion w₁ s d).2 b).2 d.configId d.tenantId
        = some { config1 with
            activeVersions := config1.activeVersions.set b.environment b.targetVersion,
            updatedAt := w₂.now } := by
      unfold Config.findOne at hf1 ⊢
      rw [hconfigs2]
      exact Config.findOne_after_save _ d.configId d.tenantId config1
        { config1 with
          activeVersions := config1.activeVersions.set b.environment b.targetVersion,
          updatedAt := w₂.now } hf1 hid1 hten1
    exact ConfigController.getActiveVersion_found _ _ _ _ _ u' b.targetVersion hfind2
      (by simp only [hbe]; exact ActiveVersions.get_set_same _ _ _)
      (by rw [← huv']; exact hpos u' hu')
      (by rw [ConfigVersion.findOneByVersion_congr _ _ _ _ _ hvers2,
            ConfigVersion.findOneByVersion_congr _ _ _ _ _ hvers]; exact hv1)

/-- C15: `compareVersions` fails exactly when one of the two version numbers is absent from the
ledger of the config (under that tenant).  The failure is the not-found error (HTTP 404) whose
message names the missing number: version1 when it is missing, otherwise version2.  When both
are present it returns version, branch, createdAt, createdBy and checksum of each side and
`computeDiff(v1.data, v2.data)`.  The store is never changed. -/
theorem C15_compareVersions_outcome (s : Store) (configId tenantId : String)
    (version1 version2 : Nat) :
    ((∃ e, (VersioningService.compareVersions s configId tenantId version1 version2).1 =
        .error e) ↔
      ((∀ u ∈ s.versions, ¬ (u.configId = configId ∧ u.tenantId = tenantId ∧
          u.version = version1)) ∨
        (∀ u ∈ s.versions, ¬ (u.configId = configId ∧ u.tenantId = tenantId ∧
          u.version = version2)))) ∧
    ((∀ u ∈ s.versions, ¬ (u.configId = configId ∧ u.tenantId = tenantId ∧
        u.version = version1)) →
      (VersioningService.compareVersions s configId tenantId version1 version2).1 =
        .error { message := "Version " ++ toString version1 ++ " not found",
                 status := some 404 }) ∧
    ((∃ u ∈ s.versions, u.configId = configId ∧ u.tenantId = tenantId ∧
        u.version = version1) →
      (∀ u ∈ s.versions, ¬ (u.configId = configId ∧ u.tenantId = tenantId ∧
        u.version = version2)) →
      (VersioningService.compareVersions s configId tenantId version1 version2).1 =
        .error { message := "Version " ++ toString version2 ++ " not found",
                 status := some 404 }) ∧
    (∀ n : Nat, errorKind { message := "Version " ++ toString n ++ " not found",
                            status := some 404 } = ErrorKind.NotFound) ∧
    (∀ v1 v2, ConfigVersion.findOneByVersion s configId tenantId version1 = some v1 →
      ConfigVersion.findOneByVersion s configId tenantId version2 = some v2 →
      (VersioningService.compareVersions s configId tenantId version1 version2).1 =
        .ok { version1 := { version := v1.version, branch := v1.branch,
                            createdAt := v1.createdAt, createdBy := v1.createdBy,
                            checksum := v1.checksum }
              version2 := { version := v2.version, branch := v2.branch,
                            createdAt := v2.createdAt, createdBy := v2.createdBy,
                            checksum := v2.checksum }
              diff := DiffService.computeDiff v1.data v2.data }) ∧
    (VersioningService.compareVersions s configId tenantId version1 version2).2 = s := by
  have e1 : ¬ ("Error" = "ValidationError") := by decide
  have e2 : ¬ ("Error" = "CastError") := by decide
  have e3 : ¬ ("Error" = "MongoNetworkError") := by decide
  have n1 := ConfigVersion.findOneByVersion_eq_none_iff s configId tenantId version1
  have n2 := ConfigVersion.findOneByVersion_eq_none_iff s configId tenantId version2
  have hkind : ∀ n : Nat, errorKind
      { message := "Version " ++ toString n ++ " not found",
        status := some 404 } = ErrorKind.NotFound := by
    intro n
    simp [errorKind, errorHandler, e1, e2, e3]
  unfold VersioningService.compareVersions
  cases h1 : ConfigVersion.findOneByVersion s configId tenantId version1 with
  | none =>
    have a1 := n1.mp h1
    refine ⟨?_, ?_, ?_, hkind, ?_, rfl⟩
    · simp only [Except.error.injEq, exists_eq', true_iff]
      exact Or.inl a1
    · intro _; rfl
    · rintro ⟨u, hu, h⟩ _
      exact absurd h (a1 u hu)
    · intro v1 v2 h; cases h
  | some v1 =>
    have p1 : ¬ ∀ u ∈ s.versions, ¬ (u.configId = configId ∧ u.tenantId = tenantId ∧
        u.version = version1) := by
      intro h
      rw [n1.mpr h] at h1
      cases h1
    cases h2 : ConfigVersion.findOneByVersion s configId tenantId version2 with
    | none =>
      have a2 := n2.mp h2
      refine ⟨?_, ?_, ?_, hkind, ?_, rfl⟩
      · simp only [Except.error.injEq, exists_eq', true_iff]
        exact Or.inr a2
      · intro h; exact absurd h p1
      · intro _ _; rfl
      · intro v1 v2 _ h; cases h
    | some v2 =>
      have p2 : ¬ ∀ u ∈ s.versions, ¬ (u.configId = configId ∧ u.tenantId = tenantId ∧
          u.version = version2) := by
        intro h
        rw [n2.mpr h] at h2
        cases h2
      refine ⟨?_, ?_, ?_, hkind, ?_, rfl⟩
      · simp only [reduceCtorEq, exists_false, false_iff, not_or]
        exact ⟨p1, p2⟩
      · intro h; exact absurd h p1
      · intro _ h; exact absurd h p2
      · intro a b ha hb
        cases ha; cases hb
        rfl

/-- The object returned by `compareVersions` has exactly the properties version1, version2 and
diff: `hasChanges`, `fromVersion` and `toVersion` are not among them. -/
theorem CompareResult.toDocument_top_level (r : CompareResult) :
    r.toDocument.getProp "hasChanges" = none ∧ r.toDocument.getProp "fromVersion" = none ∧
    r.toDocument.getProp "toVersion" = none := by
  simp [CompareResult.toDocument, Document.getProp, List.lookup]

theorem ledger_filter_nodup (s : Store) (configId : String) (q : ConfigVersion → Bool)
    (hq : ∀ v, q v = true → v.configId = configId)
    (huniq : (ledgerNumbers s configId).Nodup) :
    ((s.versions.filter q).map (fun v => v.version)).Nodup := by
  have hsub : List.Sublist (s.versions.filter q)
      (s.versions.filter (fun v => v.configId == configId)) := by
    have : s.versions.filter q =
        (s.versions.filter (fun v => v.configId == configId)).filter q := by
      rw [List.filter_filter]
      apply List.filter_congr
      intro v _
      by_cases hv : q v = true
      · simp [hv, hq v hv]
      · simp [hv]
    rw [this]
    exact List.filter_sublist _
  exact List.Nodup.sublist (List.Sublist.map _ hsub) huniq

/-- C17 (amended): `getVersionHistory` returns the versions of the config and tenant, restricted
to the given branch when a non-empty one is given, ordered strictly descending by version number
(the ledger holding each number once per config), with the first `skip` entries dropped and then
at most `limit` entries kept when `limit` is at least 1, all remaining entries when `limit` is 0;
the defaults are skip 0 and limit 50.  The store is not changed and the result depends on the
ledger only. -/
theorem C17_getVersionHistory_result (s : Store) (configId tenantId : String)
    (o : HistoryOptions) (huniq : (ledgerNumbers s configId).Nodup) :
    ∃ sorted : List ConfigVersion,
      sorted.Perm (s.versions.filter (fun v =>
        v.configId == configId && v.tenantId == tenantId &&
          (match o.branch with
            | none => true
            | some b => b == "" || v.branch == b))) ∧
      sorted.Pairwise (fun a b => b.version < a.version) ∧
      (VersioningService.getVersionHistory s configId tenantId o).1 =
        (if o.limit = 0 then sorted.drop o.skip else (sorted.drop o.skip).take o.limit) ∧
      (VersioningService.getVersionHistory s configId tenantId o).2 = s ∧
      (∀ s' : Store, s'.versions = s.versions →
        (VersioningService.getVersionHistory s' configId tenantId o).1 =
          (VersioningService.getVersionHistory s configId tenantId o).1) ∧
      ({} : HistoryOptions).skip = 0 ∧ ({} : HistoryOptions).limit = 50 ∧
      ({} : HistoryOptions).branch = none := by
  have hq : (fun v : ConfigVersion =>
        v.configId == configId && v.tenantId == tenantId &&
          (if jsNotStr o.branch then true else some v.branch == o.branch)) =
      (fun v : ConfigVersion =>
        v.configId == configId && v.tenantId == tenantId &&
          (match o.branch with
            | none => true
            | some b => b == "" || v.branch == b)) := by
    funext v
    cases hb : o.branch with
    | none => simp [jsNotStr]
    | some b =>
      by_cases hempty : b = ""
      · simp [jsNotStr, hempty]
      · have hbe : (b == "") = false := by simp [hempty]
        simp [jsNotStr, hempty, hbe]
  refine ⟨(s.versions.filter (fun v =>
        v.configId == configId && v.tenantId == tenantId &&
          (match o.branch with
            | none => true
            | some b => b == "" || v.branch == b))).insertionSort versionDesc,
    List.perm_insertionSort _ _, ?_, ?_, rfl, ?_, rfl, rfl, rfl⟩
  · have hsorted := List.sorted_insertionSort versionDesc (s.versions.filter (fun v =>
        v.configId == configId && v.tenantId == tenantId &&
          (match o.branch with
            | none => true
            | some b => b == "" || v.branch == b)))
    have hnodup := ledger_filter_nodup s configId (fun v =>
        v.configId == configId && v.tenantId == tenantId &&
          (match o.branch with
            | none => true
            | some b => b == "" || v.branch == b))
      (by intro v hv; simp only [Bool.and_eq_true, beq_iff_eq] at hv; exact hv.1.1) huniq
    have hnodup' := ((List.perm_insertionSort versionDesc _).map
      (fun v : ConfigVersion => v.version)).nodup_iff.mpr hnodup
    rw [List.Nodup, List.pairwise_map] at hnodup'
    have hboth := List.Pairwise.and hsorted hnodup'
    refine hboth.imp ?_
    intro a b hab
    have h1 : b.version ≤ a.version := hab.1
    have h2 := hab.2
    omega
  · simp only [VersioningService.getVersionHistory, hq, mongoLimit]
  · intro s' hs'
    simp only [VersioningService.getVersionHistory, hs']

/-- C12, witness: on an archived config, for the environment staging that the config does not
declare and in which version 1 was never active, the rollback to version 1 succeeds. -/
theorem C12_rollback_preconditions_and_effect_witness :
    Config.archivedSample.isArchived = true ∧
    Environment.staging ∉ Config.archivedSample.environments ∧
    Config.archivedSample.activeVersions.get .staging = none ∧
    ∃ r, (VersioningService.rollback World.sample Store.archivedWithOne
      { RollbackArgs.sample with environment := .staging }).1 = .ok r :=
  ⟨by decide, by decide, by decide,
   (C12_rollback_preconditions_and_effect World.sample Store.archivedWithOne
     { RollbackArgs.sample with environment := .staging }).1.mpr
     ⟨⟨Config.archivedSample, by decide⟩, ConfigVersion.sampleFirst, by decide, by decide⟩⟩

/-- C13, witness: the sample store with two versions and no active version, then five calls,
two of them failing. -/
theorem C13_active_version_invariant_witness :
    activeVersionsValid Store.withTwo "c1" = true ∧
    activeVersionsValid (runService Store.withTwo ServiceCall.sampleRun) "c1" = true :=
  ⟨by decide,
   (C13_active_version_invariant ServiceCall.sampleRun Store.withTwo "c1" (by decide)).1⟩

/-- C14, witness: version 2 is deployed to dev and read back, then dev is rolled back to
version 1, which was never active there, and read back again. -/
theorem C14_deploy_readback_rollback_witness :
    (∀ u ∈ Store.withTwo.versions, 0 < u.version) ∧
    (VersioningService.deployVersion World.sample Store.withTwo DeployArgs.sample).1 =
      .ok { success := true, configId := "c1", environment := .dev, previousVersion := none,
            deployedVersion := 2, deployedAt := 1000 } ∧
    ConfigController.getActiveVersion
        (VersioningService.deployVersion World.sample Store.withTwo DeployArgs.sample).2
        "c1" "t" .dev =
      .ok { configId := "c1", environment := .dev, version := 2,
            data := .obj [("v", .num 2)], checksum := some "digest7", updatedAt := 1000 } ∧
    (∀ rr, (VersioningService.rollback World.sample
        (VersioningService.deployVersion World.sample Store.withTwo DeployArgs.sample).2
        RollbackArgs.sample).1 = .ok rr → rr.previousVersion = some 2) :=
  ⟨by decide, by decide, by decide,
   fun rr hrr =>
     ((C14_deploy_readback_rollback World.sample Store.withTwo DeployArgs.sample
        { success := true, configId := "c1", environment := .dev, previousVersion := none,
          deployedVersion := 2, deployedAt := 1000 } (by decide) (by decide)).2
        World.sample RollbackArgs.sample rr rfl rfl rfl hrr).1⟩

/-- C16: on the ledger of the comparison test, `compareVersions(config, tenant, 1, 2)` returns
an object whose `hasChanges`, `fromVersion` and `toVersion` are undefined at the top level; the
flag is found under `diff`, the version numbers under `version1` and `version2`. -/
theorem C16_compareVersions_top_level_shape :
    (VersioningService.compareVersions Store.compareSample "c1" "t" 1 2).1.toOption.map
      (fun r => (r.toDocument.getProp "hasChanges", r.toDocument.getProp "fromVersion",
        r.toDocument.getProp "toVersion")) = some (none, none, none) ∧
    (VersioningService.compareVersions Store.compareSample "c1" "t" 1 2).1.toOption.map
      (fun r => (r.diff.hasChanges, r.version1.version, r.version2.version)) =
        some (true, 1, 2) := by
  decide

/-- C17 (as stated, refuted): with `limit` 0 the query returns both versions of the sample
config, more than `limit` entries; with the empty string as branch it returns all four versions
of the sample run, none of which is on a branch of that name. -/
theorem C17_limit_zero_and_empty_branch :
    ((VersioningService.getVersionHistory Store.withTwo "c1" "t" { limit := 0 }).1.map
      (fun v => v.version) = [2, 1]) ∧
    ((VersioningService.getVersionHistory Store.afterSampleRun "c1" "t"
      { branch := some "" }).1.map (fun v => (v.version, v.branch)) =
        [(4, "main"), (3, "experiment"), (2, "experiment"), (1, "main")]) := by
  decide

/-- C17, witness: the history of branch main of the sample run, one entry per page, second
page. -/
theorem C17_getVersionHistory_result_witness :
    (ledgerNumbers Store.afterSampleRun "c1").Nodup ∧
    (VersioningService.getVersionHistory Store.afterSampleRun "c1" "t"
      { branch := some "main", limit := 1, skip := 1 }).1.map (fun v => v.version) = [1] ∧
    ∃ sorted : List ConfigVersion,
      sorted.Pairwise (fun a b => b.version < a.version) ∧
      (VersioningService.getVersionHistory Store.afterSampleRun "c1" "t"
        { branch := some "main", limit := 1, skip := 1 }).1 = (sorted.drop 1).take 1 :=
  ⟨by decide, by decide,
   (C17_getVersionHistory_result Store.afterSampleRun "c1" "t"
      { branch := some "main", limit := 1, skip := 1 } (by decide)).elim
     (fun sorted h => ⟨sorted, h.2.1, h.2.2.1⟩)⟩

theorem deepDiff.walk_arr (xs ys : List Document) (p : List PathSeg) :
    deepDiff.walk (.arr xs) (.arr ys) p = deepDiff.walkArray xs ys p 0 := by
  rw [deepDiff.walk]

theorem deepDiff.walk_obj (fs gs : List (String × Document)) (p : List PathSeg) :
    deepDiff.walk (.obj fs) (.obj gs) p =
      deepDiff.walkKeys fs gs p ++
        (gs.filter (fun q => !(fs.map Prod.fst).contains q.1 && q.1 != "")).map
          (fun q => Diff.N (p ++ [PathSeg.key q.1]) q.2) := by
  rw [deepDiff.walk]

/-- Outside the array and object branches the walk reports one edit unless the two values are
equal. -/
theorem deepDiff.walk_leaf (a b : Document) (p : List PathSeg)
    (ha : ∀ xs ys, ¬ (a = .arr xs ∧ b = .arr ys))
    (ho : ∀ fs gs, ¬ (a = .obj fs ∧ b = .obj gs)) :
    deepDiff.walk a b p = if a = b then [] else [Diff.E p a b] := by
  cases a <;> cases b <;>
    first
    | exact absurd ⟨rfl, rfl⟩ (ha _ _)
    | exact absurd ⟨rfl, rfl⟩ (ho _ _)
    | rfl
    | (simp [deepDiff.walk, realTypeOf])

theorem arraySurplus_eq_nil (p : List PathSeg) (mk : Document → ArrayItem) (i : Nat)
    (xs : List Document) : arraySurplus p mk i xs = [] ↔ xs = [] := by
  cases xs <;> simp [arraySurplus]

theorem deepDiff.walkArray_nil_left (ys : List Document) (p : List PathSeg) (i : Nat) :
    deepDiff.walkArray [] ys p i = arraySurplus p ArrayItem.N i ys := by
  rw [deepDiff.walkArray]

theorem deepDiff.walkArray_nil_right (x : Document) (xs : List Document) (p : List PathSeg)
    (i : Nat) :
    deepDiff.walkArray (x :: xs) [] p i = arraySurplus p ArrayItem.D i (x :: xs) := by
  rw [deepDiff.walkArray]

theorem deepDiff.walkArray_cons (x y : Document) (xs ys : List Document) (p : List PathSeg)
    (i : Nat) :
    deepDiff.walkArray (x :: xs) (y :: ys) p i =
      deepDiff.walkArray xs ys p (i + 1) ++ deepDiff.walk x y (p ++ [PathSeg.idx i]) := by
  rw [deepDiff.walkArray]

theorem deepDiff.walkKeys_nil (gs : List (String × Document)) (p : List PathSeg) :
    deepDiff.walkKeys [] gs p = [] := by
  rw [deepDiff.walkKeys]

theorem deepDiff.walkKeys_cons (k : String) (v : Document) (rest gs : List (String × Document))
    (p : List PathSeg) :
    deepDiff.walkKeys ((k, v) :: rest) gs p =
      (match gs.lookup k with
        | some w => deepDiff.walk v w (p ++ [PathSeg.key k])
        | none => [Diff.D (p ++ [PathSeg.key k]) v]) ++
      deepDiff.walkKeys rest gs p := by
  rw [deepDiff.walkKeys]

theorem Document.structurallyEqual_leaf (a b : Document)
    (ha : ∀ xs ys, ¬ (a = .arr xs ∧ b = .arr ys))
    (ho : ∀ fs gs, ¬ (a = .obj fs ∧ b = .obj gs)) :
    (a.structurallyEqual b = true ↔ a = b) := by
  cases a <;> cases b <;>
    first
    | exact absurd ⟨rfl, rfl⟩ (ha _ _)
    | exact absurd ⟨rfl, rfl⟩ (ho _ _)
    | (simp [Document.structurallyEqual])

theorem Document.keysNonEmptyFields_mem (gs : List (String × Document))
    (h : Document.keysNonEmptyFields gs = true) :
    ∀ q ∈ gs, q.1 ≠ "" ∧ q.2.keysNonEmpty = true := by
  induction gs with
  | nil => intro q hq; simp at hq
  | cons g gs ih =>
    obtain ⟨k, v⟩ := g
    simp only [Document.keysNonEmptyFields, Bool.and_eq_true, bne_iff_ne, ne_eq] at h
    intro q hq
    simp only [List.mem_cons] at hq
    rcases hq with hq | hq
    · subst hq; exact ⟨h.1.1, h.1.2⟩
    · exact ih h.2 q hq

theorem lookup_mem {α β : Type} [BEq α] [LawfulBEq α] (k : α) (w : β) (gs : List (α × β))
    (h : gs.lookup k = some w) : (k, w) ∈ gs := by
  induction gs with
  | nil => simp at h
  | cons g gs ih =>
    obtain ⟨k', v⟩ := g
    by_cases hk : k = k'
    · subst hk
      simp only [List.lookup_cons, beq_self_eq_true] at h
      cases h
      simp
    · have hne : (k == k') = false := by simpa using hk
      simp only [List.lookup_cons, hne] at h
      exact List.mem_cons_of_mem _ (ih h)

theorem added_filter_eq_nil (fs gs : List (String × Document))
    (hg : ∀ q ∈ gs, q.1 ≠ "") :
    (gs.filter (fun q => !(fs.map Prod.fst).contains q.1 && q.1 != "")) = [] ↔
      gs.all (fun q => (fs.map Prod.fst).contains q.1) = true := by
  rw [List.filter_eq_nil_iff, List.all_eq_true]
  constructor
  · intro h q hq
    have h1 := h q hq
    have h2 := hg q hq
    simp only [Bool.and_eq_true, Bool.not_eq_true', bne_iff_ne, ne_eq, not_and,
      Decidable.not_not] at h1
    by_contra hc
    exact h2 (h1 (by simpa using hc))
  · intro h q hq
    have h1 := h q hq
    simp only [h1, Bool.not_true, Bool.false_and, Bool.false_eq_true, not_false_eq_true]

mutual
theorem deepDiff.walk_eq_nil_iff : ∀ (a b : Document) (p : List PathSeg),
    b.keysNonEmpty = true → (deepDiff.walk a b p = [] ↔ a.structurallyEqual b = true)
  | .arr xs, .arr ys, p, hb => by
      rw [deepDiff.walk_arr]
      simp only [Document.structurallyEqual]
      exact deepDiff.walkArray_eq_nil_iff xs ys p 0
        (by simpa [Document.keysNonEmpty] using hb)
  | .obj fs, .obj gs, p, hb => by
      have hg : Document.keysNonEmptyFields gs = true := by
        simpa [Document.keysNonEmpty] using hb
      rw [deepDiff.walk_obj]
      simp only [Document.structurallyEqual, List.append_eq_nil, List.map_eq_nil_iff,
        Bool.and_eq_true]
      rw [deepDiff.walkKeys_eq_nil_iff fs gs p hg,
        added_filter_eq_nil fs gs (fun q hq => (Document.keysNonEmptyFields_mem gs hg q hq).1)]
  | .null, .null, p, _ | .null, .bool _, p, _ | .null, .num _, p, _ | .null, .str _, p, _
  | .null, .arr _, p, _ | .null, .obj _, p, _
  | .bool _, .null, p, _ | .bool _, .bool _, p, _ | .bool _, .num _, p, _
  | .bool _, .str _, p, _ | .bool _, .arr _, p, _ | .bool _, .obj _, p, _
  | .num _, .null, p, _ | .num _, .bool _, p, _ | .num _, .num _, p, _
  | .num _, .str _, p, _ | .num _, .arr _, p, _ | .num _, .obj _, p, _
  | .str _, .null, p, _ | .str _, .bool _, p, _ | .str _, .num _, p, _
  | .str _, .str _, p, _ | .str _, .arr _, p, _ | .str _, .obj _, p, _
  | .arr _, .null, p, _ | .arr _, .bool _, p, _ | .arr _, .num _, p, _
  | .arr _, .str _, p, _ | .arr _, .obj _, p, _
  | .obj _, .null, p, _ | .obj _, .bool _, p, _ | .obj _, .num _, p, _
  | .obj _, .str _, p, _ | .obj _, .arr _, p, _ => by
      rw [deepDiff.walk_leaf _ _ _ (by simp) (by simp),
        Document.structurallyEqual_leaf _ _ (by simp) (by simp)]
      split <;> simp_all
theorem deepDiff.walkArray_eq_nil_iff : ∀ (xs ys : List Document) (p : List PathSeg) (i : Nat),
    Document.keysNonEmptyList ys = true →
    (deepDiff.walkArray xs ys p i = [] ↔ Document.structurallyEqualList xs ys = true)
  | [], ys, p, i, _ => by
      rw [deepDiff.walkArray_nil_left, arraySurplus_eq_nil]
      cases ys <;> simp [Document.structurallyEqualList]
  | x :: xs, [], p, i, _ => by
      rw [deepDiff.walkArray_nil_right, arraySurplus_eq_nil]
      simp [Document.structurallyEqualList]
  | x :: xs, y :: ys, p, i, hb => by
      simp only [Document.keysNonEmptyList, Bool.and_eq_true] at hb
      rw [deepDiff.walkArray_cons]
      simp only [Document.structurallyEqualList, List.append_eq_nil, Bool.and_eq_true]
      rw [deepDiff.walk_eq_nil_iff x y _ hb.1, deepDiff.walkArray_eq_nil_iff xs ys p _ hb.2]
      exact and_comm
theorem deepDiff.walkKeys_eq_nil_iff : ∀ (fs gs : List (String × Document))
    (p : List PathSeg), Document.keysNonEmptyFields gs = true →
    (deepDiff.walkKeys fs gs p = [] ↔ Document.structurallyEqualFields fs gs = true)
  | [], gs, p, _ => by
      rw [deepDiff.walkKeys_nil]
      simp [Document.structurallyEqualFields]
  | (k, v) :: rest, gs, p, hg => by
      rw [deepDiff.walkKeys_cons]
      simp only [Document.structurallyEqualFields, List.append_eq_nil, Bool.and_eq_true]
      rw [deepDiff.walkKeys_eq_nil_iff rest gs p hg]
      cases hl : gs.lookup k with
      | none => simp
      | some w =>
        have hw := (Document.keysNonEmptyFields_mem gs hg (k, w) (lookup_mem k w gs hl)).2
        simp only
        rw [deepDiff.walk_eq_nil_iff v w _ hw]
end

theorem Document.keysDistinctFields_lookup (fs : List (String × Document))
    (h : Document.keysDistinctFields fs = true) :
    ∀ q ∈ fs, fs.lookup q.1 = some q.2 ∧ q.2.keysDistinct = true := by
  induction fs with
  | nil => intro q hq; simp at hq
  | cons f fs ih =>
    obtain ⟨k, v⟩ := f
    simp only [Document.keysDistinctFields, Bool.and_eq_true, Bool.not_eq_true'] at h
    intro q hq
    simp only [List.mem_cons] at hq
    rcases hq with hq | hq
    · subst hq
      exact ⟨by simp [List.lookup_cons], h.1.2⟩
    · have hne : (q.1 == k) = false := by
        rw [beq_eq_false_iff_ne]
        intro hqk
        have hmem : k ∈ fs.map Prod.fst := by
          rw [← hqk]
          exact List.mem_map.mpr ⟨q, hq, rfl⟩
        have hc : (fs.map Prod.fst).contains k = true := by simpa using hmem
        rw [h.1.1] at hc
        cases hc
      refine ⟨?_, (ih h.2 q hq).2⟩
      rw [List.lookup_cons, hne]
      exact (ih h.2 q hq).1

mutual
theorem deepDiff.walk_self : ∀ (x : Document) (p : List PathSeg),
    x.keysDistinct = true → deepDiff.walk x x p = []
  | .arr xs, p, h => by
      rw [deepDiff.walk_arr]
      exact deepDiff.walkArray_self xs p 0 (by simpa [Document.keysDistinct] using h)
  | .obj fs, p, h => by
      have hf : Document.keysDistinctFields fs = true := by
        simpa [Document.keysDistinct] using h
      rw [deepDiff.walk_obj]
      have h1 := deepDiff.walkKeys_sub fs fs p
        (fun q hq => (Document.keysDistinctFields_lookup fs hf q hq).1)
        (fun q hq => (Document.keysDistinctFields_lookup fs hf q hq).2)
      have h2 : (fs.filter (fun q => !(fs.map Prod.fst).contains q.1 && q.1 != "")) = [] := by
        rw [List.filter_eq_nil_iff]
        intro q hq
        have hmem : q.1 ∈ fs.map Prod.fst := List.mem_map.mpr ⟨q, hq, rfl⟩
        have hc : (fs.map Prod.fst).contains q.1 = true := by simpa using hmem
        simp only [hc, Bool.not_true, Bool.false_and, Bool.false_eq_true, not_false_eq_true]
      rw [h1, h2]
      rfl
  | .null, p, _ | .bool _, p, _ | .num _, p, _ | .str _, p, _ => by
      rw [deepDiff.walk_leaf _ _ _ (by simp) (by simp)]
      simp
theorem deepDiff.walkArray_self : ∀ (xs : List Document) (p : List PathSeg) (i : Nat),
    Document.keysDistinctList xs = true → deepDiff.walkArray xs xs p i = []
  | [], p, i, _ => by
      rw [deepDiff.walkArray_nil_left]
      rfl
  | x :: xs, p, i, h => by
      simp only [Document.keysDistinctList, Bool.and_eq_true] at h
      rw [deepDiff.walkArray_cons, deepDiff.walk_self x _ h.1,
        deepDiff.walkArray_self xs p _ h.2]
      rfl
theorem deepDiff.walkKeys_sub : ∀ (fs gs : List (String × Document)) (p : List PathSeg),
    (∀ q ∈ fs, gs.lookup q.1 = some q.2) → (∀ q ∈ fs, q.2.keysDistinct = true) →
    deepDiff.walkKeys fs gs p = []
  | [], gs, p, _, _ => deepDiff.walkKeys_nil gs p
  | (k, v) :: rest, gs, p, hl, hd => by
      rw [deepDiff.walkKeys_cons, hl (k, v) (by simp)]
      simp only
      rw [deepDiff.walk_self v _ (hd (k, v) (by simp)),
        deepDiff.walkKeys_sub rest gs p (fun q hq => hl q (by simp [hq]))
          (fun q hq => hd q (by simp [hq]))]
      rfl
end

theorem DiffService.computeDiff_hasChanges (a b : Document) :
    (DiffService.computeDiff a b).hasChanges = false ↔ deepDiff.walk a b [] = [] := by
  unfold DiffService.computeDiff deepDiff.diff
  by_cases h : deepDiff.walk a b [] = []
  · simp [h]
  · have : (deepDiff.walk a b []).isEmpty = false := by
      cases hw : deepDiff.walk a b [] with
      | nil => exact absurd hw h
      | cons _ _ => rfl
    simp [h, this]

/-- C18: a key that is the empty string, present only in the second map, goes undetected: the
map `{ "": 1 }` differs from the empty map, yet `computeDiff` reports no change.  The same key
is reported when it is deleted or when its value is modified, and any other added key is
reported. -/
theorem C18_added_empty_key_undetected :
    (DiffService.computeDiff (.obj []) (.obj [("", .num 1)])).hasChanges = false ∧
    Document.structurallyEqual (.obj []) (.obj [("", .num 1)]) = false ∧
    (DiffService.computeDiff (.obj [("", .num 1)]) (.obj [])).hasChanges = true ∧
    (DiffService.computeDiff (.obj [("", .num 1)]) (.obj [("", .num 2)])).hasChanges = true ∧
    (DiffService.computeDiff (.obj []) (.obj [("a", .num 1)])).hasChanges = true := by
  decide

/-- Apart from an added empty key: for all documents a and b such that no map of b has the
empty string as a key, `computeDiff(a, b).hasChanges` is false if and only if a and b are
structurally equal, maps compared regardless of key order; and for every document x,
`computeDiff(x, x)` returns hasChanges = false, an empty changes list and the summary
'No changes detected'. -/
theorem DiffService.computeDiff_detects_differences :
    (∀ a b : Document, b.keysNonEmpty = true →
      ((DiffService.computeDiff a b).hasChanges = false ↔ a.structurallyEqual b = true)) ∧
    (∀ x : Document, x.keysDistinct = true →
      DiffService.computeDiff x x =
        { hasChanges := false, changes := [], summary := "No changes detected" }) := by
  constructor
  · intro a b hb
    rw [DiffService.computeDiff_hasChanges]
    exact deepDiff.walk_eq_nil_iff a b [] hb
  · intro x hx
    have h := deepDiff.walk_self x [] hx
    unfold DiffService.computeDiff deepDiff.diff
    simp [h]

/-- Two maps with the same properties in a different key order, and a map compared with
itself. -/
theorem DiffService.computeDiff_detects_differences_sample :
    Document.keysNonEmpty (.obj [("b", .arr [.num 2]), ("a", .num 1)]) = true ∧
    Document.structurallyEqual (.obj [("a", .num 1), ("b", .arr [.num 2])])
      (.obj [("b", .arr [.num 2]), ("a", .num 1)]) = true ∧
    (DiffService.computeDiff (.obj [("a", .num 1), ("b", .arr [.num 2])])
      (.obj [("b", .arr [.num 2]), ("a", .num 1)])).hasChanges = false ∧
    DiffService.computeDiff (.obj [("a", .num 1), ("b", .num 2)])
        (.obj [("a", .num 1), ("b", .num 2)]) =
      { hasChanges := false, changes := [], summary := "No changes detected" } :=
  ⟨by decide, by decide,
   ((DiffService.computeDiff_detects_differences.1 (.obj [("a", .num 1), ("b", .arr [.num 2])])
      (.obj [("b", .arr [.num 2]), ("a", .num 1)]) (by decide)).mpr (by decide)),
   DiffService.computeDiff_detects_differences.2 (.obj [("a", .num 1), ("b", .num 2)])
     (by decide)⟩

theorem DiffService.computeDiff_changes (a b : Document) :
    (DiffService.computeDiff a b).changes = (deepDiff.walk a b []).map DiffService.toChange := by
  unfold DiffService.computeDiff deepDiff.diff
  cases hw : deepDiff.walk a b [] with
  | nil => rfl
  | cons d ds => rfl

theorem DiffService.toChange_D (k : String) (v : Document) :
    DiffService.toChange (Diff.D [PathSeg.key k] v) =
      { type := "deleted", path := k, oldValue := some v, newValue := none } := rfl

theorem DiffService.toChange_E (k : String) (v w : Document) :
    DiffService.toChange (Diff.E [PathSeg.key k] v w) =
      { type := "modified", path := k, oldValue := some v, newValue := some w } := rfl

theorem DiffService.toChange_N (k : String) (w : Document) :
    DiffService.toChange (Diff.N [PathSeg.key k] w) =
      { type := "added", path := k, oldValue := none, newValue := some w } := rfl

theorem deepDiff.walk_scalar (v w : Document) (p : List PathSeg) (hv : v.isScalar = true) :
    deepDiff.walk v w p = if v = w then [] else [Diff.E p v w] := by
  apply deepDiff.walk_leaf
  · rintro xs ys ⟨h, _⟩; subst h; simp [Document.isScalar] at hv
  · rintro fs gs ⟨h, _⟩; subst h; simp [Document.isScalar] at hv

theorem walkKeys_flat (old new : List (String × Document))
    (hold : ∀ q ∈ old, q.2.isScalar = true) :
    (deepDiff.walkKeys old new []).map DiffService.toChange =
      old.filterMap (fun p =>
        match new.lookup p.1 with
        | none =>
            some { type := "deleted", path := p.1, oldValue := some p.2, newValue := none }
        | some w =>
            if p.2 = w then none
            else some { type := "modified", path := p.1, oldValue := some p.2,
                        newValue := some w }) := by
  induction old with
  | nil => simp [deepDiff.walkKeys_nil]
  | cons q rest ih =>
    obtain ⟨k, v⟩ := q
    have hv : v.isScalar = true := hold (k, v) (by simp)
    rw [deepDiff.walkKeys_cons, List.map_append, ih (fun q hq => hold q (by simp [hq])),
      List.filterMap_cons]
    cases hl : new.lookup k with
    | none =>
      simp only [List.map_cons, List.map_nil, DiffService.toChange_D]
      rfl
    | some w =>
      simp only
      rw [deepDiff.walk_scalar v w _ hv]
      by_cases hvw : v = w
      · simp [hvw]
      · simp only [hvw, if_false, List.nil_append, List.map_cons, List.map_nil,
          DiffService.toChange_E]
        rfl

/-- C19 (as stated, refuted): for two equal flat maps the result carries no `added`, `modified`
or `deleted` field at all, although the number of changes of each type is 0; and an added
property whose key is the empty string is not reported. -/
theorem C19_counts_absent_and_empty_key_missed :
    (DiffService.computeDiff (.obj [("a", .num 1)]) (.obj [("a", .num 1)])).added = none ∧
    (DiffService.computeDiff (.obj [("a", .num 1)]) (.obj [("a", .num 1)])).added ≠
      some (DiffService.countType
        (DiffService.computeDiff (.obj [("a", .num 1)]) (.obj [("a", .num 1)])).changes
        "added") ∧
    (DiffService.computeDiff (.obj [("a", .num 1)])
      (.obj [("a", .num 1), ("", .num 2)])).changes = [] := by
  decide

/-- C19 (amended): classification on flat maps.  For all maps old and new, the values of old
being scalars and the empty string not being a key of new only, the changes of `computeDiff(old, new)`
are exactly the expected ones: one `deleted` change with oldValue = old[k] per key only in old,
one `modified` change with oldValue = old[k] and newValue = new[k] per key in both with
different values, one `added` change with newValue = new[k] per key only in new, none for any
other key, each with the key as path.  When there is at least one change the fields added,
modified and deleted hold the numbers of changes of each type; when there is none the three
fields are absent. -/
theorem C19_flat_map_classification (old new : List (String × Document))
    (hold : ∀ q ∈ old, q.2.isScalar = true)
    (hkey : ∀ q ∈ new, q.1 = "" → (old.map Prod.fst).contains "" = true) :
    (DiffService.computeDiff (.obj old) (.obj new)).changes = expectedFlatChanges old new ∧
    ((DiffService.computeDiff (.obj old) (.obj new)).hasChanges = true →
      (DiffService.computeDiff (.obj old) (.obj new)).added =
        some (DiffService.countType (expectedFlatChanges old new) "added") ∧
      (DiffService.computeDiff (.obj old) (.obj new)).modified =
        some (DiffService.countType (expectedFlatChanges old new) "modified") ∧
      (DiffService.computeDiff (.obj old) (.obj new)).deleted =
        some (DiffService.countType (expectedFlatChanges old new) "deleted")) ∧
    ((DiffService.computeDiff (.obj old) (.obj new)).hasChanges = false →
      expectedFlatChanges old new = [] ∧
      (DiffService.computeDiff (.obj old) (.obj new)).added = none ∧
      (DiffService.computeDiff (.obj old) (.obj new)).modified = none ∧
      (DiffService.computeDiff (.obj old) (.obj new)).deleted = none) := by
  have hfilter : new.filter (fun q => !(old.map Prod.fst).contains q.1 && q.1 != "") =
      new.filter (fun q => !(old.map Prod.fst).contains q.1) := by
    apply List.filter_congr
    intro q hq
    by_cases he : q.1 = ""
    · have := hkey q hq he
      rw [he, this]
      rfl
    · have : (q.1 != "") = true := by simpa using he
      rw [this, Bool.and_true]
  have hchanges : (DiffService.computeDiff (.obj old) (.obj new)).changes =
      expectedFlatChanges old new := by
    rw [DiffService.computeDiff_changes, deepDiff.walk_obj, List.map_append,
      walkKeys_flat old new hold, hfilter, List.map_map]
    unfold expectedFlatChanges
    congr 1
  refine ⟨hchanges, ?_, ?_⟩
  · intro hh
    rw [← hchanges]
    unfold DiffService.computeDiff at hh ⊢
    cases hd : deepDiff.diff (.obj old) (.obj new) with
    | none => rw [hd] at hh; simp at hh
    | some ds => exact ⟨rfl, rfl, rfl⟩
  · intro hh
    rw [← hchanges]
    unfold DiffService.computeDiff at hh ⊢
    cases hd : deepDiff.diff (.obj old) (.obj new) with
    | none => exact ⟨rfl, rfl, rfl, rfl⟩
    | some ds => rw [hd] at hh; simp at hh

/-- C19, witness: the three flat maps of the test suite in one comparison. -/
theorem C19_flat_map_classification_witness :
    (∀ q ∈ [("a", Document.num 1), ("b", .num 2), ("c", .num 3)], q.2.isScalar = true) ∧
    (∀ q ∈ [("a", Document.num 2), ("b", .num 2), ("d", .num 4)],
      q.1 = "" → ([("a", Document.num 1), ("b", .num 2), ("c", .num 3)].map
        Prod.fst).contains "" = true) ∧
    (DiffService.computeDiff (.obj [("a", .num 1), ("b", .num 2), ("c", .num 3)])
      (.obj [("a", .num 2), ("b", .num 2), ("d", .num 4)])).changes =
        [ { type := "modified", path := "a", oldValue := some (.num 1),
            newValue := some (.num 2) },
          { type := "deleted", path := "c", oldValue := some (.num 3), newValue := none },
          { type := "added", path := "d", oldValue := none, newValue := some (.num 4) } ] :=
  ⟨by decide, by decide,
   (C19_flat_map_classification [("a", .num 1), ("b", .num 2), ("c", .num 3)]
      [("a", .num 2), ("b", .num 2), ("d", .num 4)] (by decide) (by decide)).1⟩

theorem DiffService.toChange_type_mem (d : Diff) :
    (DiffService.toChange d).type ∈ ["added", "deleted", "modified", "array_modified"] := by
  cases d <;> simp [DiffService.toChange, DiffService.getChangeType, Diff.kind]

theorem DiffService.toChange_A (k : String) (i : Nat) (item : ArrayItem) :
    DiffService.toChange (Diff.A [PathSeg.key k] i item) =
      { type := "array_modified", path := k, oldValue := none, newValue := none } := rfl

theorem DiffService.toChange_E_index (k : String) (i : Nat) (v w : Document) :
    DiffService.toChange (Diff.E [PathSeg.key k, PathSeg.idx i] v w) =
      { type := "modified", path := k ++ "." ++ toString i, oldValue := some v,
        newValue := some w } := rfl

theorem arraySurplus_map_toChange (k : String) (mk : Document → ArrayItem) (i : Nat)
    (extra : List Document) :
    (arraySurplus [PathSeg.key k] mk i extra).map DiffService.toChange =
      List.replicate extra.length
        { type := "array_modified", path := k, oldValue := none, newValue := none } := by
  induction extra generalizing i with
  | nil => rfl
  | cons x rest ih =>
    simp only [arraySurplus, List.map_append, ih, List.map_cons, List.map_nil,
      DiffService.toChange_A, List.length_cons]
    rw [List.replicate_succ']

theorem deepDiff.walkArray_append_right (xs extra : List Document) (p : List PathSeg) (i : Nat)
    (hxs : Document.keysDistinctList xs = true) :
    deepDiff.walkArray xs (xs ++ extra) p i =
      arraySurplus p ArrayItem.N (i + xs.length) extra := by
  induction xs generalizing i with
  | nil => simp [deepDiff.walkArray_nil_left]
  | cons x xs ih =>
    simp only [Document.keysDistinctList, Bool.and_eq_true] at hxs
    rw [List.cons_append, deepDiff.walkArray_cons, deepDiff.walk_self x _ hxs.1,
      ih (i + 1) hxs.2, List.append_nil, List.length_cons]
    congr 1
    omega

theorem deepDiff.walkArray_append_left (xs extra : List Document) (p : List PathSeg) (i : Nat)
    (hxs : Document.keysDistinctList xs = true) :
    deepDiff.walkArray (xs ++ extra) xs p i =
      arraySurplus p ArrayItem.D (i + xs.length) extra := by
  induction xs generalizing i with
  | nil =>
    cases extra with
    | nil => simp [deepDiff.walkArray_nil_left, arraySurplus]
    | cons e es => simp [deepDiff.walkArray_nil_right]
  | cons x xs ih =>
    simp only [Document.keysDistinctList, Bool.and_eq_true] at hxs
    rw [List.cons_append, deepDiff.walkArray_cons, deepDiff.walk_self x _ hxs.1,
      ih (i + 1) hxs.2, List.append_nil, List.length_cons]
    congr 1
    omega

theorem deepDiff.walkArray_in_place (pre post : List Document) (x y : Document)
    (p : List PathSeg) (i : Nat) (hpre : Document.keysDistinctList pre = true)
    (hpost : Document.keysDistinctList post = true) :
    deepDiff.walkArray (pre ++ x :: post) (pre ++ y :: post) p i =
      deepDiff.walk x y (p ++ [PathSeg.idx (i + pre.length)]) := by
  induction pre generalizing i with
  | nil =>
    rw [List.nil_append, List.nil_append, deepDiff.walkArray_cons,
      deepDiff.walkArray_self post p _ hpost]
    simp
  | cons z pre ih =>
    simp only [Document.keysDistinctList, Bool.and_eq_true] at hpre
    rw [List.cons_append, List.cons_append, deepDiff.walkArray_cons,
      deepDiff.walk_self z _ hpre.1, ih (i + 1) hpre.2, List.append_nil, List.length_cons]
    have hidx : i + 1 + pre.length = i + (pre.length + 1) := by omega
    rw [hidx]

/-- The changes between two single-property maps whose property holds a sequence on both
sides. -/
theorem computeDiff_changes_single_array (k : String) (xs ys : List Document) :
    (DiffService.computeDiff (.obj [(k, .arr xs)]) (.obj [(k, .arr ys)])).changes =
      (deepDiff.walkArray xs ys [PathSeg.key k] 0).map DiffService.toChange := by
  rw [DiffService.computeDiff_changes, deepDiff.walk_obj, deepDiff.walkKeys_cons,
    deepDiff.walkKeys_nil]
  simp [deepDiff.walk_arr]

/-- C20 (as stated, refuted): an element of a sequence changed in place is reported with type
'modified' and the index in its path, not with type 'array_modified'. -/
theorem C20_element_changed_in_place_is_modified :
    (DiffService.computeDiff (.obj [("a", .arr [.num 1, .num 2])])
      (.obj [("a", .arr [.num 1, .num 3])])).changes =
        [ { type := "modified", path := "a.1", oldValue := some (.num 2),
            newValue := some (.num 3) } ] := by
  decide

/-- C20 (amended): every change reported by `computeDiff` has exactly one of the four types
added, deleted, modified, array_modified.  For a sequence held under a key k, each element
appended at the end and each element removed from the end is reported as one 'array_modified'
change with path k.  An element changed in place at index i is reported by the differences
between the old and the new element, located at path k.i; in particular a scalar element
replaced by a different value is reported as one 'modified' change with path k.i carrying the
old and the new element. -/
theorem C20_change_classification :
    (∀ (a b : Document), ∀ c ∈ (DiffService.computeDiff a b).changes,
      c.type ∈ ["added", "deleted", "modified", "array_modified"]) ∧
    (∀ (k : String) (xs extra : List Document), Document.keysDistinctList xs = true →
      (DiffService.computeDiff (.obj [(k, .arr xs)]) (.obj [(k, .arr (xs ++ extra))])).changes =
        List.replicate extra.length
          { type := "array_modified", path := k, oldValue := none, newValue := none }) ∧
    (∀ (k : String) (xs extra : List Document), Document.keysDistinctList xs = true →
      (DiffService.computeDiff (.obj [(k, .arr (xs ++ extra))]) (.obj [(k, .arr xs)])).changes =
        List.replicate extra.length
          { type := "array_modified", path := k, oldValue := none, newValue := none }) ∧
    (∀ (k : String) (pre post : List Document) (x y : Document),
      Document.keysDistinctList pre = true → Document.keysDistinctList post = true →
      (DiffService.computeDiff (.obj [(k, .arr (pre ++ x :: post))])
        (.obj [(k, .arr (pre ++ y :: post))])).changes =
        (deepDiff.walk x y [PathSeg.key k, PathSeg.idx pre.length]).map DiffService.toChange) ∧
    (∀ (k : String) (pre post : List Document) (x y : Document),
      Document.keysDistinctList pre = true → Document.keysDistinctList post = true →
      x.isScalar = true → x ≠ y →
      (DiffService.computeDiff (.obj [(k, .arr (pre ++ x :: post))])
        (.obj [(k, .arr (pre ++ y :: post))])).changes =
        [ { type := "modified", path := k ++ "." ++ toString pre.length, oldValue := some x,
            newValue := some y } ]) := by
  refine ⟨?_, ?_, ?_, ?_, ?_⟩
  · intro a b c hc
    rw [DiffService.computeDiff_changes, List.mem_map] at hc
    obtain ⟨d, _, rfl⟩ := hc
    exact DiffService.toChange_type_mem d
  · intro k xs extra hxs
    rw [computeDiff_changes_single_array, deepDiff.walkArray_append_right xs extra _ 0 hxs,
      arraySurplus_map_toChange]
  · intro k xs extra hxs
    rw [computeDiff_changes_single_array, deepDiff.walkArray_append_left xs extra _ 0 hxs,
      arraySurplus_map_toChange]
  · intro k pre post x y hpre hpost
    rw [computeDiff_changes_single_array, deepDiff.walkArray_in_place pre post x y _ 0 hpre hpost]
    simp only [List.cons_append, List.nil_append, Nat.zero_add]
  · intro k pre post x y hpre hpost hx hxy
    rw [computeDiff_changes_single_array, deepDiff.walkArray_in_place pre post x y _ 0 hpre hpost,
      deepDiff.walk_scalar x y _ hx, if_neg hxy]
    simp only [List.cons_append, List.nil_append, Nat.zero_add, List.map_cons, List.map_nil,
      DiffService.toChange_E_index]

/-- C20, witness: one element appended, one removed, one scalar element changed in place, and
one map element that gains a key. -/
theorem C20_change_classification_witness :
    (DiffService.computeDiff (.obj [("a", .arr [.num 1])])
      (.obj [("a", .arr ([.num 1] ++ [.num 2]))])).changes =
        List.replicate 1
          { type := "array_modified", path := "a", oldValue := none, newValue := none } ∧
    (DiffService.computeDiff (.obj [("a", .arr ([.num 1] ++ [.num 2]))])
      (.obj [("a", .arr [.num 1])])).changes =
        List.replicate 1
          { type := "array_modified", path := "a", oldValue := none, newValue := none } ∧
    (DiffService.computeDiff (.obj [("a", .arr ([.num 1] ++ .num 2 :: []))])
      (.obj [("a", .arr ([.num 1] ++ .num 3 :: []))])).changes =
        [ { type := "modified", path := "a" ++ "." ++ toString 1, oldValue := some (.num 2),
            newValue := some (.num 3) } ] ∧
    (DiffService.computeDiff (.obj [("a", .arr ([] ++ .obj [("b", .num 1)] :: []))])
      (.obj [("a", .arr ([] ++ .obj [("b", .num 1), ("c", .num 2)] :: []))])).changes =
        [ { type := "added", path := "a.0.c", oldValue := none, newValue := some (.num 2) } ] :=
  ⟨C20_change_classification.2.1 "a" [.num 1] [.num 2] (by decide),
   C20_change_classification.2.2.1 "a" [.num 1] [.num 2] (by decide),
   C20_change_classification.2.2.2.2 "a" [.num 1] [] (.num 2) (.num 3) (by decide) (by decide)
     (by decide) (by decide),
   (C20_change_classification.2.2.2.1 "a" [] [] (.obj [("b", .num 1)])
     (.obj [("b", .num 1), ("c", .num 2)]) (by decide) (by decide)).trans (by decide)⟩

/-! ## Summaries and change logs -/

theorem String.intercalate_go_append (s : String) (as : List String) (acc x : String) :
    String.intercalate.go (acc ++ x) s as = acc ++ String.intercalate.go x s as := by
  induction as generalizing x with
  | nil => simp [String.intercalate.go]
  | cons a as ih =>
    simp only [String.intercalate.go]
    rw [String.append_assoc, String.append_assoc, ih, String.append_assoc]

theorem jsJoin_eq_intercalate (sep : String) (xs : List String) :
    jsJoin sep xs = sep.intercalate xs := by
  induction xs with
  | nil => rfl
  | cons x rest ih =>
    cases rest with
    | nil => simp [jsJoin, String.intercalate, String.intercalate.go]
    | cons y ys =>
      rw [jsJoin, ih]
      simp only [String.intercalate, String.intercalate.go]
      rw [String.intercalate_go_append]

theorem jsJoin_last (sep : String) (c : Char) (xs : List String) (hne : xs ≠ [])
    (h : ∀ x ∈ xs, ∃ pre, x.data = pre ++ [c]) :
    ∃ pre, (jsJoin sep xs).data = pre ++ [c] := by
  induction xs with
  | nil => exact absurd rfl hne
  | cons x rest ih =>
    cases rest with
    | nil => simpa [jsJoin] using h x (by simp)
    | cons y ys =>
      obtain ⟨pre, hpre⟩ := ih (by simp) (fun z hz => h z (List.mem_cons_of_mem _ hz))
      exact ⟨x.data ++ sep.data ++ pre, by simp [jsJoin, String.data_append, hpre]⟩

theorem String.ne_of_last (x : String) (pre : List Char) (h : x.data = pre ++ ['d']) :
    x ≠ "" ∧ x ≠ "No changes" := by
  constructor
  · intro hx
    rw [hx] at h
    have := congrArg List.length h
    simp at this
  · intro hx
    rw [hx] at h
    have := congrArg List.getLast? h
    simp at this

/-- The list of phrases of `generateSummary`. -/
theorem DiffService.summary_parts_last (a m d : Nat) :
    ∀ x ∈ (if a > 0 then [toString a ++ " added"] else []) ++
        (if m > 0 then [toString m ++ " modified"] else []) ++
        (if d > 0 then [toString d ++ " deleted"] else []),
      ∃ pre, x.data = pre ++ ['d'] := by
  intro x hx
  simp only [List.mem_append] at hx
  rcases hx with (hx | hx) | hx
  · split at hx
    · simp only [List.mem_singleton] at hx
      exact ⟨(toString a).data ++ " adde".data, by rw [hx]; simp [String.data_append]⟩
    · simp at hx
  · split at hx
    · simp only [List.mem_singleton] at hx
      exact ⟨(toString m).data ++ " modifie".data, by rw [hx]; simp [String.data_append]⟩
    · simp at hx
  · split at hx
    · simp only [List.mem_singleton] at hx
      exact ⟨(toString d).data ++ " delete".data, by rw [hx]; simp [String.data_append]⟩
    · simp at hx

theorem DiffService.generateSummary_of_parts (changes : List Change)
    (hne : (if countType changes "added" > 0 then
          [toString (countType changes "added") ++ " added"] else []) ++
        (if countType changes "modified" > 0 then
          [toString (countType changes "modified") ++ " modified"] else []) ++
        (if countType changes "deleted" > 0 then
          [toString (countType changes "deleted") ++ " deleted"] else []) ≠ []) :
    generateSummary changes = jsJoin ", "
        ((if countType changes "added" > 0 then
          [toString (countType changes "added") ++ " added"] else []) ++
        (if countType changes "modified" > 0 then
          [toString (countType changes "modified") ++ " modified"] else []) ++
        (if countType changes "deleted" > 0 then
          [toString (countType changes "deleted") ++ " deleted"] else [])) ∧
      generateSummary changes ≠ "No changes" := by
  obtain ⟨pre, hpre⟩ := jsJoin_last ", " 'd' _ hne (DiffService.summary_parts_last _ _ _)
  have h := String.ne_of_last _ pre hpre
  unfold generateSummary
  simp only
  rw [if_neg h.1]
  exact ⟨rfl, h.2⟩

theorem DiffService.generateSummary_none (changes : List Change)
    (ha : countType changes "added" = 0) (hm : countType changes "modified" = 0)
    (hd : countType changes "deleted" = 0) : generateSummary changes = "No changes" := by
  unfold generateSummary
  simp [ha, hm, hd, jsJoin]

theorem DiffService.generateSummary_noChanges_iff (changes : List Change) :
    generateSummary changes = "No changes" ↔
      countType changes "added" = 0 ∧ countType changes "modified" = 0 ∧
        countType changes "deleted" = 0 := by
  constructor
  · intro h
    by_contra hc
    refine (DiffService.generateSummary_of_parts changes ?_).2 h
    intro hnil
    apply hc
    simp only [List.append_eq_nil] at hnil
    obtain ⟨⟨h1, h2⟩, h3⟩ := hnil
    refine ⟨?_, ?_, ?_⟩
    · by_contra hx
      rw [if_pos (Nat.pos_of_ne_zero hx)] at h1
      simp at h1
    · by_contra hx
      rw [if_pos (Nat.pos_of_ne_zero hx)] at h2
      simp at h2
    · by_contra hx
      rw [if_pos (Nat.pos_of_ne_zero hx)] at h3
      simp at h3
  · rintro ⟨ha, hm, hd⟩
    exact DiffService.generateSummary_none changes ha hm hd

theorem DiffService.countType_perm {xs ys : List Change} (h : xs.Perm ys) (t : String) :
    countType xs t = countType ys t := by
  unfold countType
  exact (h.filter _).length_eq

theorem DiffService.generateSummary_perm {xs ys : List Change} (h : xs.Perm ys) :
    generateSummary xs = generateSummary ys := by
  unfold generateSummary
  simp only [DiffService.countType_perm h]

theorem DiffService.countType_eq_zero (changes : List Change) (t : String) :
    countType changes t = 0 ↔ ∀ c ∈ changes, c.type ≠ t := by
  unfold countType
  simp [List.filter_eq_nil_iff]

theorem DiffService.summary_parts_eq (a m d : Nat) :
    (if a > 0 then [toString a ++ " added"] else []) ++
        (if m > 0 then [toString m ++ " modified"] else []) ++
        (if d > 0 then [toString d ++ " deleted"] else []) =
      (([(a, " added"), (m, " modified"), (d, " deleted")].filter (fun p => p.1 != 0)).map
        (fun p => toString p.1 ++ p.2)) := by
  by_cases ha : a = 0 <;> by_cases hm : m = 0 <;> by_cases hd : d = 0 <;>
    simp [ha, hm, hd, Nat.pos_of_ne_zero, List.filter_cons]

/-- C21: `generateSummary(changes)` is the phrases `<n> added`, `<n> modified`, `<n> deleted`
for the non-zero counts of changes of these three types, in this order, joined by `, `; it is
`No changes` exactly when the list holds no change of type added, modified or deleted; and it
is the same for every reordering of the list. -/
theorem C21_generateSummary (changes : List Change) :
    DiffService.generateSummary changes =
      (if DiffService.countType changes "added" = 0 ∧
          DiffService.countType changes "modified" = 0 ∧
          DiffService.countType changes "deleted" = 0 then "No changes"
        else ", ".intercalate
          (([(DiffService.countType changes "added", " added"),
             (DiffService.countType changes "modified", " modified"),
             (DiffService.countType changes "deleted", " deleted")].filter
              (fun p => p.1 != 0)).map (fun p => toString p.1 ++ p.2))) ∧
    (DiffService.generateSummary changes = "No changes" ↔
      ∀ c ∈ changes, c.type ≠ "added" ∧ c.type ≠ "modified" ∧ c.type ≠ "deleted") ∧
    (∀ reordered : List Change, changes.Perm reordered →
      DiffService.generateSummary reordered = DiffService.generateSummary changes) := by
  refine ⟨?_, ?_, fun reordered h => (DiffService.generateSummary_perm h).symm⟩
  · split
    · rename_i h
      exact DiffService.generateSummary_none changes h.1 h.2.1 h.2.2
    · rename_i h
      rw [← jsJoin_eq_intercalate, ← DiffService.summary_parts_eq]
      refine (DiffService.generateSummary_of_parts changes ?_).1
      intro hnil
      apply h
      simp only [List.append_eq_nil] at hnil
      obtain ⟨⟨h1, h2⟩, h3⟩ := hnil
      refine ⟨?_, ?_, ?_⟩
      · by_contra hx
        rw [if_pos (Nat.pos_of_ne_zero hx)] at h1
        simp at h1
      · by_contra hx
        rw [if_pos (Nat.pos_of_ne_zero hx)] at h2
        simp at h2
      · by_contra hx
        rw [if_pos (Nat.pos_of_ne_zero hx)] at h3
        simp at h3
  · rw [DiffService.generateSummary_noChanges_iff]
    simp only [DiffService.countType_eq_zero]
    constructor
    · rintro ⟨h1, h2, h3⟩ c hc
      exact ⟨h1 c hc, h2 c hc, h3 c hc⟩
    · intro h
      exact ⟨fun c hc => (h c hc).1, fun c hc => (h c hc).2.1, fun c hc => (h c hc).2.2⟩

theorem DiffService.describeChange_eq (c : Change) :
    DiffService.describeChange c = changeLogPhrase c := by
  unfold DiffService.describeChange changeLogPhrase
  split
  · rename_i h; simp [h]
  · split
    · rename_i h1 h; simp [h]
    · split
      · rename_i h; simp [h]
      · rename_i h1 h2 h3
        split
        · exact absurd (by assumption) h1
        · exact absurd (by assumption) h2
        · exact absurd (by assumption) h3
        · rfl

theorem DiffService.description_eq (changes : List Change) :
    (if changes.length > 3 then
        jsJoin "; " ((changes.take 3).map DiffService.describeChange) ++ " (+" ++
          toString (changes.length - 3) ++ " more)"
      else jsJoin "; " ((changes.take 3).map DiffService.describeChange)) =
      changeLogDescription changes := by
  have hmap : (changes.take 3).map DiffService.describeChange =
      (changes.take 3).map changeLogPhrase :=
    List.map_congr_left (fun c _ => DiffService.describeChange_eq c)
  unfold changeLogDescription
  rw [hmap, jsJoin_eq_intercalate]
  split
  · simp only [String.append_assoc]
  · simp

theorem jsUnits_append (a b : String) : jsUnits (a ++ b) = jsUnits a ++ jsUnits b := by
  simp only [jsUnits, String.data_append, List.flatMap_append]

theorem jsLength_append (a b : String) : jsLength (a ++ b) = jsLength a + jsLength b := by
  simp only [jsLength, jsUnits_append, List.length_append]

theorem wellFormedEnd_cons (u : Nat) (l : List Nat) (hu : ¬ (0xD800 ≤ u ∧ u < 0xDC00)) :
    wellFormedEnd (u :: l) = u :: wellFormedEnd l := by
  cases l with
  | nil => simp only [wellFormedEnd, hu, if_false]
  | cons v rest => rfl

theorem wellFormedEnd_length : ∀ l : List Nat, (wellFormedEnd l).length = l.length
  | [] => rfl
  | [u] => by
      unfold wellFormedEnd
      split <;> rfl
  | u :: v :: rest => by
      rw [wellFormedEnd, List.length_cons, wellFormedEnd_length (v :: rest)]
      rfl

/-- The code units of the text kept by `substring(0, n)`: the first `n` code units, a first
half of a surrogate pair at the end being written U+FFFD. -/
theorem takeUnits_units : ∀ (cs : List Char) (n : Nat),
    (takeUnits cs n).flatMap utf16Units = wellFormedEnd ((cs.flatMap utf16Units).take n)
  | [], n => by simp [takeUnits, wellFormedEnd]
  | c :: cs, 0 => by simp [takeUnits, wellFormedEnd]
  | c :: cs, n + 1 => by
      have hv := c.valid
      have hnat : c.val.toNat = c.toNat := rfl
      simp only [UInt32.isValidChar, Nat.isValidChar, hnat] at hv
      by_cases hb : c.toNat < 0x10000
      · have hu : utf16Units c = [c.toNat] := by simp only [utf16Units, hb, if_true]
        have ht : takeUnits (c :: cs) (n + 1) = c :: takeUnits cs n := by
          simp only [takeUnits, hb, if_true]
        rw [ht, List.flatMap_cons, List.flatMap_cons, hu, takeUnits_units cs n]
        simp only [List.singleton_append, List.take_succ_cons]
        rw [wellFormedEnd_cons _ _ (by omega)]
      · have hu : utf16Units c =
            [0xD800 + (c.toNat - 0x10000) / 0x400, 0xDC00 + (c.toNat - 0x10000) % 0x400] := by
          simp only [utf16Units, hb, if_false]
        cases n with
        | zero =>
          have ht : takeUnits (c :: cs) (0 + 1) = [Char.ofNat 0xFFFD] := by
            simp only [takeUnits, hb, if_false]
          rw [ht]
          simp only [List.flatMap_cons, hu, List.cons_append, List.nil_append,
            List.take_succ_cons, List.take_zero, List.flatMap_nil, List.append_nil]
          have h1 : utf16Units (Char.ofNat 0xFFFD) = [0xFFFD] := by decide
          rw [h1, wellFormedEnd, if_pos (by omega)]
        | succ m =>
          have ht : takeUnits (c :: cs) (m + 1 + 1) = c :: takeUnits cs m := by
            simp only [takeUnits, hb, if_false]
          rw [ht]
          simp only [List.flatMap_cons, hu, List.cons_append, List.nil_append,
            List.take_succ_cons]
          rw [takeUnits_units cs m, wellFormedEnd, wellFormedEnd_cons _ _ (by omega)]

theorem jsSubstring0_units (s : String) (n : Nat) :
    jsUnits (jsSubstring0 s n) = wellFormedEnd ((jsUnits s).take n) := by
  simp only [jsUnits, jsSubstring0, takeUnits_units]

theorem jsSubstring0_length (s : String) (n : Nat) (h : n ≤ jsLength s) :
    jsLength (jsSubstring0 s n) = n := by
  unfold jsLength at h ⊢
  rw [jsSubstring0_units, wellFormedEnd_length, List.length_take]
  omega

theorem DiffService.generateChangeLog_eq (diff : DiffResult) (maxLength : Nat)
    (h : diff.hasChanges = true) :
    DiffService.generateChangeLog diff maxLength =
      if jsLength (changeLogDescription diff.changes) > maxLength then
        jsSubstring0 (changeLogDescription diff.changes) maxLength ++ "..."
      else changeLogDescription diff.changes := by
  unfold DiffService.generateChangeLog
  simp only [h, Bool.not_true, Bool.false_eq_true, ↓reduceIte]
  rw [DiffService.description_eq]

/-- C22: `generateChangeLog(diff, maxLength)` is `No changes` when `diff.hasChanges` is false;
otherwise, with d the first three changes rendered as `Added`, `Modified`, `Deleted` or
`Changed` and the path, joined by `; ` and followed by ` (+<N-3> more)` when there are N > 3
changes, the result is d when d has at most maxLength characters and else the first maxLength
characters of d followed by `...`, so that it has at most maxLength + 3 characters.  Characters
are counted as JavaScript counts them, in UTF-16 code units. -/
theorem C22_generateChangeLog (diff : DiffResult) (maxLength : Nat) :
    (diff.hasChanges = false → DiffService.generateChangeLog diff maxLength = "No changes") ∧
    (diff.hasChanges = true →
      (jsLength (changeLogDescription diff.changes) ≤ maxLength →
        DiffService.generateChangeLog diff maxLength = changeLogDescription diff.changes) ∧
      (maxLength < jsLength (changeLogDescription diff.changes) →
        DiffService.generateChangeLog diff maxLength =
          jsSubstring0 (changeLogDescription diff.changes) maxLength ++ "..." ∧
        jsUnits (DiffService.generateChangeLog diff maxLength) =
          wellFormedEnd ((jsUnits (changeLogDescription diff.changes)).take maxLength) ++
            jsUnits "..." ∧
        jsLength (DiffService.generateChangeLog diff maxLength) = maxLength + 3) ∧
      jsLength (DiffService.generateChangeLog diff maxLength) ≤ maxLength + 3) := by
  constructor
  · intro h
    unfold DiffService.generateChangeLog
    simp [h]
  · intro h
    rw [DiffService.generateChangeLog_eq diff maxLength h]
    have h3 : jsLength "..." = 3 := by decide
    refine ⟨fun hle => ?_, fun hlt => ?_, ?_⟩
    · rw [if_neg (by omega)]
    · rw [if_pos hlt]
      refine ⟨rfl, ?_, ?_⟩
      · rw [jsUnits_append, jsSubstring0_units]
      · rw [jsLength_append, jsSubstring0_length _ _ (by omega), h3]
    · split
      · rename_i hlt
        rw [jsLength_append, jsSubstring0_length _ _ (by omega), h3]
      · omega

/-- A path of three characters above the basic plane (U+1F600) under maxLength 10: the
description has 12 code units, so it is cut after the second of them.  Four added paths of five
such characters under maxLength 50: the description has 62 code units, so it is cut and loses
the count of further changes. -/
theorem DiffService.generateChangeLog_counts_code_units :
    DiffService.generateChangeLog
        { hasChanges := true
          changes := [{ type := "added"
                        path := String.mk [Char.ofNat 0x1F600, Char.ofNat 0x1F600,
                          Char.ofNat 0x1F600]
                        oldValue := none
                        newValue := some (.num 1) }]
          summary := "1 added" } 10 =
      "Added " ++ String.mk [Char.ofNat 0x1F600, Char.ofNat 0x1F600] ++ "..." ∧
    jsLength (changeLogDescription (List.replicate 4
        { type := "added", path := String.mk (List.replicate 5 (Char.ofNat 0x1F600)),
          oldValue := none, newValue := some (.num 1) })) = 62 ∧
    jsIncludes
      (DiffService.generateChangeLog
        { hasChanges := true
          changes := List.replicate 4
            { type := "added", path := String.mk (List.replicate 5 (Char.ofNat 0x1F600)),
              oldValue := none, newValue := some (.num 1) }
          summary := "4 added" } 50) "(+1 more)" = false := by
  decide

/-- C23 (as stated, refuted): the diff of the test `should truncate long changelogs` has ten
changes, yet with maxLength 20 the change log is cut before the count of further changes. -/
theorem C23_count_cut_by_truncation :
    DiffResult.tenAdded.hasChanges = true ∧ DiffResult.tenAdded.changes.length = 10 ∧
    DiffService.generateChangeLog DiffResult.tenAdded 20 = "Added field0; Added ..." ∧
    jsIncludes (DiffService.generateChangeLog DiffResult.tenAdded 20) "(+7 more)" = false := by
  decide

theorem startsWithChars_self (sub rest : List Char) : startsWithChars (sub ++ rest) sub = true := by
  induction sub with
  | nil => cases rest <;> rfl
  | cons c sub ih => simp [startsWithChars, ih]

theorem includesChars_append (pre sub : List Char) : includesChars (pre ++ sub) sub = true := by
  induction pre with
  | nil =>
    cases sub with
    | nil => rfl
    | cons c sub =>
      have := startsWithChars_self (c :: sub) []
      simp only [List.append_nil] at this
      simp [includesChars, this]
  | cons c pre ih => simp [includesChars, ih]

/-- C23 (amended): for every diff with `hasChanges = true` and more than 3 changes, and every
maxLength that the length of the untruncated description, in UTF-16 code units, does not exceed,
the string returned by `generateChangeLog` ends with ` (+N more)`, N being the number of changes
minus 3. -/
theorem C23_more_listed_when_not_truncated (diff : DiffResult) (maxLength : Nat)
    (h : diff.hasChanges = true) (hmore : diff.changes.length > 3)
    (hfit : jsLength (changeLogDescription diff.changes) ≤ maxLength) :
    (∃ start : String, DiffService.generateChangeLog diff maxLength =
      start ++ " (+" ++ toString (diff.changes.length - 3) ++ " more)") ∧
    jsIncludes (DiffService.generateChangeLog diff maxLength)
      ("(+" ++ toString (diff.changes.length - 3) ++ " more)") = true := by
  rw [DiffService.generateChangeLog_eq diff maxLength h, if_neg (by omega)]
  unfold changeLogDescription
  rw [if_pos hmore]
  constructor
  · exact ⟨"; ".intercalate ((diff.changes.take 3).map changeLogPhrase), by
      simp only [String.append_assoc]⟩
  · unfold jsIncludes
    have : ("; ".intercalate ((diff.changes.take 3).map changeLogPhrase) ++
        (" (+" ++ toString (diff.changes.length - 3) ++ " more)")).data =
        (("; ".intercalate ((diff.changes.take 3).map changeLogPhrase)).data ++ " ".data) ++
          ("(+" ++ toString (diff.changes.length - 3) ++ " more)").data := by
      simp [String.data_append]
    rw [this]
    exact includesChars_append _ _

/-- C23, witness: the ten changes of the test under the default maxLength of 200. -/
theorem C23_more_listed_when_not_truncated_witness :
    (∃ start : String, DiffService.generateChangeLog DiffResult.tenAdded 200 =
      start ++ " (+" ++ toString (DiffResult.tenAdded.changes.length - 3) ++ " more)") ∧
    jsIncludes (DiffService.generateChangeLog DiffResult.tenAdded 200)
      ("(+" ++ toString (DiffResult.tenAdded.changes.length - 3) ++ " more)") = true :=
  C23_more_listed_when_not_truncated DiffResult.tenAdded 200 (by decide) (by decide) (by decide)

/-! ## Patches -/

theorem lookup_eq_none_of_not_mem (fs : List (String × Document)) (P : String)
    (h : P ∉ fs.map Prod.fst) : fs.lookup P = none := by
  induction fs with
  | nil => rfl
  | cons f rest ih =>
    obtain ⟨k, v⟩ := f
    simp only [List.map_cons, List.mem_cons, not_or] at h
    have hne : (P == k) = false := by simpa using h.1
    simp only [List.lookup_cons, hne]
    exact ih h.2

theorem lookup_none_not_mem (fs : List (String × Document)) (P : String)
    (h : fs.lookup P = none) : P ∉ fs.map Prod.fst := by
  induction fs with
  | nil => simp
  | cons f rest ih =>
    obtain ⟨k, v⟩ := f
    simp only [List.lookup_cons] at h
    cases hk : P == k with
    | true => rw [hk] at h; simp at h
    | false =>
      rw [hk] at h
      simp only [List.map_cons, List.mem_cons, not_or]
      exact ⟨by simpa using hk, ih h⟩

theorem lookup_map_replace (fs : List (String × Document)) (k k' : String) (v : Document) :
    (fs.map (fun p => if p.1 = k then (k, v) else p)).lookup k' =
      if k' = k then (fs.lookup k).map (fun _ => v) else fs.lookup k' := by
  induction fs with
  | nil => simp
  | cons f rest ih =>
    obtain ⟨a, b⟩ := f
    simp only [List.map_cons, List.lookup_cons]
    by_cases ha : a = k
    · subst ha
      simp only [if_true]
      by_cases hk : k' = a
      · subst hk
        simp
      · have hne : (k' == a) = false := by simpa using hk
        simp only [List.lookup_cons, hne, hk, if_false]
        rw [ih, if_neg hk]
    · simp only [ha, if_false, List.lookup_cons]
      by_cases hk : k' = k
      · subst hk
        have hne : (k' == a) = false := by simpa using fun h => ha h.symm
        simp only [hne, if_true]
        rw [ih, if_pos rfl]
      · simp only [hk, if_false]
        cases hka : k' == a with
        | true => rfl
        | false =>
          simp only
          rw [ih, if_neg hk]

theorem lookup_append_single (fs : List (String × Document)) (k k' : String) (v : Document) :
    (fs ++ [(k, v)]).lookup k' =
      match fs.lookup k' with
      | some w => some w
      | none => if k' = k then some v else none := by
  induction fs with
  | nil =>
    by_cases hk : k' = k
    · subst hk; simp [List.lookup_cons]
    · have hne : (k' == k) = false := by simpa using hk
      simp [List.lookup_cons, hne, hk]
  | cons f rest ih =>
    obtain ⟨a, b⟩ := f
    simp only [List.cons_append, List.lookup_cons]
    cases hka : k' == a with
    | true => rfl
    | false => exact ih

theorem lodash.lookup_assignField (fs : List (String × Document)) (k k' : String)
    (v : Document) :
    (lodash.assignField fs k v).lookup k' = if k' = k then some v else fs.lookup k' := by
  unfold lodash.assignField
  cases hl : fs.lookup k with
  | some w =>
    simp only [Option.isSome_some, if_true]
    rw [lookup_map_replace, hl]
    rfl
  | none =>
    simp only [Option.isSome_none, Bool.false_eq_true, if_false]
    rw [lookup_append_single]
    by_cases hk : k' = k
    · subst hk
      simp [hl]
    · simp only [hk, if_false]
      cases fs.lookup k' <;> rfl

theorem lodash.lookup_deleteField (fs : List (String × Document)) (k k' : String) :
    (lodash.deleteField fs k).lookup k' = if k' = k then none else fs.lookup k' := by
  unfold lodash.deleteField
  induction fs with
  | nil => simp
  | cons f rest ih =>
    obtain ⟨a, b⟩ := f
    by_cases ha : a = k
    · subst ha
      have : ((a, b).1 != a) = false := by simp
      rw [List.filter_cons_of_neg (by simp), ih]
      by_cases hk : k' = a
      · simp [hk]
      · have hne : (k' == a) = false := by simpa using hk
        simp [hk, List.lookup_cons, hne]
    · rw [List.filter_cons_of_pos (by simpa using ha)]
      simp only [List.lookup_cons]
      cases hka : k' == a with
      | true =>
        have e : k' = a := by simpa using hka
        have hk : ¬ k' = k := fun h => ha (e ▸ h)
        simp [hk]
      | false => exact ih

theorem lodash.keys_assignField (fs : List (String × Document)) (k : String) (v : Document)
    (h : (fs.map Prod.fst).Nodup) : ((lodash.assignField fs k v).map Prod.fst).Nodup := by
  unfold lodash.assignField
  cases hl : fs.lookup k with
  | some w =>
    simp only [Option.isSome_some, if_true]
    have : (fs.map (fun p => if p.1 = k then (k, v) else p)).map Prod.fst = fs.map Prod.fst := by
      rw [List.map_map]
      apply List.map_congr_left
      intro p _
      simp only [Function.comp]
      split
      · rename_i hp; exact hp.symm
      · rfl
    rw [this]
    exact h
  | none =>
    simp only [Option.isSome_none, Bool.false_eq_true, if_false]
    rw [List.map_append, List.nodup_append]
    refine ⟨h, by simp, ?_⟩
    intro a ha hb
    simp only [List.map_cons, List.map_nil, List.mem_singleton] at hb
    subst hb
    exact lookup_none_not_mem fs _ hl ha

theorem lodash.keys_deleteField (fs : List (String × Document)) (k : String)
    (h : (fs.map Prod.fst).Nodup) : ((lodash.deleteField fs k).map Prod.fst).Nodup := by
  unfold lodash.deleteField
  exact (List.Nodup.sublist ((List.filter_sublist _).map Prod.fst) h)

theorem lodash.castPath_direct (cur : List (String × Document)) (k : String)
    (h : (cur.lookup k).isSome = true ∨
      (k.data.contains '.' = false ∧ k.data.contains '[' = false)) :
    lodash.castPath k (.obj cur) = some [k] := by
  unfold lodash.castPath lodash.hasProperty
  rcases h with h | h
  · simp only [h, if_true]
  · split
    · rfl
    · simp only [h.1, h.2, Bool.not_false, Bool.and_self, ↓reduceIte]

theorem DiffService.applyChange_set (cur : List (String × Document)) (t k : String)
    (o : Option Document) (w : Document) (ht : t = "added" ∨ t = "modified")
    (hdirect : (cur.lookup k).isSome = true ∨
      (k.data.contains '.' = false ∧ k.data.contains '[' = false))
    (hproto : k ≠ "__proto__" ∧ k ≠ "constructor" ∧ k ≠ "prototype") :
    DiffService.applyChange (.obj cur)
        { type := t, path := k, oldValue := o, newValue := some w } =
      some (.obj (lodash.assignField cur k w)) := by
  unfold DiffService.applyChange
  simp only [ht, if_true]
  unfold lodash.set
  simp only [Document.isObject, Bool.not_true, Bool.false_eq_true, if_false,
    lodash.castPath_direct cur k hdirect, lodash.baseSetLoop, hproto.1, hproto.2.1, hproto.2.2,
    or_self, lodash.assignValue]

theorem DiffService.applyChange_unset (cur : List (String × Document)) (k : String)
    (o n : Option Document) (h : (cur.lookup k).isSome = true) :
    DiffService.applyChange (.obj cur)
        { type := "deleted", path := k, oldValue := o, newValue := n } =
      some (.obj (lodash.deleteField cur k)) := by
  unfold DiffService.applyChange
  have e1 : ¬ ("deleted" = "added" ∨ "deleted" = "modified") := by decide
  simp only [e1, if_false, if_true]
  unfold lodash.unset
  simp only [reduceCtorEq, if_false, lodash.castPath_direct cur k (Or.inl h),
    lodash.baseUnsetLoop, lodash.deleteProperty]

theorem lookup_of_mem_nodup (fs : List (String × Document)) (h : (fs.map Prod.fst).Nodup) :
    ∀ q ∈ fs, fs.lookup q.1 = some q.2 := by
  induction fs with
  | nil => intro q hq; simp at hq
  | cons f rest ih =>
    obtain ⟨a, b⟩ := f
    simp only [List.map_cons, List.nodup_cons] at h
    intro q hq
    simp only [List.mem_cons] at hq
    rcases hq with hq | hq
    · subst hq
      simp [List.lookup_cons]
    · have hne : (q.1 == a) = false := by
        rw [beq_eq_false_iff_ne]
        intro he
        exact h.1 (he ▸ List.mem_map_of_mem Prod.fst hq)
      simp only [List.lookup_cons, hne]
      exact ih h.2 q hq

theorem ite_mem_cons_ne {α : Type} (k k0 : String) (l : List String) (a b : α) (hk : k ≠ k0) :
    (if k ∈ k0 :: l then a else b) = if k ∈ l then a else b := by
  by_cases hm : k ∈ l
  · rw [if_pos hm, if_pos (List.mem_cons_of_mem _ hm)]
  · rw [if_neg hm, if_neg (by simp [hk, hm])]

theorem ite_mem_cons_self {α : Type} (k0 : String) (l : List String) (a b : α) :
    (if k0 ∈ k0 :: l then a else b) = a := by
  rw [if_pos (List.mem_cons_self _ _)]

theorem applyPatch_deleted_modified (new : List (String × Document)) :
    ∀ (rest cur : List (String × Document)), (rest.map Prod.fst).Nodup →
    (cur.map Prod.fst).Nodup → (∀ q ∈ rest, cur.lookup q.1 = some q.2) →
    (∀ q ∈ rest, ∀ w, new.lookup q.1 = some w → q.2 ≠ w →
      q.1 ≠ "__proto__" ∧ q.1 ≠ "constructor" ∧ q.1 ≠ "prototype") →
    ∃ cur', List.foldl (fun result change =>
          result.bind (fun r => DiffService.applyChange r change)) (some (.obj cur))
        (rest.filterMap (fun p =>
          match new.lookup p.1 with
          | none =>
              some { type := "deleted", path := p.1, oldValue := some p.2, newValue := none }
          | some w =>
              if p.2 = w then none
              else some { type := "modified", path := p.1, oldValue := some p.2,
                          newValue := some w })) = some (.obj cur') ∧
      (cur'.map Prod.fst).Nodup ∧
      ∀ k, cur'.lookup k = if k ∈ rest.map Prod.fst then new.lookup k else cur.lookup k := by
  intro rest
  induction rest with
  | nil =>
    intro cur _ hcur _ _
    exact ⟨cur, rfl, hcur, fun k => by simp⟩
  | cons q rest ih =>
    obtain ⟨k0, v0⟩ := q
    intro cur hrest hcur hlook hok
    simp only [List.map_cons, List.nodup_cons] at hrest
    have hk0 : cur.lookup k0 = some v0 := hlook (k0, v0) (by simp)
    have hne : ∀ q ∈ rest, q.1 ≠ k0 := fun q hq he =>
      hrest.1 (he ▸ List.mem_map_of_mem Prod.fst hq)
    have hok' : ∀ q ∈ rest, ∀ w, new.lookup q.1 = some w → q.2 ≠ w →
        q.1 ≠ "__proto__" ∧ q.1 ≠ "constructor" ∧ q.1 ≠ "prototype" :=
      fun q hq => hok q (List.mem_cons_of_mem _ hq)
    cases hn : new.lookup k0 with
    | none =>
      simp only [List.filterMap_cons, hn, List.foldl_cons, Option.some_bind]
      rw [DiffService.applyChange_unset cur k0 _ _ (by simp [hk0])]
      obtain ⟨cur', h1, h2, h3⟩ := ih (lodash.deleteField cur k0) hrest.2
        (lodash.keys_deleteField cur k0 hcur)
        (fun q hq => by
          rw [lodash.lookup_deleteField, if_neg (hne q hq)]
          exact hlook q (List.mem_cons_of_mem _ hq))
        hok'
      refine ⟨cur', h1, h2, fun k => ?_⟩
      rw [h3 k, lodash.lookup_deleteField, List.map_cons]
      by_cases hk : k = k0
      · subst hk
        rw [ite_mem_cons_self, if_neg hrest.1, if_pos rfl, hn]
      · rw [ite_mem_cons_ne _ _ _ _ _ hk, if_neg hk]
    | some w =>
      by_cases hvw : v0 = w
      · simp only [List.filterMap_cons, hn, hvw, if_true]
        obtain ⟨cur', h1, h2, h3⟩ := ih cur hrest.2 hcur
          (fun q hq => hlook q (List.mem_cons_of_mem _ hq)) hok'
        refine ⟨cur', h1, h2, fun k => ?_⟩
        rw [h3 k, List.map_cons]
        by_cases hk : k = k0
        · subst hk
          rw [ite_mem_cons_self, if_neg hrest.1, hn, hk0, hvw]
        · rw [ite_mem_cons_ne _ _ _ _ _ hk]
      · simp only [List.filterMap_cons, hn, hvw, if_false, List.foldl_cons, Option.some_bind]
        rw [DiffService.applyChange_set cur "modified" k0 _ w (Or.inr rfl)
          (Or.inl (by simp [hk0])) (hok (k0, v0) (by simp) w hn hvw)]
        obtain ⟨cur', h1, h2, h3⟩ := ih (lodash.assignField cur k0 w) hrest.2
          (lodash.keys_assignField cur k0 w hcur)
          (fun q hq => by
            rw [lodash.lookup_assignField, if_neg (hne q hq)]
            exact hlook q (List.mem_cons_of_mem _ hq))
          hok'
        refine ⟨cur', h1, h2, fun k => ?_⟩
        rw [h3 k, lodash.lookup_assignField, List.map_cons]
        by_cases hk : k = k0
        · subst hk
          rw [ite_mem_cons_self, if_neg hrest.1, if_pos rfl, hn]
        · rw [ite_mem_cons_ne _ _ _ _ _ hk, if_neg hk]

theorem applyPatch_added :
    ∀ (rest cur : List (String × Document)), (rest.map Prod.fst).Nodup →
    (cur.map Prod.fst).Nodup →
    (∀ q ∈ rest, cur.lookup q.1 = none ∧ q.1.data.contains '.' = false ∧
      q.1.data.contains '[' = false ∧
      q.1 ≠ "__proto__" ∧ q.1 ≠ "constructor" ∧ q.1 ≠ "prototype") →
    ∃ cur', List.foldl (fun result change =>
          result.bind (fun r => DiffService.applyChange r change)) (some (.obj cur))
        (rest.map (fun p =>
          ({ type := "added", path := p.1, oldValue := none, newValue := some p.2 } : Change))) =
        some (.obj cur') ∧
      (cur'.map Prod.fst).Nodup ∧
      ∀ k, cur'.lookup k = if k ∈ rest.map Prod.fst then rest.lookup k else cur.lookup k := by
  intro rest
  induction rest with
  | nil =>
    intro cur _ hcur _
    exact ⟨cur, rfl, hcur, fun k => by simp⟩
  | cons q rest ih =>
    obtain ⟨k0, w0⟩ := q
    intro cur hrest hcur hq
    simp only [List.map_cons, List.nodup_cons] at hrest
    have h0 := hq (k0, w0) (by simp)
    have hne : ∀ q ∈ rest, q.1 ≠ k0 := fun q hq he =>
      hrest.1 (he ▸ List.mem_map_of_mem Prod.fst hq)
    simp only [List.map_cons, List.foldl_cons, Option.some_bind]
    rw [DiffService.applyChange_set cur "added" k0 _ w0 (Or.inl rfl)
      (Or.inr ⟨h0.2.1, h0.2.2.1⟩) h0.2.2.2]
    obtain ⟨cur', h1, h2, h3⟩ := ih (lodash.assignField cur k0 w0) hrest.2
      (lodash.keys_assignField cur k0 w0 hcur)
      (fun q hq' => by
        have hq0 := hq q (List.mem_cons_of_mem _ hq')
        refine ⟨?_, hq0.2⟩
        rw [lodash.lookup_assignField, if_neg (hne q hq')]
        exact hq0.1)
    refine ⟨cur', h1, h2, fun k => ?_⟩
    rw [h3 k, lodash.lookup_assignField]
    by_cases hk : k = k0
    · subst hk
      rw [ite_mem_cons_self, if_neg hrest.1, if_pos rfl]
      simp [List.lookup_cons]
    · have hb : (k == k0) = false := by simpa using hk
      rw [ite_mem_cons_ne _ _ _ _ _ hk, if_neg hk]
      simp only [List.lookup_cons, hb]

theorem DiffService.computeDiff_flat_changes (old new : List (String × Document))
    (hold : ∀ q ∈ old, q.2.isScalar = true)
    (hkey : ∀ q ∈ new, q.1 = "" → (old.map Prod.fst).contains "" = true) :
    (DiffService.computeDiff (.obj old) (.obj new)).changes = expectedFlatChanges old new := by
  have hfilter : new.filter (fun q => !(old.map Prod.fst).contains q.1 && q.1 != "") =
      new.filter (fun q => !(old.map Prod.fst).contains q.1) := by
    apply List.filter_congr
    intro q hq
    by_cases he : q.1 = ""
    · have := hkey q hq he
      rw [he, this]
      rfl
    · have : (q.1 != "") = true := by simpa using he
      rw [this, Bool.and_true]
  rw [DiffService.computeDiff_changes, deepDiff.walk_obj, List.map_append,
    walkKeys_flat old new hold, hfilter, List.map_map]
  unfold expectedFlatChanges
  congr 1

theorem lookup_filter_key (p : String → Bool) (fs : List (String × Document)) (k : String) :
    (fs.filter (fun q => p q.1)).lookup k = if p k = true then fs.lookup k else none := by
  induction fs with
  | nil => simp
  | cons f rest ih =>
    obtain ⟨a, b⟩ := f
    by_cases hp : p a = true
    · rw [List.filter_cons_of_pos (by simpa using hp)]
      simp only [List.lookup_cons]
      cases hka : k == a with
      | true =>
        have e : k = a := by simpa using hka
        simp [e, hp]
      | false => exact ih
    · rw [List.filter_cons_of_neg (by simpa using hp), ih]
      simp only [List.lookup_cons]
      cases hka : k == a with
      | true =>
        have e : k = a := by simpa using hka
        simp [e, hp]
      | false => rfl

theorem Document.structurallyEqual_scalar (v : Document) (h : v.isScalar = true) :
    v.structurallyEqual v = true := by
  cases v <;> simp_all [Document.isScalar, Document.structurallyEqual]

theorem Document.structurallyEqualFields_of_lookup :
    ∀ (fs gs : List (String × Document)),
    (∀ q ∈ fs, ∃ w, gs.lookup q.1 = some w ∧ q.2.structurallyEqual w = true) →
    Document.structurallyEqualFields fs gs = true
  | [], _, _ => rfl
  | (k, v) :: rest, gs, h => by
      obtain ⟨w, hw, hvw⟩ := h (k, v) (by simp)
      simp only [Document.structurallyEqualFields, hw, hvw, Bool.true_and]
      exact Document.structurallyEqualFields_of_lookup rest gs
        (fun q hq => h q (List.mem_cons_of_mem _ hq))

theorem Document.structurallyEqual_of_lookup (cur new : List (String × Document))
    (hcur : (cur.map Prod.fst).Nodup) (hnew : ∀ q ∈ new, q.2.isScalar = true)
    (h : ∀ k, cur.lookup k = new.lookup k) :
    (Document.obj cur).structurallyEqual (.obj new) = true := by
  simp only [Document.structurallyEqual, Bool.and_eq_true, List.all_eq_true]
  constructor
  · apply Document.structurallyEqualFields_of_lookup
    intro q hq
    have h1 := lookup_of_mem_nodup cur hcur q hq
    rw [h] at h1
    exact ⟨q.2, h1, Document.structurallyEqual_scalar q.2
      (hnew (q.1, q.2) (lookup_mem q.1 q.2 new h1))⟩
  · intro p hp
    have hin : p.1 ∈ cur.map Prod.fst := by
      by_contra hnot
      have h1 := lookup_eq_none_of_not_mem cur p.1 hnot
      rw [h] at h1
      exact lookup_none_not_mem new p.1 h1 (List.mem_map_of_mem Prod.fst hp)
    simpa using hin

/-- C24 (as stated, refuted): from `{ x: 1 }` to `{ x: 1, "a.b": 2 }` the diff is one added
field with path `a.b`; `applyPatch` hands the path to `_.set`, which reads it as the key `b`
under the key `a`, and the result `{ x: 1, a: { b: 2 } }` is not the second map. -/
theorem C24_dotted_key_not_restored :
    (DiffService.computeDiff (.obj [("x", .num 1)])
        (.obj [("x", .num 1), ("a.b", .num 2)])).changes =
      [{ type := "added", path := "a.b", oldValue := none, newValue := some (.num 2) }] ∧
    DiffService.applyPatch (.obj [("x", .num 1)])
        (DiffService.computeDiff (.obj [("x", .num 1)])
          (.obj [("x", .num 1), ("a.b", .num 2)])) =
      some (.obj [("x", .num 1), ("a", .obj [("b", .num 2)])]) ∧
    Document.structurallyEqual (.obj [("x", .num 1), ("a", .obj [("b", .num 2)])])
      (.obj [("x", .num 1), ("a.b", .num 2)]) = false := by
  decide

/-- C24 (amended): diff/patch round trip on maps with scalar fields.  For all maps A and B with
scalar values, such that every key of B that A lacks is non-empty and contains neither a dot nor
an opening bracket, and no key of B whose value A does not already hold is `__proto__`,
`constructor` or `prototype`: applying the changes of `computeDiff(A, B)` to A with `applyPatch`
gives a map equal to B up to the order of its keys. -/
theorem C24_patch_round_trip (old new : List (String × Document))
    (hold : ∀ q ∈ old, q.2.isScalar = true) (hnew : ∀ q ∈ new, q.2.isScalar = true)
    (hkold : (old.map Prod.fst).Nodup) (hknew : (new.map Prod.fst).Nodup)
    (hadded : ∀ q ∈ new, q.1 ∉ old.map Prod.fst →
      q.1 ≠ "" ∧ '.' ∉ q.1.data ∧ '[' ∉ q.1.data)
    (hset : ∀ q ∈ new, old.lookup q.1 ≠ some q.2 →
      q.1 ≠ "__proto__" ∧ q.1 ≠ "constructor" ∧ q.1 ≠ "prototype") :
    ∃ result, DiffService.applyPatch (.obj old)
        (DiffService.computeDiff (.obj old) (.obj new)) = some (.obj result) ∧
      (Document.obj result).structurallyEqual (.obj new) = true := by
  have hkey : ∀ q ∈ new, q.1 = "" → (old.map Prod.fst).contains "" = true := by
    intro q hq he
    by_contra hc
    have hnot : q.1 ∉ old.map Prod.fst := by
      rw [he]
      simpa using hc
    exact (hadded q hq hnot).1 he
  unfold DiffService.applyPatch
  rw [DiffService.computeDiff_flat_changes old new hold hkey]
  unfold expectedFlatChanges
  rw [List.foldl_append]
  obtain ⟨cur1, h1, hn1, hl1⟩ := applyPatch_deleted_modified new old old hkold hkold
    (lookup_of_mem_nodup old hkold)
    (fun q hq w hw hne => hset (q.1, w) (lookup_mem q.1 w new hw) (by
      rw [lookup_of_mem_nodup old hkold q hq]
      intro he
      exact hne (Option.some.inj he)))
  have hsub : ((new.filter (fun p => !(old.map Prod.fst).contains p.1)).map Prod.fst).Nodup :=
    List.Nodup.sublist ((List.filter_sublist _).map Prod.fst) hknew
  obtain ⟨cur2, h2, hn2, hl2⟩ := applyPatch_added
    (new.filter (fun p => !(old.map Prod.fst).contains p.1)) cur1 hsub hn1
    (fun q hq => by
      rw [List.mem_filter] at hq
      have hnot : q.1 ∉ old.map Prod.fst := by simpa using hq.2
      have ha := hadded q hq.1 hnot
      have hnone := lookup_eq_none_of_not_mem old q.1 hnot
      refine ⟨?_, by simpa using ha.2.1, by simpa using ha.2.2, ?_⟩
      · rw [hl1, if_neg hnot]
        exact hnone
      · exact hset q hq.1 (by rw [hnone]; simp))
  refine ⟨cur2, (congrArg (fun x => List.foldl (fun result change =>
      result.bind (fun r => DiffService.applyChange r change)) x
        ((new.filter (fun p => !(old.map Prod.fst).contains p.1)).map (fun p =>
          ({ type := "added", path := p.1, oldValue := none, newValue := some p.2 } : Change))))
      h1).trans h2,
    Document.structurallyEqual_of_lookup cur2 new hn2 hnew (fun k => ?_)⟩
  rw [hl2 k, lookup_filter_key (fun a => !(old.map Prod.fst).contains a) new k]
  by_cases hko : k ∈ old.map Prod.fst
  · have hc : (!(old.map Prod.fst).contains k) = false := by simpa using hko
    have hnotin : k ∉ (new.filter (fun p => !(old.map Prod.fst).contains p.1)).map Prod.fst := by
      intro hin
      rw [List.mem_map] at hin
      obtain ⟨q, hq, rfl⟩ := hin
      rw [List.mem_filter] at hq
      rw [hc] at hq
      exact absurd hq.2 (by simp)
    rw [if_neg hnotin, hl1, if_pos hko]
  · have hc : (!(old.map Prod.fst).contains k) = true := by simpa using hko
    by_cases hkn : k ∈ new.map Prod.fst
    · have hin : k ∈ (new.filter (fun p => !(old.map Prod.fst).contains p.1)).map Prod.fst := by
        rw [List.mem_map] at hkn ⊢
        obtain ⟨q, hq, rfl⟩ := hkn
        exact ⟨q, List.mem_filter.mpr ⟨hq, hc⟩, rfl⟩
      rw [if_pos hin, if_pos hc]
    · have hnotin : k ∉ (new.filter (fun p => !(old.map Prod.fst).contains p.1)).map
          Prod.fst := by
        intro hin
        rw [List.mem_map] at hin
        obtain ⟨q, hq, rfl⟩ := hin
        exact hkn (List.mem_map_of_mem Prod.fst (List.mem_filter.mp hq).1)
      rw [if_neg hnotin, hl1, if_neg hko, lookup_eq_none_of_not_mem old k hko,
        lookup_eq_none_of_not_mem new k hkn]

/-- C24, witness: from `{ a: 1, b: 2, "x.y": 0 }` to `{ a: 5, "x.y": 7, c: 3 }`: one field
deleted, two modified, one added. -/
theorem C24_patch_round_trip_witness :
    ∃ result, DiffService.applyPatch (.obj [("a", .num 1), ("b", .num 2), ("x.y", .num 0)])
        (DiffService.computeDiff (.obj [("a", .num 1), ("b", .num 2), ("x.y", .num 0)])
          (.obj [("a", .num 5), ("x.y", .num 7), ("c", .num 3)])) = some (.obj result) ∧
      (Document.obj result).structurallyEqual
        (.obj [("a", .num 5), ("x.y", .num 7), ("c", .num 3)]) = true :=
  C24_patch_round_trip [("a", .num 1), ("b", .num 2), ("x.y", .num 0)]
    [("a", .num 5), ("x.y", .num 7), ("c", .num 3)]
    (by decide) (by decide) (by decide) (by decide) (by decide) (by decide)

/-! ## The canonical serialization and the checksum -/

theorem unitsLt_asymm : ∀ (x y : List Nat), unitsLt x y = true → unitsLt y x = false
  | _, [], h => by simp [unitsLt] at h
  | [], _ :: _, _ => by simp [unitsLt]
  | a :: as, b :: bs, h => by
      simp only [unitsLt, Bool.or_eq_true, decide_eq_true_eq, Bool.and_eq_true, beq_iff_eq] at h
      simp only [unitsLt, Bool.or_eq_false_iff, decide_eq_false_iff_not, Bool.and_eq_false_imp,
        beq_iff_eq]
      rcases h with h | ⟨h1, h2⟩
      · exact ⟨by omega, fun he => by omega⟩
      · exact ⟨by omega, fun _ => unitsLt_asymm as bs h2⟩

theorem unitsLt_trichotomy : ∀ (x y : List Nat),
    unitsLt x y = true ∨ x = y ∨ unitsLt y x = true
  | [], [] => Or.inr (Or.inl rfl)
  | [], _ :: _ => Or.inl rfl
  | _ :: _, [] => Or.inr (Or.inr rfl)
  | a :: as, b :: bs => by
      simp only [unitsLt, Bool.or_eq_true, decide_eq_true_eq, Bool.and_eq_true, beq_iff_eq,
        List.cons.injEq]
      rcases Nat.lt_trichotomy a b with h | h | h
      · exact Or.inl (Or.inl h)
      · rcases unitsLt_trichotomy as bs with h' | h' | h'
        · exact Or.inl (Or.inr ⟨h, h'⟩)
        · exact Or.inr (Or.inl ⟨h, h'⟩)
        · exact Or.inr (Or.inr (Or.inr ⟨h.symm, h'⟩))
      · exact Or.inr (Or.inr (Or.inl h))

theorem unitsLt_trans : ∀ (x y z : List Nat),
    unitsLt x y = true → unitsLt y z = true → unitsLt x z = true
  | _, [], _, h, _ => by simp [unitsLt] at h
  | _, _ :: _, [], _, h => by simp [unitsLt] at h
  | [], _ :: _, _ :: _, _, _ => rfl
  | a :: as, b :: bs, c :: cs, h1, h2 => by
      simp only [unitsLt, Bool.or_eq_true, decide_eq_true_eq, Bool.and_eq_true,
        beq_iff_eq] at h1 h2 ⊢
      rcases h1 with h1 | ⟨e1, h1⟩ <;> rcases h2 with h2 | ⟨e2, h2⟩
      · exact Or.inl (by omega)
      · exact Or.inl (by omega)
      · exact Or.inl (by omega)
      · exact Or.inr ⟨by omega, unitsLt_trans as bs cs h1 h2⟩

theorem utf16Units_inj : ∀ (cs ds : List Char),
    cs.flatMap utf16Units = ds.flatMap utf16Units → cs = ds
  | [], [], _ => rfl
  | [], d :: ds, h => by
      have : (utf16Units d) ≠ [] := by unfold utf16Units; split <;> simp
      simp only [List.flatMap_nil, List.flatMap_cons] at h
      cases hu : utf16Units d with
      | nil => exact absurd hu this
      | cons _ _ => rw [hu] at h; simp at h
  | c :: cs, [], h => by
      have : (utf16Units c) ≠ [] := by unfold utf16Units; split <;> simp
      simp only [List.flatMap_nil, List.flatMap_cons] at h
      cases hu : utf16Units c with
      | nil => exact absurd hu this
      | cons _ _ => rw [hu] at h; simp at h
  | c :: cs, d :: ds, h => by
      have hc := c.valid
      have hd := d.valid
      have hcn : c.val.toNat = c.toNat := rfl
      have hdn : d.val.toNat = d.toNat := rfl
      simp only [UInt32.isValidChar, Nat.isValidChar, hcn, hdn] at hc hd
      simp only [List.flatMap_cons, utf16Units] at h
      have key : c.toNat = d.toNat ∧ cs.flatMap utf16Units = ds.flatMap utf16Units := by
        by_cases h1 : c.toNat < 0x10000 <;> by_cases h2 : d.toNat < 0x10000 <;>
          simp only [h1, h2, if_true, if_false, List.cons_append, List.nil_append,
            List.cons.injEq] at h
        · exact h
        · cases hds : ds.flatMap utf16Units <;> omega
        · omega
        · exact ⟨by omega, h.2.2⟩
      have hcd : c = d := by
        have := congrArg Char.ofNat key.1
        simpa using this
      rw [hcd, utf16Units_inj cs ds key.2]

theorem jsUnits_inj {a b : String} (h : jsUnits a = jsUnits b) : a = b := by
  unfold jsUnits at h
  have := utf16Units_inj a.data b.data h
  exact String.ext this

theorem jsSort_perm {xs ys : List String} (h : xs.Perm ys) : jsSort xs = jsSort ys := by
  unfold jsSort
  haveI : IsTotal String (fun a b => unitsLt (jsUnits b) (jsUnits a) = false) :=
    ⟨fun a b => by
      cases hab : unitsLt (jsUnits b) (jsUnits a) with
      | false => exact Or.inl rfl
      | true => exact Or.inr (unitsLt_asymm _ _ hab)⟩
  haveI : IsTrans String (fun a b => unitsLt (jsUnits b) (jsUnits a) = false) :=
    ⟨fun a b c hab hbc => by
      cases hca : unitsLt (jsUnits c) (jsUnits a) with
      | false => rfl
      | true =>
        rcases unitsLt_trichotomy (jsUnits a) (jsUnits b) with h1 | h1 | h1
        · have := unitsLt_trans _ _ _ hca h1
          rw [this] at hbc
          cases hbc
        · rw [h1] at hca
          rw [hca] at hbc
          cases hbc
        · rw [h1] at hab
          cases hab⟩
  haveI : IsAntisymm String (fun a b => unitsLt (jsUnits b) (jsUnits a) = false) :=
    ⟨fun a b hab hba => by
      rcases unitsLt_trichotomy (jsUnits a) (jsUnits b) with h1 | h1 | h1
      · rw [h1] at hba; cases hba
      · exact jsUnits_inj h1
      · rw [h1] at hab; cases hab⟩
  exact List.eq_of_perm_of_sorted
    (((List.perm_insertionSort _ xs).trans h).trans (List.perm_insertionSort _ ys).symm)
    (List.sorted_insertionSort _ xs) (List.sorted_insertionSort _ ys)

/-- The default sort compares code units: U+1F600, whose first unit is 0xD83D, comes before
U+FF5E. -/
theorem jsSort_code_unit_order :
    jsSort ["b", "a", String.mk [Char.ofNat 0xFF5E], String.mk [Char.ofNat 0x1F600]] =
      ["a", "b", String.mk [Char.ofNat 0x1F600], String.mk [Char.ofNat 0xFF5E]] := by
  decide

theorem JSON.stringifyProperties_lookup (K : List String) (fs : List (String × Document))
    (P : String) :
    (JSON.stringifyProperties K fs).lookup P = (fs.lookup P).map (JSON.stringify K) := by
  induction fs with
  | nil => simp [JSON.stringifyProperties]
  | cons f rest ih =>
    obtain ⟨k, v⟩ := f
    simp only [JSON.stringifyProperties, List.lookup_cons]
    cases hk : P == k with
    | true => rfl
    | false => exact ih

theorem JSON.stringify_obj (K : List String) (fs : List (String × Document)) :
    JSON.stringify K (.obj fs) =
      "\x7b" ++ jsJoin "," (K.filterMap (fun P =>
        ((fs.lookup P).map (JSON.stringify K)).map (fun v => jsonQuote P ++ ":" ++ v))) ++
        "\x7d" := by
  rw [JSON.stringify]
  simp only [JSON.stringifyProperties_lookup]

theorem JSON.stringify_obj_congr (K : List String) (fs gs : List (String × Document))
    (h : ∀ P, (fs.lookup P).map (JSON.stringify K) = (gs.lookup P).map (JSON.stringify K)) :
    JSON.stringify K (.obj fs) = JSON.stringify K (.obj gs) := by
  rw [JSON.stringify_obj, JSON.stringify_obj]
  simp only [h]

mutual
theorem JSON.stringify_congr (K : List String) : ∀ (a b : Document),
    a.structurallyEqual b = true → JSON.stringify K a = JSON.stringify K b
  | .arr xs, .arr ys, h => by
      rw [JSON.stringify, JSON.stringify,
        JSON.stringifyElements_congr K xs ys (by simpa [Document.structurallyEqual] using h)]
  | .obj fs, .obj gs, h => by
      simp only [Document.structurallyEqual, Bool.and_eq_true, List.all_eq_true] at h
      apply JSON.stringify_obj_congr
      intro P
      cases hl : fs.lookup P with
      | none =>
        have hn : gs.lookup P = none := by
          cases hg : gs.lookup P with
          | none => rfl
          | some w =>
            have hmem := h.2 (P, w) (lookup_mem P w gs hg)
            have hP : P ∈ fs.map Prod.fst := by simpa using hmem
            exact absurd hP (lookup_none_not_mem fs P hl)
        rw [hn]
      | some v =>
        obtain ⟨w, hw, hvw⟩ := JSON.stringifyFields_congr K fs gs h.1 (P, v) (lookup_mem P v fs hl)
        rw [hw]
        simp only [Option.map_some']
        rw [hvw]
  | .null, .null, h | .null, .bool _, h | .null, .num _, h | .null, .str _, h
  | .null, .arr _, h | .null, .obj _, h
  | .bool _, .null, h | .bool _, .bool _, h | .bool _, .num _, h
  | .bool _, .str _, h | .bool _, .arr _, h | .bool _, .obj _, h
  | .num _, .null, h | .num _, .bool _, h | .num _, .num _, h
  | .num _, .str _, h | .num _, .arr _, h | .num _, .obj _, h
  | .str _, .null, h | .str _, .bool _, h | .str _, .num _, h
  | .str _, .str _, h | .str _, .arr _, h | .str _, .obj _, h
  | .arr _, .null, h | .arr _, .bool _, h | .arr _, .num _, h
  | .arr _, .str _, h | .arr _, .obj _, h
  | .obj _, .null, h | .obj _, .bool _, h | .obj _, .num _, h
  | .obj _, .str _, h | .obj _, .arr _, h => by
      rw [(Document.structurallyEqual_leaf _ _ (by simp) (by simp)).mp h]
theorem JSON.stringifyElements_congr (K : List String) : ∀ (xs ys : List Document),
    Document.structurallyEqualList xs ys = true →
    JSON.stringifyElements K xs = JSON.stringifyElements K ys
  | [], [], _ => rfl
  | [], _ :: _, h => by simp [Document.structurallyEqualList] at h
  | _ :: _, [], h => by simp [Document.structurallyEqualList] at h
  | x :: xs, y :: ys, h => by
      simp only [Document.structurallyEqualList, Bool.and_eq_true] at h
      rw [JSON.stringifyElements, JSON.stringifyElements, JSON.stringify_congr K x y h.1,
        JSON.stringifyElements_congr K xs ys h.2]
theorem JSON.stringifyFields_congr (K : List String) : ∀ (fs gs : List (String × Document)),
    Document.structurallyEqualFields fs gs = true →
    ∀ q ∈ fs, ∃ w, gs.lookup q.1 = some w ∧ JSON.stringify K q.2 = JSON.stringify K w
  | [], _, _ => by intro q hq; simp at hq
  | (k, v) :: rest, gs, h => by
      simp only [Document.structurallyEqualFields, Bool.and_eq_true] at h
      intro q hq
      simp only [List.mem_cons] at hq
      rcases hq with hq | hq
      · subst hq
        cases hl : gs.lookup k with
        | none => rw [hl] at h; simp at h
        | some w =>
          rw [hl] at h
          exact ⟨w, rfl, JSON.stringify_congr K v w h.1⟩
      · exact JSON.stringifyFields_congr K rest gs h.2 q hq
end

theorem lookup_perm {fs gs : List (String × Document)} (h : fs.Perm gs)
    (hn : (fs.map Prod.fst).Nodup) (P : String) : fs.lookup P = gs.lookup P := by
  induction h with
  | nil => rfl
  | cons x _ ih =>
    obtain ⟨k, v⟩ := x
    simp only [List.map_cons, List.nodup_cons] at hn
    simp only [List.lookup_cons]
    rw [ih hn.2]
  | swap x y l =>
    obtain ⟨k, v⟩ := x
    obtain ⟨k', v'⟩ := y
    simp only [List.map_cons, List.nodup_cons, List.mem_cons, not_or] at hn
    simp only [List.lookup_cons]
    cases h1 : P == k' with
    | false => rfl
    | true =>
      cases h2 : P == k with
      | false => rfl
      | true =>
        have e1 : P = k' := by simpa using h1
        have e2 : P = k := by simpa using h2
        exact absurd (e1.symm.trans e2) hn.1.1
  | trans h1 _ ih1 ih2 =>
    rw [ih1 hn]
    exact ih2 ((h1.map Prod.fst).nodup_iff.mp hn)

theorem canonicalSerialization_perm (fs gs : List (String × Document)) (hperm : fs.Perm gs)
    (hkeys : (fs.map Prod.fst).Nodup) :
    canonicalSerialization (.obj fs) = canonicalSerialization (.obj gs) := by
  unfold canonicalSerialization
  simp only [Object.keys]
  rw [jsSort_perm (hperm.map Prod.fst)]
  apply JSON.stringify_obj_congr
  intro P
  rw [lookup_perm hperm hkeys P]

/-- C25: two maps with the same keys and values that differ only in the insertion order of
their top-level keys have the same canonical serialization, and the `pre('validate')` hook gives
a version the same checksum for either. -/
theorem C25_checksum_independent_of_key_order (w : World) (fs gs : List (String × Document))
    (hperm : fs.Perm gs) (hkeys : (fs.map Prod.fst).Nodup) :
    canonicalSerialization (.obj fs) = canonicalSerialization (.obj gs) ∧
    ∀ doc : ConfigVersion,
      (ConfigVersion.preValidate w { doc with data := .obj fs }).checksum =
        (ConfigVersion.preValidate w { doc with data := .obj gs }).checksum := by
  have h := canonicalSerialization_perm fs gs hperm hkeys
  refine ⟨h, fun doc => ?_⟩
  simp only [ConfigVersion.preValidate, Document.truthy, ↓reduceIte, h]

/-- C25, witness: the map `{ b: 2, a: { x: 1 } }` and the same map with `a` inserted first. -/
theorem C25_checksum_independent_of_key_order_witness :
    canonicalSerialization (.obj [("b", .num 2), ("a", .obj [("x", .num 1)])]) =
      canonicalSerialization (.obj [("a", .obj [("x", .num 1)]), ("b", .num 2)]) ∧
    ∀ doc : ConfigVersion,
      (ConfigVersion.preValidate World.sample
          { doc with data := .obj [("b", .num 2), ("a", .obj [("x", .num 1)])] }).checksum =
        (ConfigVersion.preValidate World.sample
          { doc with data := .obj [("a", .obj [("x", .num 1)]), ("b", .num 2)] }).checksum :=
  C25_checksum_independent_of_key_order World.sample
    [("b", .num 2), ("a", .obj [("x", .num 1)])] [("a", .obj [("x", .num 1)]), ("b", .num 2)]
    (List.Perm.swap _ _ _) (by decide)

theorem Document.keysDistinctFields_nodup (fs : List (String × Document))
    (h : Document.keysDistinctFields fs = true) : (fs.map Prod.fst).Nodup := by
  induction fs with
  | nil => simp
  | cons f rest ih =>
    obtain ⟨k, v⟩ := f
    simp only [Document.keysDistinctFields, Bool.and_eq_true, Bool.not_eq_true'] at h
    simp only [List.map_cons, List.nodup_cons]
    refine ⟨?_, ih h.2⟩
    intro hk
    have : (List.map Prod.fst rest).contains k = true := by simpa using hk
    rw [this] at h
    exact absurd h.1.1 (by simp)

theorem Document.structurallyEqualList_length : ∀ (xs ys : List Document),
    Document.structurallyEqualList xs ys = true → xs.length = ys.length
  | [], [], _ => rfl
  | [], _ :: _, h => by simp [Document.structurallyEqualList] at h
  | _ :: _, [], h => by simp [Document.structurallyEqualList] at h
  | _ :: xs, _ :: ys, h => by
      simp only [Document.structurallyEqualList, Bool.and_eq_true] at h
      simp [Document.structurallyEqualList_length xs ys h.2]

theorem Object.keys_perm (a b : Document) (ha : a.keysDistinct = true)
    (hb : b.keysDistinct = true) (h : a.structurallyEqual b = true) :
    (Object.keys a).Perm (Object.keys b) := by
  cases a <;> cases b <;>
    first
    | (simp [Document.structurallyEqual] at h; done)
    | (simp only [Object.keys]; exact List.Perm.refl _)
    | skip
  · rename_i s t
    have : s = t := by simpa [Document.structurallyEqual] using h
    rw [this]
  · rename_i xs ys
    simp only [Document.structurallyEqual] at h
    simp only [Object.keys, Document.structurallyEqualList_length xs ys h]
    exact List.Perm.refl _
  · rename_i fs gs
    simp only [Document.structurallyEqual, Bool.and_eq_true, List.all_eq_true] at h
    simp only [Document.keysDistinct] at ha hb
    simp only [Object.keys]
    rw [List.perm_ext_iff_of_nodup (Document.keysDistinctFields_nodup fs ha)
      (Document.keysDistinctFields_nodup gs hb)]
    intro P
    constructor
    · intro hP
      simp only [List.mem_map] at hP
      obtain ⟨q, hq, rfl⟩ := hP
      obtain ⟨w, hw, _⟩ := JSON.stringifyFields_congr [] fs gs h.1 q hq
      exact List.mem_map.mpr ⟨(q.1, w), lookup_mem q.1 w gs hw, rfl⟩
    · intro hP
      simp only [List.mem_map] at hP
      obtain ⟨q, hq, rfl⟩ := hP
      simpa using h.2 q hq

theorem canonicalSerialization_congr (a b : Document) (ha : a.keysDistinct = true)
    (hb : b.keysDistinct = true) (h : a.structurallyEqual b = true) :
    canonicalSerialization a = canonicalSerialization b := by
  unfold canonicalSerialization
  rw [jsSort_perm (Object.keys_perm a b ha hb h), JSON.stringify_congr _ a b h]

/-- C26 (as stated, refuted): no two documents that are identical except for the insertion
order of map keys, at whatever depth, have different canonical serializations. -/
theorem C26_no_pair_differs_by_nested_key_order :
    ¬ ∃ a b : Document, a.keysDistinct = true ∧ b.keysDistinct = true ∧
      a.structurallyEqual b = true ∧ canonicalSerialization a ≠ canonicalSerialization b := by
  rintro ⟨a, b, ha, hb, h, hne⟩
  exact hne (canonicalSerialization_congr a b ha hb h)

/-- C26 (amended): the sorted list of top-level keys is the property list of every map of the
document, at every depth, so the insertion order of keys never shows: two documents that are
identical except for the insertion order of map keys, at the top level or in a nested map, have
the same canonical serialization and receive the same checksum. -/
theorem C26_key_order_never_shows (w : World) (a b : Document) (ha : a.keysDistinct = true)
    (hb : b.keysDistinct = true) (h : a.structurallyEqual b = true) :
    canonicalSerialization a = canonicalSerialization b ∧
    ∀ doc : ConfigVersion,
      (ConfigVersion.preValidate w { doc with data := a }).checksum =
        (ConfigVersion.preValidate w { doc with data := b }).checksum := by
  have hs := canonicalSerialization_congr a b ha hb h
  refine ⟨hs, fun doc => ?_⟩
  have ht : a.truthy = b.truthy := by
    cases a <;> cases b <;>
      first
      | (simp [Document.structurallyEqual] at h; done)
      | rfl
      | skip
    all_goals (simp only [Document.structurallyEqual, beq_iff_eq] at h; rw [h])
  simp only [ConfigVersion.preValidate, ht, hs]
  split <;> rfl

/-- C26, witness: the nested map under `x` lists its keys as `x, y` in one document and as
`y, x` in the other. -/
theorem C26_key_order_never_shows_witness :
    canonicalSerialization
        (.obj [("x", .obj [("x", .num 1), ("y", .num 2)]), ("y", .num 0)]) =
      canonicalSerialization
        (.obj [("x", .obj [("y", .num 2), ("x", .num 1)]), ("y", .num 0)]) ∧
    ∀ doc : ConfigVersion,
      (ConfigVersion.preValidate World.sample { doc with
          data := .obj [("x", .obj [("x", .num 1), ("y", .num 2)]), ("y", .num 0)] }).checksum =
        (ConfigVersion.preValidate World.sample { doc with
          data := .obj [("x", .obj [("y", .num 2), ("x", .num 1)]), ("y", .num 0)] }).checksum :=
  C26_key_order_never_shows World.sample
    (.obj [("x", .obj [("x", .num 1), ("y", .num 2)]), ("y", .num 0)])
    (.obj [("x", .obj [("y", .num 2), ("x", .num 1)]), ("y", .num 0)])
    (by decide) (by decide) (by decide)

/-- C27: the maps `{ a: { b: 1 } }` and `{ a: { b: 2 } }` differ in a nested value and are not
equal up to key order, yet both have the canonical serialization `{"a":{}}` and so the same
checksum: the nested key `b` is not in the property list `["a"]`. -/
theorem C27_nested_value_not_fingerprinted :
    canonicalSerialization (.obj [("a", .obj [("b", .num 1)])]) = "\x7b\"a\":\x7b\x7d\x7d" ∧
    canonicalSerialization (.obj [("a", .obj [("b", .num 2)])]) = "\x7b\"a\":\x7b\x7d\x7d" ∧
    Document.structurallyEqual (.obj [("a", .obj [("b", .num 1)])])
      (.obj [("a", .obj [("b", .num 2)])]) = false ∧
    ∀ (w : World) (doc : ConfigVersion),
      (ConfigVersion.preValidate w { doc with data := .obj [("a", .obj [("b", .num 1)])] }).checksum =
        (ConfigVersion.preValidate w { doc with data := .obj [("a", .obj [("b", .num 2)])] }).checksum := by
  refine ⟨by decide, by decide, by decide, fun w doc => ?_⟩
  have h : canonicalSerialization (.obj [("a", .obj [("b", .num 1)])]) =
      canonicalSerialization (.obj [("a", .obj [("b", .num 2)])]) := by decide
  simp only [ConfigVersion.preValidate, Document.truthy, ↓reduceIte, h]

/-! ## The audit sink -/

theorem AuditService.log_unwritable (w : World) (s : Store) (i : AuditInput)
    (h : w.auditWritable = false) : AuditService.log w s i = (none, s) := by
  unfold AuditService.log
  simp [h]

theorem VersioningService.createVersion_audit (w : World) (s : Store) (a : CreateVersionArgs)
    (b : Bool) :
    (VersioningService.createVersion { w with auditWritable := b } s a).1 =
        (VersioningService.createVersion w s a).1 ∧
      (VersioningService.createVersion { w with auditWritable := b } s a).2.versions =
        (VersioningService.createVersion w s a).2.versions ∧
      (VersioningService.createVersion { w with auditWritable := b } s a).2.configs =
        (VersioningService.createVersion w s a).2.configs := by
  unfold VersioningService.createVersion
  cases Config.findOne s a.configId a.tenantId with
  | none => simp
  | some config =>
    dsimp only
    by_cases harch : config.isArchived = true
    · simp [harch]
    · simp only [harch, Bool.false_eq_true, ↓reduceIte]
      have hsave : ∀ d, ConfigVersion.save { w with auditWritable := b } s d =
          ConfigVersion.save w s d := fun _ => rfl
      have hnew : ∀ i, ConfigVersion.new { w with auditWritable := b } i =
          ConfigVersion.new w i := fun _ => rfl
      simp only [hsave, hnew]
      split
      · simp
      · simp [(AuditService.log_frame _ _ _).1, (AuditService.log_frame _ _ _).2]

theorem VersioningService.createBranch_audit (w : World) (s : Store) (a : CreateBranchArgs)
    (b : Bool) :
    (VersioningService.createBranch { w with auditWritable := b } s a).1 =
        (VersioningService.createBranch w s a).1 ∧
      (VersioningService.createBranch { w with auditWritable := b } s a).2.versions =
        (VersioningService.createBranch w s a).2.versions ∧
      (VersioningService.createBranch { w with auditWritable := b } s a).2.configs =
        (VersioningService.createBranch w s a).2.configs := by
  unfold VersioningService.createBranch
  cases Config.findOne s a.configId a.tenantId with
  | none => simp
  | some config =>
    dsimp only
    cases ConfigVersion.findOneByBranch s a.configId a.tenantId a.newBranch with
    | some _ => simp
    | none =>
      dsimp only
      have hsave : ∀ d, ConfigVersion.save { w with auditWritable := b } s d =
          ConfigVersion.save w s d := fun _ => rfl
      have hnew : ∀ i, ConfigVersion.new { w with auditWritable := b } i =
          ConfigVersion.new w i := fun _ => rfl
      simp only [hsave, hnew]
      split
      · simp
      · simp [(AuditService.log_frame _ _ _).1, (AuditService.log_frame _ _ _).2]

theorem VersioningService.deployVersion_audit (w : World) (s : Store) (a : DeployArgs)
    (b : Bool) :
    (VersioningService.deployVersion { w with auditWritable := b } s a).1 =
        (VersioningService.deployVersion w s a).1 ∧
      (VersioningService.deployVersion { w with auditWritable := b } s a).2.versions =
        (VersioningService.deployVersion w s a).2.versions ∧
      (VersioningService.deployVersion { w with auditWritable := b } s a).2.configs =
        (VersioningService.deployVersion w s a).2.configs := by
  unfold VersioningService.deployVersion
  cases Config.findOne s a.configId a.tenantId with
  | none => simp
  | some config =>
    dsimp only
    by_cases harch : config.isArchived = true
    · simp [harch]
    · simp only [harch, Bool.false_eq_true, ↓reduceIte]
      by_cases henv : (!config.environments.contains a.environment) = true
      · simp only [henv, ↓reduceIte, and_self]
      · simp only [henv, Bool.false_eq_true, ↓reduceIte]
        cases ConfigVersion.findOneByVersion s a.configId a.tenantId a.version with
        | none => simp
        | some versionDoc =>
          have hsave : ∀ c, Config.save { w with auditWritable := b } s c = Config.save w s c :=
            fun _ => rfl
          simp only [hsave, (AuditService.log_frame _ _ _).1, (AuditService.log_frame _ _ _).2,
            and_self]

theorem VersioningService.rollback_audit (w : World) (s : Store) (a : RollbackArgs)
    (b : Bool) :
    (VersioningService.rollback { w with auditWritable := b } s a).1 =
        (VersioningService.rollback w s a).1 ∧
      (VersioningService.rollback { w with auditWritable := b } s a).2.versions =
        (VersioningService.rollback w s a).2.versions ∧
      (VersioningService.rollback { w with auditWritable := b } s a).2.configs =
        (VersioningService.rollback w s a).2.configs := by
  unfold VersioningService.rollback
  cases Config.findOne s a.configId a.tenantId with
  | none => simp
  | some config =>
    dsimp only
    cases ConfigVersion.findOneByVersion s a.configId a.tenantId a.targetVersion with
    | none => simp
    | some versionDoc =>
      have hsave : ∀ c, Config.save { w with auditWritable := b } s c = Config.save w s c :=
        fun _ => rfl
      simp only [hsave, (AuditService.log_frame _ _ _).1, (AuditService.log_frame _ _ _).2,
        and_self]

/-- C28: a failing audit sink never fails the primary operation.  `AuditService.log` answers
`null` and leaves the store as it was when the entry cannot be written, and for `createVersion`,
`createBranch`, `deployVersion` and `rollback` the returned result, the version ledger and the
configs (with their active versions) are the same whatever the audit sink does. -/
theorem C28_audit_failure_never_fails_operation (w : World) (s : Store) (b : Bool) :
    (∀ i, AuditService.log { w with auditWritable := false } s i = (none, s)) ∧
    (∀ a, (VersioningService.createVersion { w with auditWritable := b } s a).1 =
          (VersioningService.createVersion w s a).1 ∧
        (VersioningService.createVersion { w with auditWritable := b } s a).2.versions =
          (VersioningService.createVersion w s a).2.versions ∧
        (VersioningService.createVersion { w with auditWritable := b } s a).2.configs =
          (VersioningService.createVersion w s a).2.configs) ∧
    (∀ a, (VersioningService.createBranch { w with auditWritable := b } s a).1 =
          (VersioningService.createBranch w s a).1 ∧
        (VersioningService.createBranch { w with auditWritable := b } s a).2.versions =
          (VersioningService.createBranch w s a).2.versions ∧
        (VersioningService.createBranch { w with auditWritable := b } s a).2.configs =
          (VersioningService.createBranch w s a).2.configs) ∧
    (∀ a, (VersioningService.deployVersion { w with auditWritable := b } s a).1 =
          (VersioningService.deployVersion w s a).1 ∧
        (VersioningService.deployVersion { w with auditWritable := b } s a).2.versions =
          (VersioningService.deployVersion w s a).2.versions ∧
        (VersioningService.deployVersion { w with auditWritable := b } s a).2.configs =
          (VersioningService.deployVersion w s a).2.configs) ∧
    (∀ a, (VersioningService.rollback { w with auditWritable := b } s a).1 =
          (VersioningService.rollback w s a).1 ∧
        (VersioningService.rollback { w with auditWritable := b } s a).2.versions =
          (VersioningService.rollback w s a).2.versions ∧
        (VersioningService.rollback { w with auditWritable := b } s a).2.configs =
          (VersioningService.rollback w s a).2.configs) :=
  ⟨fun i => AuditService.log_unwritable _ s i rfl,
   fun a => VersioningService.createVersion_audit w s a b,
   fun a => VersioningService.createBranch_audit w s a b,
   fun a => VersioningService.deployVersion_audit w s a b,
   fun a => VersioningService.rollback_audit w s a b⟩

/-! ## Calls in flight at once -/

theorem VersioningService.createVersion_steps (w : World) (s : Store) (a : CreateVersionArgs) :
    VersioningService.createVersion w s a =
      match VersioningService.createVersionRead w s a with
      | .error e => (.error e, s)
      | .ok built => VersioningService.createVersionWrite w s a built := by
  unfold VersioningService.createVersion VersioningService.createVersionRead
    VersioningService.createVersionWrite
  cases Config.findOne s a.configId a.tenantId with
  | none => rfl
  | some config =>
    dsimp only
    by_cases harch : config.isArchived = true
    · simp only [harch, ↓reduceIte]
    · simp only [harch, Bool.false_eq_true, ↓reduceIte]
      rfl

theorem VersioningService.createBranch_steps (w : World) (s : Store) (a : CreateBranchArgs) :
    VersioningService.createBranch w s a =
      match VersioningService.createBranchRead w s a with
      | .error e => (.error e, s)
      | .ok built => VersioningService.createBranchWrite w s a built := by
  unfold VersioningService.createBranch VersioningService.createBranchRead
    VersioningService.createBranchWrite
  cases Config.findOne s a.configId a.tenantId with
  | none => rfl
  | some config =>
    dsimp only
    cases ConfigVersion.findOneByBranch s a.configId a.tenantId a.newBranch with
    | some _ => rfl
    | none => rfl

/-- A call that takes its two steps with nothing in between is the call of the service. -/
theorem LedgerCall.step_step (c : LedgerCall) (s : Store) :
    c.step (c.step s .ready).2 (c.step s .ready).1 = (.done (c.run s).1, (c.run s).2) := by
  cases c with
  | createVersion w a =>
    simp only [LedgerCall.run, VersioningService.createVersion_steps, LedgerCall.step,
      LedgerCall.read, LedgerCall.write]
    cases VersioningService.createVersionRead w s a <;> rfl
  | createBranch w a =>
    simp only [LedgerCall.run, VersioningService.createBranch_steps, LedgerCall.step,
      LedgerCall.read, LedgerCall.write]
    cases VersioningService.createBranchRead w s a <;> rfl

theorem ConfigVersion.save_fresh {w : World} {s s1 : Store} {doc saved : ConfigVersion}
    (h : ConfigVersion.save w s doc = .ok (saved, s1)) :
    ∀ u ∈ s.versions, ¬ (u.configId = saved.configId ∧ u.version = saved.version) := by
  unfold ConfigVersion.save at h
  simp only at h
  split at h
  · cases h
  · split at h
    · cases h
    · rename_i _ hany
      simp only [Except.ok.injEq, Prod.mk.injEq] at h
      obtain ⟨h1, _⟩ := h
      subst h1
      intro u hu hdup
      apply hany
      rw [List.any_eq_true]
      exact ⟨u, hu, by simp [hdup.1, hdup.2]⟩

theorem LedgerCall.read_ok {c : LedgerCall} {s : Store} {built : ConfigVersion}
    (h : c.read s = .ok built) :
    built.configId = c.configId ∧
      built.version = ConfigVersion.getNextVersion s c.configId := by
  cases c with
  | createVersion w a =>
    simp only [LedgerCall.read, VersioningService.createVersionRead] at h
    split at h
    · cases h
    · split at h
      · cases h
      · simp only [Except.ok.injEq] at h
        subst h
        exact ⟨rfl, rfl⟩
  | createBranch w a =>
    simp only [LedgerCall.read, VersioningService.createBranchRead] at h
    split at h
    · cases h
    · split at h
      · cases h
      · simp only [Except.ok.injEq] at h
        subst h
        exact ⟨rfl, rfl⟩

theorem LedgerCall.write_cases (c : LedgerCall) (s : Store) (built : ConfigVersion) :
    (∃ e, (c.write s built).1 = .error e ∧ (c.write s built).2 = s) ∨
    (∃ v, (c.write s built).1 = .ok v ∧ (c.write s built).2.versions = s.versions ++ [v] ∧
      v.configId = built.configId ∧ v.version = built.version ∧
      ∀ u ∈ s.versions, ¬ (u.configId = v.configId ∧ u.version = v.version)) := by
  have key : ∀ (w : World) (i : ConfigVersion → AuditInput),
      (∃ e, (match ConfigVersion.save w s built with
          | .error e => ((.error e : Except ServiceError ConfigVersion), s)
          | .ok (version, s1) => (.ok version, (AuditService.log w s1 (i version)).2)).1 =
            .error e ∧
        (match ConfigVersion.save w s built with
          | .error e => ((.error e : Except ServiceError ConfigVersion), s)
          | .ok (version, s1) => (.ok version, (AuditService.log w s1 (i version)).2)).2 = s) ∨
      (∃ v, (match ConfigVersion.save w s built with
          | .error e => ((.error e : Except ServiceError ConfigVersion), s)
          | .ok (version, s1) => (.ok version, (AuditService.log w s1 (i version)).2)).1 =
            .ok v ∧
        (match ConfigVersion.save w s built with
          | .error e => ((.error e : Except ServiceError ConfigVersion), s)
          | .ok (version, s1) =>
              (.ok version, (AuditService.log w s1 (i version)).2)).2.versions =
            s.versions ++ [v] ∧
        v.configId = built.configId ∧ v.version = built.version ∧
        ∀ u ∈ s.versions, ¬ (u.configId = v.configId ∧ u.version = v.version)) := by
    intro w i
    cases hsave : ConfigVersion.save w s built with
    | error e => exact Or.inl ⟨e, rfl, rfl⟩
    | ok r =>
      obtain ⟨v, s1⟩ := r
      obtain ⟨h1, h2, _⟩ := ConfigVersion.save_ok hsave
      have hf := ConfigVersion.preValidate_fields w built
      refine Or.inr ⟨v, rfl, ?_, ?_, ?_, ConfigVersion.save_fresh hsave⟩
      · simp only [(AuditService.log_frame _ _ _).1, h2]
      · rw [h1]; exact hf.2.1
      · rw [h1]; exact hf.1
  cases c with
  | createVersion w a => exact key w _
  | createBranch w a => exact key w _

theorem LedgerCall.step_spec (c : LedgerCall) (s : Store) (p : CallState)
    (hs : ledgerUnique s) (hp : ∀ v, p = .done (.ok v) → v ∈ s.versions) :
    ledgerUnique (c.step s p).2 ∧
    (∀ u ∈ s.versions, u ∈ (c.step s p).2.versions) ∧
    (∀ v, (c.step s p).1 = .done (.ok v) → v ∈ (c.step s p).2.versions) ∧
    (∀ v, (c.step s p).1 = .done (.ok v) →
      p = .done (.ok v) ∨
        ∀ u ∈ s.versions, ¬ (u.configId = v.configId ∧ u.version = v.version)) := by
  cases p with
  | ready =>
    simp only [LedgerCall.step]
    cases c.read s with
    | error e => exact ⟨hs, fun u hu => hu, by simp, by simp⟩
    | ok built => exact ⟨hs, fun u hu => hu, by simp, by simp⟩
  | done outcome =>
    simp only [LedgerCall.step]
    exact ⟨hs, fun u hu => hu, hp, fun v hv => Or.inl hv⟩
  | inserting built =>
    simp only [LedgerCall.step]
    rcases LedgerCall.write_cases c s built with ⟨e, h1, h2⟩ | ⟨v, h1, h2, _, _, hfresh⟩
    · rw [h1, h2]
      exact ⟨hs, fun u hu => hu, by simp, by simp⟩
    · rw [h1]
      refine ⟨?_, ?_, ?_, ?_⟩
      · unfold ledgerUnique at hs ⊢
        rw [h2, List.map_append, List.nodup_append]
        refine ⟨hs, by simp, ?_⟩
        intro a ha hb
        simp only [List.map_cons, List.map_nil, List.mem_singleton] at hb
        simp only [List.mem_map] at ha
        obtain ⟨u, hu, hua⟩ := ha
        rw [hb] at hua
        simp only [Prod.mk.injEq] at hua
        exact hfresh u hu hua
      · intro u hu
        rw [h2]
        exact List.mem_append_left _ hu
      · intro v' hv'
        simp only [CallState.done.injEq, Except.ok.injEq] at hv'
        rw [h2, ← hv']
        simp
      · intro v' hv'
        simp only [CallState.done.injEq, Except.ok.injEq] at hv'
        rw [← hv']
        exact Or.inr hfresh

theorem runInterleaved_invariant (c1 c2 : LedgerCall) : ∀ (sched : List Bool) (s : Store)
    (p1 p2 : CallState), ledgerUnique s →
    (∀ v, p1 = .done (.ok v) → v ∈ s.versions) →
    (∀ v, p2 = .done (.ok v) → v ∈ s.versions) →
    (∀ v1 v2, p1 = .done (.ok v1) → p2 = .done (.ok v2) →
      ¬ (v1.configId = v2.configId ∧ v1.version = v2.version)) →
    ledgerUnique (runInterleaved c1 c2 s p1 p2 sched).2.2 ∧
    ∀ v1 v2, (runInterleaved c1 c2 s p1 p2 sched).1 = .done (.ok v1) →
      (runInterleaved c1 c2 s p1 p2 sched).2.1 = .done (.ok v2) →
      ¬ (v1.configId = v2.configId ∧ v1.version = v2.version)
  | [], s, p1, p2, hs, _, _, h12 => ⟨hs, h12⟩
  | false :: rest, s, p1, p2, hs, h1, h2, h12 => by
      rw [runInterleaved]
      obtain ⟨a1, a2, a3, a4⟩ := LedgerCall.step_spec c1 s p1 hs h1
      refine runInterleaved_invariant c1 c2 rest _ _ _ a1 a3 (fun v hv => a2 v (h2 v hv)) ?_
      intro v1 v2 hv1 hv2
      rcases a4 v1 hv1 with hold | hfresh
      · exact h12 v1 v2 hold hv2
      · intro hsame
        exact hfresh v2 (h2 v2 hv2) ⟨hsame.1.symm, hsame.2.symm⟩
  | true :: rest, s, p1, p2, hs, h1, h2, h12 => by
      rw [runInterleaved]
      obtain ⟨a1, a2, a3, a4⟩ := LedgerCall.step_spec c2 s p2 hs h2
      refine runInterleaved_invariant c1 c2 rest _ _ _ a1 (fun v hv => a2 v (h1 v hv)) a3 ?_
      intro v1 v2 hv1 hv2
      rcases a4 v2 hv2 with hold | hfresh
      · exact h12 v1 v2 hv1 hold
      · exact hfresh v1 (h1 v1 hv1)

theorem LedgerCall.write_ok_fields {c : LedgerCall} {s : Store} {built v : ConfigVersion}
    (h : (c.write s built).1 = .ok v) :
    v.configId = built.configId ∧ v.version = built.version := by
  rcases LedgerCall.write_cases c s built with ⟨e, h1, _⟩ | ⟨v', h1, _, h3, h4, _⟩
  · rw [h1] at h; cases h
  · rw [h1] at h
    cases h
    exact ⟨h3, h4⟩

theorem LedgerCall.step_ready_ok {c : LedgerCall} {s : Store} {built : ConfigVersion}
    (h : c.read s = .ok built) : c.step s .ready = (.inserting built, s) := by
  simp only [LedgerCall.step, h]

theorem LedgerCall.step_ready_error {c : LedgerCall} {s : Store} {e : ServiceError}
    (h : c.read s = .error e) : c.step s .ready = (.done (.error e), s) := by
  simp only [LedgerCall.step, h]

theorem LedgerCall.step_inserting (c : LedgerCall) (s : Store) (built : ConfigVersion) :
    c.step s (.inserting built) = (.done (c.write s built).1, (c.write s built).2) := rfl

theorem LedgerCall.step_done (c : LedgerCall) (s : Store)
    (outcome : Except ServiceError ConfigVersion) :
    c.step s (.done outcome) = (.done outcome, s) := rfl

/-- When both calls read before either inserts, a call that completes returns the number that
was next in the ledger both calls read. -/
theorem runInterleaved_racing (c1 c2 : LedgerCall) (s : Store) (sched : List Bool)
    (hsched : sched ∈ racingSchedules) :
    (∀ v1, (runInterleaved c1 c2 s .ready .ready sched).1 = .done (.ok v1) →
      v1.configId = c1.configId ∧ v1.version = ConfigVersion.getNextVersion s c1.configId) ∧
    (∀ v2, (runInterleaved c1 c2 s .ready .ready sched).2.1 = .done (.ok v2) →
      v2.configId = c2.configId ∧ v2.version = ConfigVersion.getNextVersion s c2.configId) := by
  have key1 : ∀ (s' : Store) (b v : ConfigVersion), c1.read s = .ok b →
      (c1.write s' b).1 = .ok v →
      v.configId = c1.configId ∧ v.version = ConfigVersion.getNextVersion s c1.configId := by
    intro s' b v hr hv
    have hw := LedgerCall.write_ok_fields hv
    have hr := LedgerCall.read_ok hr
    exact ⟨hw.1.trans hr.1, hw.2.trans hr.2⟩
  have key2 : ∀ (s' : Store) (b v : ConfigVersion), c2.read s = .ok b →
      (c2.write s' b).1 = .ok v →
      v.configId = c2.configId ∧ v.version = ConfigVersion.getNextVersion s c2.configId := by
    intro s' b v hr hv
    have hw := LedgerCall.write_ok_fields hv
    have hr := LedgerCall.read_ok hr
    exact ⟨hw.1.trans hr.1, hw.2.trans hr.2⟩
  simp only [racingSchedules, List.mem_cons, List.mem_singleton, List.not_mem_nil,
    or_false] at hsched
  cases h1 : c1.read s with
  | error e1 =>
    cases h2 : c2.read s with
    | error e2 =>
      rcases hsched with rfl | rfl | rfl | rfl <;>
        simp [runInterleaved, LedgerCall.step_ready_error h1, LedgerCall.step_ready_error h2,
          LedgerCall.step_done]
    | ok b2 =>
      rcases hsched with rfl | rfl | rfl | rfl <;>
        simp only [runInterleaved, LedgerCall.step_ready_error h1, LedgerCall.step_ready_ok h2,
          LedgerCall.step_done, LedgerCall.step_inserting] <;>
        exact ⟨by simp, fun v hv => key2 _ b2 v h2 (by simpa using hv)⟩
  | ok b1 =>
    cases h2 : c2.read s with
    | error e2 =>
      rcases hsched with rfl | rfl | rfl | rfl <;>
        simp only [runInterleaved, LedgerCall.step_ready_ok h1, LedgerCall.step_ready_error h2,
          LedgerCall.step_done, LedgerCall.step_inserting] <;>
        exact ⟨fun v hv => key1 _ b1 v h1 (by simpa using hv), by simp⟩
    | ok b2 =>
      rcases hsched with rfl | rfl | rfl | rfl <;>
        simp only [runInterleaved, LedgerCall.step_ready_ok h1, LedgerCall.step_ready_ok h2,
          LedgerCall.step_done, LedgerCall.step_inserting] <;>
        exact ⟨fun v hv => key1 _ b1 v h1 (by simpa using hv),
          fun v hv => key2 _ b2 v h2 (by simpa using hv)⟩

/-- C29 (as stated, refuted): the first two calls of the test suite, in flight at once on the
sample config with an empty ledger.  When both read before either inserts, both are allocated
number 1; the first insert succeeds and the second is rejected by the unique index with code
11000, which the error handler answers with HTTP 409: the second call does not complete. -/
theorem C29_racing_insert_rejected :
    (LedgerCall.sampleFirst.read Store.sample).toOption.map (fun v => v.version) = some 1 ∧
    (LedgerCall.sampleSecond.read Store.sample).toOption.map (fun v => v.version) = some 1 ∧
    (runInterleaved LedgerCall.sampleFirst LedgerCall.sampleSecond Store.sample .ready .ready
        [false, true, false, true]).1 = .done (.ok ConfigVersion.sampleFirst) ∧
    (runInterleaved LedgerCall.sampleFirst LedgerCall.sampleSecond Store.sample .ready .ready
        [false, true, false, true]).2.1 =
      .done (.error { name := "MongoServerError",
                      message := "E11000 duplicate key error collection",
                      code := some 11000 }) ∧
    (errorHandler { name := "MongoServerError",
                    message := "E11000 duplicate key error collection",
                    code := some 11000 }).status = 409 := by
  decide

/-- C29 (amended): two `createVersion` / `createBranch` calls against the same configId, in
flight at once on a ledger in which no number occurs twice.  Under every interleaving of their
read and insert steps the ledger never holds a number twice, and if both calls complete they
return distinct version numbers.  When both calls read before either inserts, they do not both
complete: both are allocated the same number and the later insert is rejected.  When one call
takes both its steps before the other starts, the outcomes are those of the two calls made one
after the other. -/
theorem C29_interleaved_calls (c1 c2 : LedgerCall) (s : Store) (hs : ledgerUnique s)
    (hsame : c1.configId = c2.configId) :
    (∀ sched : List Bool,
      ledgerUnique (runInterleaved c1 c2 s .ready .ready sched).2.2 ∧
      ∀ v1 v2, (runInterleaved c1 c2 s .ready .ready sched).1 = .done (.ok v1) →
        (runInterleaved c1 c2 s .ready .ready sched).2.1 = .done (.ok v2) →
        v1.configId = v2.configId → v1.version ≠ v2.version) ∧
    (∀ sched ∈ racingSchedules, ∀ v1 v2,
      ¬ ((runInterleaved c1 c2 s .ready .ready sched).1 = .done (.ok v1) ∧
        (runInterleaved c1 c2 s .ready .ready sched).2.1 = .done (.ok v2))) ∧
    runInterleaved c1 c2 s .ready .ready [false, false, true, true] =
      (.done (c1.run s).1, .done (c2.run (c1.run s).2).1, (c2.run (c1.run s).2).2) ∧
    runInterleaved c1 c2 s .ready .ready [true, true, false, false] =
      (.done (c1.run (c2.run s).2).1, .done (c2.run s).1, (c1.run (c2.run s).2).2) := by
  have hinv : ∀ sched : List Bool,
      ledgerUnique (runInterleaved c1 c2 s .ready .ready sched).2.2 ∧
      ∀ v1 v2, (runInterleaved c1 c2 s .ready .ready sched).1 = .done (.ok v1) →
        (runInterleaved c1 c2 s .ready .ready sched).2.1 = .done (.ok v2) →
        ¬ (v1.configId = v2.configId ∧ v1.version = v2.version) := fun sched =>
    runInterleaved_invariant c1 c2 sched s .ready .ready hs (by simp) (by simp) (by simp)
  refine ⟨fun sched => ⟨(hinv sched).1, fun v1 v2 h1 h2 hc hv =>
    (hinv sched).2 v1 v2 h1 h2 ⟨hc, hv⟩⟩, ?_, ?_, ?_⟩
  · rintro sched hsched v1 v2 ⟨h1, h2⟩
    obtain ⟨r1, r2⟩ := runInterleaved_racing c1 c2 s sched hsched
    obtain ⟨a1, a2⟩ := r1 v1 h1
    obtain ⟨b1, b2⟩ := r2 v2 h2
    exact (hinv sched).2 v1 v2 h1 h2
      ⟨a1.trans (hsame.trans b1.symm), by rw [a2, b2, hsame]⟩
  · simp only [runInterleaved, LedgerCall.step_step]
  · simp only [runInterleaved, LedgerCall.step_step]

/-- C29, witness: the first two calls of the test suite in flight at once on the sample
config. -/
theorem C29_interleaved_calls_witness :
    ledgerUnique Store.sample ∧
    LedgerCall.sampleFirst.configId = LedgerCall.sampleSecond.configId ∧
    (∀ sched : List Bool,
      ledgerUnique (runInterleaved LedgerCall.sampleFirst LedgerCall.sampleSecond Store.sample
        .ready .ready sched).2.2 ∧
      ∀ v1 v2, (runInterleaved LedgerCall.sampleFirst LedgerCall.sampleSecond Store.sample
          .ready .ready sched).1 = .done (.ok v1) →
        (runInterleaved LedgerCall.sampleFirst LedgerCall.sampleSecond Store.sample
          .ready .ready sched).2.1 = .done (.ok v2) →
        v1.configId = v2.configId → v1.version ≠ v2.version) ∧
    (∀ sched ∈ racingSchedules, ∀ v1 v2,
      ¬ ((runInterleaved LedgerCall.sampleFirst LedgerCall.sampleSecond Store.sample
            .ready .ready sched).1 = .done (.ok v1) ∧
        (runInterleaved LedgerCall.sampleFirst LedgerCall.sampleSecond Store.sample
            .ready .ready sched).2.1 = .done (.ok v2))) ∧
    runInterleaved LedgerCall.sampleFirst LedgerCall.sampleSecond Store.sample .ready .ready
        [false, false, true, true] =
      (.done (LedgerCall.sampleFirst.run Store.sample).1,
        .done (LedgerCall.sampleSecond.run (LedgerCall.sampleFirst.run Store.sample).2).1,
        (LedgerCall.sampleSecond.run (LedgerCall.sampleFirst.run Store.sample).2).2) ∧
    runInterleaved LedgerCall.sampleFirst LedgerCall.sampleSecond Store.sample .ready .ready
        [true, true, false, false] =
      (.done (LedgerCall.sampleFirst.run (LedgerCall.sampleSecond.run Store.sample).2).1,
        .done (LedgerCall.sampleSecond.run Store.sample).1,
        (LedgerCall.sampleFirst.run (LedgerCall.sampleSecond.run Store.sample).2).2) :=
  ⟨by decide, rfl,
   C29_interleaved_calls LedgerCall.sampleFirst LedgerCall.sampleSecond Store.sample
      (by decide) rfl⟩

/-! ## Counts of a diff -/

theorem DiffService.computeDiff_counts (a b : Document)
    (h : (DiffService.computeDiff a b).hasChanges = true) :
    (DiffService.computeDiff a b).added =
        some (DiffService.countType (DiffService.computeDiff a b).changes "added") ∧
      (DiffService.computeDiff a b).modified =
        some (DiffService.countType (DiffService.computeDiff a b).changes "modified") ∧
      (DiffService.computeDiff a b).deleted =
        some (DiffService.countType (DiffService.computeDiff a b).changes "deleted") ∧
      (DiffService.computeDiff a b).summary =
        DiffService.generateSummary (DiffService.computeDiff a b).changes := by
  unfold DiffService.computeDiff at h ⊢
  cases hd : deepDiff.diff a b with
  | none => rw [hd] at h; simp at h
  | some ds => exact ⟨rfl, rfl, rfl, rfl⟩

theorem DiffService.countType_sum (changes : List Change)
    (h : ∀ c ∈ changes, c.type ∈ ["added", "deleted", "modified", "array_modified"]) :
    DiffService.countType changes "added" + DiffService.countType changes "modified" +
      DiffService.countType changes "deleted" +
      DiffService.countType changes "array_modified" = changes.length := by
  induction changes with
  | nil => rfl
  | cons c cs ih =>
    have ih := ih (fun x hx => h x (List.mem_cons_of_mem _ hx))
    have hc := h c (by simp)
    simp only [List.mem_cons, List.mem_singleton, List.not_mem_nil, or_false] at hc
    unfold DiffService.countType at ih ⊢
    rcases hc with hc | hc | hc | hc <;>
      simp only [List.filter_cons, hc, List.length_cons] <;>
      simp only [show ("added" == "added") = true from by decide,
        show ("added" == "modified") = false from by decide,
        show ("added" == "deleted") = false from by decide,
        show ("added" == "array_modified") = false from by decide,
        show ("deleted" == "added") = false from by decide,
        show ("deleted" == "modified") = false from by decide,
        show ("deleted" == "deleted") = true from by decide,
        show ("deleted" == "array_modified") = false from by decide,
        show ("modified" == "added") = false from by decide,
        show ("modified" == "modified") = true from by decide,
        show ("modified" == "deleted") = false from by decide,
        show ("modified" == "array_modified") = false from by decide,
        show ("array_modified" == "added") = false from by decide,
        show ("array_modified" == "modified") = false from by decide,
        show ("array_modified" == "deleted") = false from by decide,
        show ("array_modified" == "array_modified") = true from by decide,
        if_true, Bool.false_eq_true, if_false, List.length_cons] <;> omega

theorem DiffService.computeDiff_type_mem (a b : Document) :
    ∀ c ∈ (DiffService.computeDiff a b).changes,
      c.type ∈ ["added", "deleted", "modified", "array_modified"] := by
  intro c hc
  rw [DiffService.computeDiff_changes, List.mem_map] at hc
  obtain ⟨d, _, hd⟩ := hc
  rw [← hd]
  exact DiffService.toChange_type_mem d

/-- C30 (as stated, refuted): when an element is appended to a sequence, `computeDiff` reports
one change, of type `array_modified`; the three counts are 0 and the summary is `No changes`
although `hasChanges` is true. -/
theorem C30_array_change_uncounted :
    (DiffService.computeDiff (.obj [("a", .arr [.num 1])])
        (.obj [("a", .arr [.num 1, .num 2])])).hasChanges = true ∧
    (DiffService.computeDiff (.obj [("a", .arr [.num 1])])
        (.obj [("a", .arr [.num 1, .num 2])])).changes.length = 1 ∧
    (DiffService.computeDiff (.obj [("a", .arr [.num 1])])
        (.obj [("a", .arr [.num 1, .num 2])])).added = some 0 ∧
    (DiffService.computeDiff (.obj [("a", .arr [.num 1])])
        (.obj [("a", .arr [.num 1, .num 2])])).modified = some 0 ∧
    (DiffService.computeDiff (.obj [("a", .arr [.num 1])])
        (.obj [("a", .arr [.num 1, .num 2])])).deleted = some 0 ∧
    (DiffService.computeDiff (.obj [("a", .arr [.num 1])])
        (.obj [("a", .arr [.num 1, .num 2])])).summary = "No changes" := by
  decide

/-- C30 (amended): for all documents a and b with `computeDiff(a, b).hasChanges = true`, the
counts added, modified and deleted are present and, together with the number of changes of type
`array_modified`, add up to the length of the changes list; when some change is not of type
`array_modified`, at least one of the three counts is positive and the summary is not
`No changes`; when every change is of type `array_modified`, the three counts are 0 and the
summary is `No changes`. -/
theorem C30_counts_cover_non_array_changes (a b : Document)
    (h : (DiffService.computeDiff a b).hasChanges = true) :
    ∃ added modified deleted : Nat,
      (DiffService.computeDiff a b).added = some added ∧
      (DiffService.computeDiff a b).modified = some modified ∧
      (DiffService.computeDiff a b).deleted = some deleted ∧
      added + modified + deleted +
          DiffService.countType (DiffService.computeDiff a b).changes "array_modified" =
        (DiffService.computeDiff a b).changes.length ∧
      ((∃ c ∈ (DiffService.computeDiff a b).changes, c.type ≠ "array_modified") →
        0 < added + modified + deleted ∧
        (DiffService.computeDiff a b).summary ≠ "No changes") ∧
      ((∀ c ∈ (DiffService.computeDiff a b).changes, c.type = "array_modified") →
        added = 0 ∧ modified = 0 ∧ deleted = 0 ∧
        (DiffService.computeDiff a b).summary = "No changes") := by
  obtain ⟨ha, hm, hd, hs⟩ := DiffService.computeDiff_counts a b h
  have hsum := DiffService.countType_sum _ (DiffService.computeDiff_type_mem a b)
  refine ⟨_, _, _, ha, hm, hd, hsum, ?_, ?_⟩
  · rintro ⟨c, hc, hne⟩
    have hpos : 0 < DiffService.countType (DiffService.computeDiff a b).changes "added" +
        DiffService.countType (DiffService.computeDiff a b).changes "modified" +
        DiffService.countType (DiffService.computeDiff a b).changes "deleted" := by
      by_contra hzero
      have h0 : DiffService.countType (DiffService.computeDiff a b).changes "added" = 0 ∧
          DiffService.countType (DiffService.computeDiff a b).changes "modified" = 0 ∧
          DiffService.countType (DiffService.computeDiff a b).changes "deleted" = 0 := by
        omega
      simp only [DiffService.countType_eq_zero] at h0
      have hmem := DiffService.computeDiff_type_mem a b c hc
      simp only [List.mem_cons, List.mem_singleton, List.not_mem_nil, or_false] at hmem
      rcases hmem with hmem | hmem | hmem | hmem
      · exact h0.1 c hc hmem
      · exact h0.2.2 c hc hmem
      · exact h0.2.1 c hc hmem
      · exact hne hmem
    refine ⟨hpos, ?_⟩
    rw [hs, Ne, DiffService.generateSummary_noChanges_iff]
    omega
  · intro hall
    have h0 : ∀ t, t ≠ "array_modified" →
        DiffService.countType (DiffService.computeDiff a b).changes t = 0 := by
      intro t ht
      rw [DiffService.countType_eq_zero]
      intro c hc hct
      exact ht (hct ▸ hall c hc)
    have h1 := h0 "added" (by decide)
    have h2 := h0 "modified" (by decide)
    have h3 := h0 "deleted" (by decide)
    exact ⟨h1, h2, h3, by rw [hs]; exact DiffService.generateSummary_none _ h1 h2 h3⟩

/-- C30, witness: a value changed and an element appended in one comparison. -/
theorem C30_counts_cover_non_array_changes_witness :
    (DiffService.computeDiff (.obj [("v", .num 1), ("a", .arr [])])
        (.obj [("v", .num 2), ("a", .arr [.num 1])])).hasChanges = true ∧
    ∃ added modified deleted : Nat,
      (DiffService.computeDiff (.obj [("v", .num 1), ("a", .arr [])])
        (.obj [("v", .num 2), ("a", .arr [.num 1])])).added = some added ∧
      (DiffService.computeDiff (.obj [("v", .num 1), ("a", .arr [])])
        (.obj [("v", .num 2), ("a", .arr [.num 1])])).modified = some modified ∧
      (DiffService.computeDiff (.obj [("v", .num 1), ("a", .arr [])])
        (.obj [("v", .num 2), ("a", .arr [.num 1])])).deleted = some deleted ∧
      added + modified + deleted +
          DiffService.countType (DiffService.computeDiff (.obj [("v", .num 1), ("a", .arr [])])
            (.obj [("v", .num 2), ("a", .arr [.num 1])])).changes "array_modified" =
        (DiffService.computeDiff (.obj [("v", .num 1), ("a", .arr [])])
          (.obj [("v", .num 2), ("a", .arr [.num 1])])).changes.length ∧
      ((∃ c ∈ (DiffService.computeDiff (.obj [("v", .num 1), ("a", .arr [])])
          (.obj [("v", .num 2), ("a", .arr [.num 1])])).changes, c.type ≠ "array_modified") →
        0 < added + modified + deleted ∧
        (DiffService.computeDiff (.obj [("v", .num 1), ("a", .arr [])])
          (.obj [("v", .num 2), ("a", .arr [.num 1])])).summary ≠ "No changes") ∧
      ((∀ c ∈ (DiffService.computeDiff (.obj [("v", .num 1), ("a", .arr [])])
          (.obj [("v", .num 2), ("a", .arr [.num 1])])).changes, c.type = "array_modified") →
        added = 0 ∧ modified = 0 ∧ deleted = 0 ∧
        (DiffService.computeDiff (.obj [("v", .num 1), ("a", .arr [])])
          (.obj [("v", .num 2), ("a", .arr [.num 1])])).summary = "No changes") :=
  ⟨by decide, C30_counts_cover_non_array_changes _ _ (by decide)⟩
